import Mathlib

/-!
# Collaboration board: object store, identity remap and event reconciliation

A shallow embedding of `ObjectManager.js`, of the selection state of
`SelectionSystem.js`, and of `updateLocalIdToRealId`, `loadInitialState` and
`processEvents` of `app.js`.

Modelling conventions.

* JavaScript numbers that carry coordinates are rationals (`ℚ`): the local
  gestures produce fractional coordinates (`sendCreateStroke` rounds them only
  when they are sent), ledger events produce integers.  Rounding of IEEE
  doubles is not modelled.
* A stroke's flat array `[x0, y0, x1, y1, ...]` is the list of its coordinate
  pairs, so `points.length` of the source is `2 * points.length` here.  Arrays
  of odd length (whose last `points[i + 1]` is `undefined`) are outside the
  embedding.
* A JavaScript `Map` is an association list in insertion order; a `Set` is a
  list in insertion order.  Objects are values: the source never stores one
  object under two keys.
* Addresses are compared after `toLowerCase()` in the source; an address is
  represented by its numeric value, so that comparison is equality.
* The `async` functions are run to completion without interleaving.
-/

namespace Board

/-! ## Data model -/

/-- Axis-aligned rectangle `{ x, y, width, height }`. -/
structure Bounds where
  x : ℚ
  y : ℚ
  width : ℚ
  height : ℚ
deriving DecidableEq

/-- The strings of `CONFIG.objectTypes`. -/
inductive ObjType where
  | stroke
  | rectangle
  | ellipse
  | line
  | arrow
  | stickyNote
  | text
deriving DecidableEq

/-- A participant address (its numeric value). -/
abbrev Address := Nat

/-- A point sequence: the pairs of the flat array `[x0, y0, x1, y1, ...]`. -/
abbrev Points := List (ℚ × ℚ)

/-- A drawing object.  A field that the source leaves `undefined` or `null`
is `none`; `layer` and `strokeWidth` are only ever read through `|| 0` and
`|| 5`, so an absent value is `0`. -/
structure DrawObj where
  id : Int
  type : Option ObjType
  creator : Option Address
  colorIndex : Nat
  strokeWidth : ℚ
  layer : Int
  bounds : Option Bounds
  points : Option Points
  content : Option String
  bgColorIndex : Option Nat
  rotation : Option Int
  isLocked : Bool
deriving DecidableEq

/-- The `updates` argument of `updateObject`: each field is `some v` when
the key is present in the object literal. -/
structure Updates where
  id : Option Int := none
  type : Option ObjType := none
  creator : Option Address := none
  colorIndex : Option Nat := none
  strokeWidth : Option ℚ := none
  layer : Option Int := none
  bounds : Option Bounds := none
  points : Option Points := none
  content : Option String := none
  bgColorIndex : Option Nat := none
  rotation : Option Int := none
  isLocked : Option Bool := none
deriving DecidableEq

/-- `Object.assign(obj, updates)`. -/
def DrawObj.assign (obj : DrawObj) (u : Updates) : DrawObj :=
  { id := u.id.getD obj.id
    type := match u.type with
      | some t => some t
      | none => obj.type
    creator := match u.creator with
      | some c => some c
      | none => obj.creator
    colorIndex := u.colorIndex.getD obj.colorIndex
    strokeWidth := u.strokeWidth.getD obj.strokeWidth
    layer := u.layer.getD obj.layer
    bounds := match u.bounds with
      | some b => some b
      | none => obj.bounds
    points := match u.points with
      | some p => some p
      | none => obj.points
    content := match u.content with
      | some c => some c
      | none => obj.content
    bgColorIndex := match u.bgColorIndex with
      | some c => some c
      | none => obj.bgColorIndex
    rotation := match u.rotation with
      | some r => some r
      | none => obj.rotation
    isLocked := u.isLocked.getD obj.isLocked }

/-! ## JavaScript `Map` and `Set` in insertion order -/

/-- A `Map` with integer keys, as the list of its entries in insertion order. -/
abbrev JsMap (β : Type) := List (Int × β)

/-- The method `Map.prototype.get`. -/
def mapGet {β : Type} : JsMap β → Int → Option β
  | [], _ => none
  | e :: rest, key => if e.1 = key then some e.2 else mapGet rest key

/-- The method `Map.prototype.has`. -/
def mapHas {β : Type} (m : JsMap β) (key : Int) : Bool :=
  (mapGet m key).isSome

/-- The method `Map.prototype.set`: an existing key keeps its position, a new key goes last. -/
def mapSet {β : Type} (m : JsMap β) (key : Int) (v : β) : JsMap β :=
  if mapHas m key then m.map (fun e => if e.1 = key then (key, v) else e)
  else m ++ [(key, v)]

/-- The method `Map.prototype.delete`. -/
def mapDelete {β : Type} (m : JsMap β) (key : Int) : JsMap β :=
  m.filter (fun e => decide (e.1 ≠ key))

/-- The keys of `Map.prototype.keys()`, in insertion order. -/
def mapKeys {β : Type} (m : JsMap β) : List Int :=
  m.map (fun e => e.1)

/-- A `Set` of integers, as the list of its members in insertion order. -/
abbrev JsSet := List Int

/-- The method `Set.prototype.has`. -/
def setHas (s : JsSet) (v : Int) : Bool :=
  decide (v ∈ s)

/-- The method `Set.prototype.add`. -/
def setAdd (s : JsSet) (v : Int) : JsSet :=
  if setHas s v then s else s ++ [v]

/-- The method `Set.prototype.delete`. -/
def setDelete (s : JsSet) (v : Int) : JsSet :=
  s.filter (fun w => decide (w ≠ v))

/-! ## ObjectManager.js -/

/-- The fields of `ObjectManager`. -/
structure ObjectManager where
  objects : JsMap DrawObj
  layerOrder : List Int
  deletedObjects : JsSet
  nextLocalId : Int
deriving DecidableEq

namespace ObjectManager

/-- The constructor. -/
def new : ObjectManager :=
  { objects := [], layerOrder := [], deletedObjects := [], nextLocalId := -1 }

/-- The sort key `(obj?.layer || 0)` of `_updateLayerOrder`. -/
def layerKey (om : ObjectManager) (id : Int) : Int :=
  match mapGet om.objects id with
  | some o => o.layer
  | none => 0

/-- The method `_updateLayerOrder`: the keys that are not tombstoned, sorted by layer.
`Array.prototype.sort` is stable, and so is insertion sort. -/
def _updateLayerOrder (om : ObjectManager) : ObjectManager :=
  { om with
    layerOrder :=
      ((mapKeys om.objects).filter (fun id => !setHas om.deletedObjects id)).insertionSort
        (fun a b => om.layerKey a ≤ om.layerKey b) }

/-- The method `addObject`. -/
def addObject (om : ObjectManager) (objData : DrawObj) : ObjectManager :=
  _updateLayerOrder { om with objects := mapSet om.objects objData.id objData }

/-- The method `updateObject`. -/
def updateObject (om : ObjectManager) (objectId : Int) (updates : Updates) : ObjectManager :=
  match mapGet om.objects objectId with
  | some obj =>
    if !setHas om.deletedObjects objectId then
      let om1 := { om with objects := mapSet om.objects objectId (obj.assign updates) }
      if updates.layer.isSome then _updateLayerOrder om1 else om1
    else om
  | none => om

/-- The method `deleteObject`. -/
def deleteObject (om : ObjectManager) (objectId : Int) : ObjectManager :=
  _updateLayerOrder { om with deletedObjects := setAdd om.deletedObjects objectId }

/-- The method `getObject`. -/
def getObject (om : ObjectManager) (objectId : Int) : Option DrawObj :=
  if setHas om.deletedObjects objectId then none else mapGet om.objects objectId

/-- The ids that `getObjectsInLayerOrder` maps to objects. -/
def visibleIds (om : ObjectManager) : List Int :=
  om.layerOrder.filter (fun id => !setHas om.deletedObjects id)

/-- The method `getObjectsInLayerOrder`; an entry is `none` where `objects.get(id)` is
`undefined`. -/
def getObjectsInLayerOrder (om : ObjectManager) : List (Option DrawObj) :=
  om.visibleIds.map (fun id => mapGet om.objects id)

/-- The method `_pointInBounds`. -/
def _pointInBounds (x y : ℚ) (obj : DrawObj) : Bool :=
  match obj.bounds with
  | none => false
  | some b =>
    let pad := (if obj.strokeWidth = 0 then 5 else obj.strokeWidth) + 5
    decide (x ≥ b.x - pad) && decide (x ≤ b.x + b.width + pad) &&
      decide (y ≥ b.y - pad) && decide (y ≤ b.y + b.height + pad)

/-- The loop of `getObjectAtPoint` over the reversed layer order. -/
def hitScan (om : ObjectManager) (x y : ℚ) : List Int → Option DrawObj
  | [] => none
  | id :: rest =>
    if setHas om.deletedObjects id then hitScan om x y rest
    else
      match mapGet om.objects id with
      | some obj => if _pointInBounds x y obj then some obj else hitScan om x y rest
      | none => hitScan om x y rest

/-- The method `getObjectAtPoint`. -/
def getObjectAtPoint (om : ObjectManager) (x y : ℚ) : Option DrawObj :=
  hitScan om x y om.layerOrder.reverse

/-- The running minima and maxima of the loop of `calculateStrokeBounds`. -/
structure Extent where
  minX : ℚ
  minY : ℚ
  maxX : ℚ
  maxY : ℚ
deriving DecidableEq

/-- One iteration of the loop of `calculateStrokeBounds`. -/
def extentStep (e : Extent) (p : ℚ × ℚ) : Extent :=
  { minX := min e.minX p.1
    maxX := max e.maxX p.1
    minY := min e.minY p.2
    maxY := max e.maxY p.2 }

/-- The expression `v || 1` on a number. -/
def orOne (v : ℚ) : ℚ :=
  if v = 0 then 1 else v

/-- The method `calculateStrokeBounds`.  The first iteration turns the seeds
`Infinity` and `-Infinity` into the first point's coordinates; the remaining
iterations are a fold. -/
def calculateStrokeBounds : Points → Bounds
  | [] => { x := 0, y := 0, width := 0, height := 0 }
  | (px, py) :: rest =>
    let e := rest.foldl extentStep { minX := px, minY := py, maxX := px, maxY := py }
    { x := e.minX
      y := e.minY
      width := orOne (e.maxX - e.minX)
      height := orOne (e.maxY - e.minY) }

/-- The method `generateLocalId`: the id returned and the next state. -/
def generateLocalId (om : ObjectManager) : Int × ObjectManager :=
  (om.nextLocalId, { om with nextLocalId := om.nextLocalId - 1 })

/-- The method `clear`. -/
def clear (om : ObjectManager) : ObjectManager :=
  { om with objects := [], layerOrder := [], deletedObjects := [] }

end ObjectManager

/-! ## SelectionSystem.js: state -/

/-- A point `{ x, y }`. -/
structure Point where
  x : ℚ
  y : ℚ
deriving DecidableEq

/-- The eight resize handles. -/
inductive Handle where
  | n
  | s
  | e
  | w
  | ne
  | nw
  | se
  | sw
deriving DecidableEq

/-- The transform modes `'move'` and `'resize-' + handle`. -/
inductive TransformMode where
  | move
  | resize (h : Handle)
deriving DecidableEq

/-- The fields of `SelectionSystem` (the object manager it refers to is passed alongside). -/
structure SelectionSystem where
  selectedIds : JsSet
  selectionBounds : Option Bounds
  transformMode : Option TransformMode
  dragStart : Option Point
  originalBounds : Option Bounds
  originalObjectBounds : JsMap Bounds
  originalObjectPoints : JsMap Points
deriving DecidableEq

namespace SelectionSystem

/-- The constructor. -/
def new : SelectionSystem :=
  { selectedIds := [], selectionBounds := none, transformMode := none, dragStart := none,
    originalBounds := none, originalObjectBounds := [], originalObjectPoints := [] }

/-- The method `deselectAll`. -/
def deselectAll (sel : SelectionSystem) : SelectionSystem :=
  { sel with selectedIds := [], selectionBounds := none }

end SelectionSystem

/-! ## app.js: identity remap -/

/-- The module state of `app.js` that the reconciliation code touches. -/
structure App where
  objectManager : ObjectManager
  selectionSystem : SelectionSystem
deriving DecidableEq

/-- The function `updateLocalIdToRealId`. -/
def updateLocalIdToRealId (app : App) (localId realId : Int) : App :=
  match mapGet app.objectManager.objects localId with
  | some obj =>
    { objectManager :=
        ObjectManager._updateLayerOrder
          { app.objectManager with
            objects :=
              mapSet (mapDelete app.objectManager.objects localId) realId
                { obj with id := realId } }
      selectionSystem :=
        if setHas app.selectionSystem.selectedIds localId then
          { app.selectionSystem with
            selectedIds := setAdd (setDelete app.selectionSystem.selectedIds localId) realId }
        else app.selectionSystem }
  | none => app

/-! ## The ledger: events and attribute lookup -/

/-- The result of `getObjectInfo`. -/
structure ObjectInfo where
  creator : Address
  objectType : Nat
  colorIndex : Nat
  strokeWidth : Nat
  layer : Nat
  isLocked : Bool
  isDeleted : Bool
deriving DecidableEq

/-- The event `StrokePoints(objectId, points)`. -/
structure StrokePointsEvent where
  blockNumber : Nat
  objectId : Nat
  points : List (Int × Int)
deriving DecidableEq

/-- The event `ShapeGeometry(objectId, x, y, width, height, rotation)`. -/
structure ShapeGeometryEvent where
  blockNumber : Nat
  objectId : Nat
  x : Int
  y : Int
  width : Nat
  height : Nat
  rotation : Nat
deriving DecidableEq

/-- The event `StickyNoteData(objectId, x, y, width, height, content, bgColorIndex)`. -/
structure StickyNoteDataEvent where
  blockNumber : Nat
  objectId : Nat
  x : Int
  y : Int
  width : Nat
  height : Nat
  content : String
  bgColorIndex : Nat
deriving DecidableEq

/-- The event `TextData(objectId, x, y, content, fontSize)`. -/
structure TextDataEvent where
  blockNumber : Nat
  objectId : Nat
  x : Int
  y : Int
  content : String
  fontSize : Nat
deriving DecidableEq

/-- The event `ObjectMoved(user, objectId, newX, newY)`. -/
structure ObjectMovedEvent where
  blockNumber : Nat
  user : Address
  objectId : Nat
  newX : Int
  newY : Int
deriving DecidableEq

/-- The event `ObjectDeleted(user, objectId)`. -/
structure ObjectDeletedEvent where
  blockNumber : Nat
  user : Address
  objectId : Nat
deriving DecidableEq

/-- The event `ContentUpdated(objectId, newContent)`; it carries no originator. -/
structure ContentUpdatedEvent where
  blockNumber : Nat
  objectId : Nat
  newContent : String
deriving DecidableEq

/-- The event `CanvasCleared(user)`. -/
structure CanvasClearedEvent where
  blockNumber : Nat
  user : Address
deriving DecidableEq

/-- The event `UserJoined(user, nickname)`. -/
structure UserJoinedEvent where
  blockNumber : Nat
  user : Address
  nickname : String
deriving DecidableEq

/-- The event `UserLeft(user)`. -/
structure UserLeftEvent where
  blockNumber : Nat
  user : Address
deriving DecidableEq

/-- The event `NicknameUpdated(user, newNickname)`. -/
structure NicknameUpdatedEvent where
  blockNumber : Nat
  user : Address
  newNickname : String
deriving DecidableEq

/-- The event `CursorMoved(user, x, y)`. -/
structure CursorMovedEvent where
  blockNumber : Nat
  user : Address
  x : Int
  y : Int
deriving DecidableEq

/-- The ledger as the code sees it: each event stream in chain order, and the
attribute lookup `getObjectInfo`, which is `none` where the call throws. -/
structure Ledger where
  strokePoints : List StrokePointsEvent := []
  shapeGeometry : List ShapeGeometryEvent := []
  stickyNoteData : List StickyNoteDataEvent := []
  textData : List TextDataEvent := []
  objectMoved : List ObjectMovedEvent := []
  objectDeleted : List ObjectDeletedEvent := []
  contentUpdated : List ContentUpdatedEvent := []
  canvasCleared : List CanvasClearedEvent := []
  userJoined : List UserJoinedEvent := []
  userLeft : List UserLeftEvent := []
  nicknameUpdated : List NicknameUpdatedEvent := []
  cursorMoved : List CursorMovedEvent := []
  getObjectInfo : Nat → Option ObjectInfo := fun _ => none

/-- The call `contract.queryFilter(filter, fromBlock, toBlock)` on one event stream. -/
def queryFilter {ε : Type} (blockNumber : ε → Nat) (events : List ε) (fromBlock toBlock : Nat) :
    List ε :=
  events.filter (fun e => decide (fromBlock ≤ blockNumber e) && decide (blockNumber e ≤ toBlock))

/-- The table lookup `CONFIG.objectTypes[i]`. -/
def objectTypes (i : Nat) : Option ObjType :=
  [ObjType.stroke, ObjType.rectangle, ObjType.ellipse, ObjType.line, ObjType.arrow,
    ObjType.stickyNote, ObjType.text][i]?

/-- The expression `points.map(p => p.toNumber ? p.toNumber() : p)`. -/
def toNumbers (points : List (Int × Int)) : Points :=
  points.map (fun p => ((p.1 : ℚ), (p.2 : ℚ)))

/-! ## app.js: the objects built from creation events -/

/-- The stroke object literal of the `StrokePoints` handlers, with its bounds computed. -/
def strokeObject (event : StrokePointsEvent) (info : ObjectInfo) : DrawObj :=
  { id := event.objectId
    type := some ObjType.stroke
    creator := some info.creator
    colorIndex := info.colorIndex
    strokeWidth := info.strokeWidth
    layer := info.layer
    points := some (toNumbers event.points)
    bounds := some (ObjectManager.calculateStrokeBounds (toNumbers event.points))
    content := none
    bgColorIndex := none
    rotation := none
    isLocked := false }

/-- The object literal of the `ShapeGeometry` handlers. -/
def shapeObject (event : ShapeGeometryEvent) (info : ObjectInfo) : DrawObj :=
  { id := event.objectId
    type := objectTypes info.objectType
    creator := some info.creator
    colorIndex := info.colorIndex
    strokeWidth := info.strokeWidth
    layer := info.layer
    bounds := some { x := event.x, y := event.y, width := event.width, height := event.height }
    rotation := some event.rotation
    points := none
    content := none
    bgColorIndex := none
    isLocked := false }

/-- The object literal of the `StickyNoteData` handlers. -/
def stickyObject (event : StickyNoteDataEvent) (info : ObjectInfo) : DrawObj :=
  { id := event.objectId
    type := some ObjType.stickyNote
    creator := some info.creator
    colorIndex := info.colorIndex
    bgColorIndex := some event.bgColorIndex
    strokeWidth := 0
    layer := info.layer
    bounds := some { x := event.x, y := event.y, width := event.width, height := event.height }
    content := some event.content
    points := none
    rotation := none
    isLocked := false }

/-- The object literal of the `TextData` handlers. -/
def textObject (event : TextDataEvent) (info : ObjectInfo) : DrawObj :=
  { id := event.objectId
    type := some ObjType.text
    creator := some info.creator
    colorIndex := info.colorIndex
    strokeWidth := event.fontSize
    layer := info.layer
    bounds := some { x := event.x, y := event.y, width := 100, height := event.fontSize * 5 }
    content := some event.content
    points := none
    bgColorIndex := none
    rotation := none
    isLocked := false }

/-- The body of both `ObjectMoved` loops once `obj` and `obj.bounds` are known: the
bounds origin becomes the event's position and a stroke's points are shifted by the
difference to the stored origin. -/
def moveObjectTo (obj : DrawObj) (b : Bounds) (newX newY : ℚ) : DrawObj :=
  { obj with
    bounds := some { b with x := newX, y := newY }
    points :=
      if obj.type = some ObjType.stroke then
        obj.points.map (fun pts => pts.map (fun p => (p.1 + (newX - b.x), p.2 + (newY - b.y))))
      else obj.points }

/-- The guarded body `if (obj && obj.bounds) { ... }` of both `ObjectMoved` loops. -/
def applyMove (om : ObjectManager) (objectId : Nat) (newX newY : Int) : ObjectManager :=
  match om.getObject objectId with
  | some obj =>
    match obj.bounds with
    | some b => { om with objects := mapSet om.objects objectId (moveObjectTo obj b newX newY) }
    | none => om
  | none => om

/-! ## app.js: full replay (`loadInitialState`) -/

/-- The lower bound `fromBlock` of `loadInitialState`: the block of the last
`CanvasCleared` event up to `currentBlock`, or `0`. -/
def replayFromBlock (L : Ledger) (currentBlock : Nat) : Nat :=
  match (queryFilter CanvasClearedEvent.blockNumber L.canvasCleared 0 currentBlock).getLast? with
  | some e => e.blockNumber
  | none => 0

/-- The set `deletedIds` of `loadInitialState`. -/
def replayDeletedIds (L : Ledger) (currentBlock : Nat) : JsSet :=
  (queryFilter ObjectDeletedEvent.blockNumber L.objectDeleted (replayFromBlock L currentBlock)
    currentBlock).foldl (fun s e => setAdd s e.objectId) []

/-- One iteration of a creation loop of `loadInitialState`; the four loops differ only in
the object literal `build`.  A lookup that throws is caught and the event is skipped. -/
def replayCreate (L : Ledger) (deletedIds : JsSet) (om : ObjectManager) (objectId : Nat)
    (build : ObjectInfo → DrawObj) : ObjectManager :=
  if setHas deletedIds objectId then om
  else if mapHas om.objects objectId then om
  else
    match L.getObjectInfo objectId with
    | none => om
    | some info => if info.isDeleted then om else om.addObject (build info)

/-- The four creation loops of `loadInitialState`, in source order: `StrokePoints`,
`ShapeGeometry`, `StickyNoteData`, `TextData`. -/
def replayCreations (L : Ledger) (currentBlock : Nat) (om : ObjectManager) : ObjectManager :=
  let fromBlock := replayFromBlock L currentBlock
  let deletedIds := replayDeletedIds L currentBlock
  let om1 := (queryFilter StrokePointsEvent.blockNumber L.strokePoints fromBlock currentBlock).foldl
    (fun om e => replayCreate L deletedIds om e.objectId (strokeObject e)) om
  let om2 := (queryFilter ShapeGeometryEvent.blockNumber L.shapeGeometry fromBlock
    currentBlock).foldl (fun om e => replayCreate L deletedIds om e.objectId (shapeObject e)) om1
  let om3 := (queryFilter StickyNoteDataEvent.blockNumber L.stickyNoteData fromBlock
    currentBlock).foldl (fun om e => replayCreate L deletedIds om e.objectId (stickyObject e)) om2
  (queryFilter TextDataEvent.blockNumber L.textData fromBlock currentBlock).foldl
    (fun om e => replayCreate L deletedIds om e.objectId (textObject e)) om3

/-- The `ObjectMoved` loop of `loadInitialState`. -/
def replayMoves (moved : List ObjectMovedEvent) (om : ObjectManager) : ObjectManager :=
  moved.foldl (fun om e => applyMove om e.objectId e.newX e.newY) om

/-- The object-store part of `loadInitialState` (the roster part acts on `cursors` only):
the creation loops, then the `ObjectMoved` loop. -/
def loadInitialState (L : Ledger) (currentBlock : Nat) (om : ObjectManager) : ObjectManager :=
  replayMoves
    (queryFilter ObjectMovedEvent.blockNumber L.objectMoved (replayFromBlock L currentBlock)
      currentBlock)
    (replayCreations L currentBlock om)

/-! ## app.js: incremental catch-up (`processEvents`) -/

/-- One iteration of a creation loop of `processEvents`. -/
def catchUpCreate (L : Ledger) (myAddress : Option Address) (om : ObjectManager) (objectId : Nat)
    (build : ObjectInfo → DrawObj) : ObjectManager :=
  if !mapHas om.objects objectId then
    match L.getObjectInfo objectId with
    | none => om
    | some info => if some info.creator ≠ myAddress then om.addObject (build info) else om
  else om

/-- One iteration of the `ObjectMoved` loop of `processEvents`. -/
def catchUpMove (myAddress : Option Address) (om : ObjectManager) (e : ObjectMovedEvent) :
    ObjectManager :=
  if some e.user = myAddress then om else applyMove om e.objectId e.newX e.newY

/-- One iteration of the `ObjectDeleted` loop of `processEvents`. -/
def catchUpDelete (myAddress : Option Address) (om : ObjectManager) (e : ObjectDeletedEvent) :
    ObjectManager :=
  if some e.user = myAddress then om else om.deleteObject e.objectId

/-- One iteration of the `ContentUpdated` loop of `processEvents`. -/
def catchUpContent (om : ObjectManager) (e : ContentUpdatedEvent) : ObjectManager :=
  match om.getObject e.objectId with
  | some obj =>
    { om with objects := mapSet om.objects e.objectId { obj with content := some e.newContent } }
  | none => om

/-- The loops of `processEvents` that act on the object store, in source order:
the four creation loops, `ObjectMoved`, `ObjectDeleted`, `ContentUpdated`.  The
`ObjectCreated` loop before them only writes to the log. -/
def catchUpLoops (L : Ledger) (myAddress : Option Address) (fromBlock toBlock : Nat)
    (om : ObjectManager) : ObjectManager :=
  let om1 := (queryFilter StrokePointsEvent.blockNumber L.strokePoints fromBlock toBlock).foldl
    (fun om e => catchUpCreate L myAddress om e.objectId (strokeObject e)) om
  let om2 := (queryFilter ShapeGeometryEvent.blockNumber L.shapeGeometry fromBlock toBlock).foldl
    (fun om e => catchUpCreate L myAddress om e.objectId (shapeObject e)) om1
  let om3 := (queryFilter StickyNoteDataEvent.blockNumber L.stickyNoteData fromBlock
    toBlock).foldl (fun om e => catchUpCreate L myAddress om e.objectId (stickyObject e)) om2
  let om4 := (queryFilter TextDataEvent.blockNumber L.textData fromBlock toBlock).foldl
    (fun om e => catchUpCreate L myAddress om e.objectId (textObject e)) om3
  let om5 := (queryFilter ObjectMovedEvent.blockNumber L.objectMoved fromBlock toBlock).foldl
    (catchUpMove myAddress) om4
  let om6 := (queryFilter ObjectDeletedEvent.blockNumber L.objectDeleted fromBlock toBlock).foldl
    (catchUpDelete myAddress) om5
  (queryFilter ContentUpdatedEvent.blockNumber L.contentUpdated fromBlock toBlock).foldl
    catchUpContent om6

/-- The object-store and selection part of `processEvents` (the remaining loops act on
`cursors` only): the store loops, then the `CanvasCleared` block. -/
def processEvents (L : Ledger) (myAddress : Option Address) (fromBlock toBlock : Nat)
    (app : App) : App :=
  match (queryFilter CanvasClearedEvent.blockNumber L.canvasCleared fromBlock toBlock).getLast? with
  | some lastClear =>
    if some lastClear.user ≠ myAddress then
      { objectManager := (catchUpLoops L myAddress fromBlock toBlock app.objectManager).clear
        selectionSystem := app.selectionSystem.deselectAll }
    else
      { objectManager := catchUpLoops L myAddress fromBlock toBlock app.objectManager
        selectionSystem := app.selectionSystem }
  | none =>
    { objectManager := catchUpLoops L myAddress fromBlock toBlock app.objectManager
      selectionSystem := app.selectionSystem }

/-! ## SelectionSystem.js: operations

The selection system holds a reference to the object manager, so its methods act on both:
they take and return the pair `App`. -/

namespace SelectionSystem

/-- One iteration of the loop of `_updateSelectionBounds`.  The accumulator is `none` while
`minX` is still the seed `Infinity`; the first object with bounds replaces the seeds
`Infinity` and `-Infinity` by its own edges. -/
def boxStep (om : ObjectManager) (acc : Option ObjectManager.Extent) (id : Int) :
    Option ObjectManager.Extent :=
  match om.getObject id with
  | some obj =>
    match obj.bounds with
    | some b =>
      match acc with
      | none =>
        some { minX := b.x, minY := b.y, maxX := b.x + b.width, maxY := b.y + b.height }
      | some e =>
        some
          { minX := min e.minX b.x
            minY := min e.minY b.y
            maxX := max e.maxX (b.x + b.width)
            maxY := max e.maxY (b.y + b.height) }
    | none => acc
  | none => acc

/-- The method `_updateSelectionBounds`. -/
def _updateSelectionBounds (om : ObjectManager) (sel : SelectionSystem) : SelectionSystem :=
  if sel.selectedIds.length = 0 then { sel with selectionBounds := none }
  else
    match sel.selectedIds.foldl (boxStep om) none with
    | some e =>
      { sel with
        selectionBounds :=
          some { x := e.minX, y := e.minY, width := e.maxX - e.minX, height := e.maxY - e.minY } }
    | none => sel

/-- The method `selectObject`. -/
def selectObject (app : App) (objectId : Int) (addToSelection : Bool) : App :=
  { app with
    selectionSystem :=
      _updateSelectionBounds app.objectManager
        { app.selectionSystem with
          selectedIds :=
            setAdd (if addToSelection then app.selectionSystem.selectedIds else []) objectId } }

/-- The method `getSelectedObjects`. -/
def getSelectedObjects (app : App) : List DrawObj :=
  app.selectionSystem.selectedIds.filterMap (fun id => app.objectManager.getObject id)

/-- The test `obj.type === 'stroke' && obj.points` followed by `Map.set(id, [...obj.points])`
on the map of original points; `guard` is the extra condition of the call site. -/
def snapshotPoints (originalObjectPoints : JsMap Points) (id : Int) (obj : DrawObj)
    (guard : Bool) : JsMap Points :=
  match obj.points with
  | some pts =>
    if obj.type = some ObjType.stroke ∧ guard = true then mapSet originalObjectPoints id pts
    else originalObjectPoints
  | none => originalObjectPoints

/-- One iteration of the loop of `startTransform`. -/
def startStep (app : App) (id : Int) : App :=
  match app.objectManager.getObject id with
  | none => app
  | some obj =>
    match obj.bounds with
    | some b =>
      { app with
        selectionSystem :=
          { app.selectionSystem with
            originalObjectBounds := mapSet app.selectionSystem.originalObjectBounds id b
            originalObjectPoints :=
              snapshotPoints app.selectionSystem.originalObjectPoints id obj true } }
    | none =>
      match obj.points with
      | some pts =>
        if obj.type = some ObjType.stroke ∧ 2 * pts.length ≥ 2 then
          { objectManager :=
              { app.objectManager with
                objects :=
                  mapSet app.objectManager.objects id
                    { obj with bounds := some (ObjectManager.calculateStrokeBounds pts) } }
            selectionSystem :=
              { app.selectionSystem with
                originalObjectBounds :=
                  mapSet app.selectionSystem.originalObjectBounds id
                    (ObjectManager.calculateStrokeBounds pts)
                originalObjectPoints :=
                  mapSet app.selectionSystem.originalObjectPoints id pts } }
        else app
      | none => app

/-- The method `startTransform`. -/
def startTransform (app : App) (mode : TransformMode) (startPoint : Point) : App :=
  app.selectionSystem.selectedIds.foldl startStep
    { app with
      selectionSystem :=
        { app.selectionSystem with
          transformMode := some mode
          dragStart := some startPoint
          originalBounds := app.selectionSystem.selectionBounds
          originalObjectBounds := []
          originalObjectPoints := [] } }

/-- The object literal `updates` of the move branch of `updateTransform`. -/
def moveUpdates (obj : DrawObj) (original : Bounds) (originalPoints : Option Points)
    (dx dy : ℚ) : Updates :=
  { bounds :=
      some
        { x := original.x + dx, y := original.y + dy, width := original.width,
          height := original.height }
    points :=
      if obj.type = some ObjType.stroke then
        originalPoints.map (fun pts => pts.map (fun p => (p.1 + dx, p.2 + dy)))
      else none }

/-- One iteration of the loop of the move branch of `updateTransform`. -/
def moveStep (dx dy : ℚ) (app : App) (id : Int) : App :=
  match app.objectManager.getObject id with
  | none => app
  | some obj =>
    match mapGet app.selectionSystem.originalObjectBounds id with
    | some original =>
      { app with
        objectManager :=
          app.objectManager.updateObject id
            (moveUpdates obj original (mapGet app.selectionSystem.originalObjectPoints id) dx dy) }
    | none =>
      match obj.bounds with
      | some b =>
        let points' :=
          snapshotPoints app.selectionSystem.originalObjectPoints id obj
            (!mapHas app.selectionSystem.originalObjectPoints id)
        { objectManager :=
            app.objectManager.updateObject id (moveUpdates obj b (mapGet points' id) dx dy)
          selectionSystem :=
            { app.selectionSystem with
              originalObjectBounds := mapSet app.selectionSystem.originalObjectBounds id b
              originalObjectPoints := points' } }
      | none =>
        match obj.points with
        | some pts =>
          if 2 * pts.length ≥ 2 then
            let calculated := ObjectManager.calculateStrokeBounds pts
            let obj' := { obj with bounds := some calculated }
            let points' :=
              snapshotPoints app.selectionSystem.originalObjectPoints id obj'
                (!mapHas app.selectionSystem.originalObjectPoints id)
            { objectManager :=
                ObjectManager.updateObject
                  { app.objectManager with
                    objects := mapSet app.objectManager.objects id obj' }
                  id (moveUpdates obj' calculated (mapGet points' id) dx dy)
              selectionSystem :=
                { app.selectionSystem with
                  originalObjectBounds :=
                    mapSet app.selectionSystem.originalObjectBounds id calculated
                  originalObjectPoints := points' } }
          else app
        | none => app

/-- The value of a quotient of two finite numbers in JavaScript. -/
inductive JsQuotient where
  | finite (q : ℚ)
  | posInfinity
  | negInfinity
  | notANumber
deriving DecidableEq

/-- The quotient `a / b` of two finite numbers; a zero divisor is `+0`. -/
def jsDivide (a b : ℚ) : JsQuotient :=
  if b = 0 then
    if 0 < a then JsQuotient.posInfinity
    else if a < 0 then JsQuotient.negInfinity
    else JsQuotient.notANumber
  else JsQuotient.finite (a / b)

/-- The call `Math.max(0.1, t)`, as `some` when the result is a finite number. -/
def maxTenth : JsQuotient → Option ℚ
  | JsQuotient.finite q => some (max (1 / 10) q)
  | JsQuotient.posInfinity => none
  | JsQuotient.negInfinity => some (1 / 10)
  | JsQuotient.notANumber => none

/-- The test `mode.includes('e')` on a handle name. -/
def includesE : Handle → Bool
  | Handle.e => true
  | Handle.ne => true
  | Handle.se => true
  | _ => false

/-- The test `mode.includes('w')` on a handle name. -/
def includesW : Handle → Bool
  | Handle.w => true
  | Handle.nw => true
  | Handle.sw => true
  | _ => false

/-- The test `mode.includes('s')` on a handle name. -/
def includesS : Handle → Bool
  | Handle.s => true
  | Handle.se => true
  | Handle.sw => true
  | _ => false

/-- The test `mode.includes('n')` on a handle name. -/
def includesN : Handle → Bool
  | Handle.n => true
  | Handle.ne => true
  | Handle.nw => true
  | _ => false

/-- The scale factor of one axis in `_handleResize`: `1`, overwritten by
`Math.max(0.1, (extent + d) / extent)` when the handle holds the far edge (`e`, `s`) and then
by `Math.max(0.1, (extent - d) / extent)` when it holds the near edge (`w`, `n`).  It is
`none` when the factor is `Infinity` or `NaN`. -/
def axisScale (far near : Bool) (extent d : ℚ) : Option ℚ :=
  let s1 := if far then maxTenth (jsDivide (extent + d) extent) else some 1
  if near then maxTenth (jsDivide (extent - d) extent) else s1

/-- The offset of one axis in `_handleResize`: the drag when the handle holds the near edge. -/
def axisOffset (near : Bool) (d : ℚ) : ℚ :=
  if near then d else 0

/-- The bounds `updates.bounds` of `_handleResize` for one object. -/
def resizeBounds (ob original : Bounds) (scaleX scaleY offsetX offsetY : ℚ) : Bounds :=
  let relX := if ob.width > 0 then (original.x - ob.x) / ob.width else 0
  let relY := if ob.height > 0 then (original.y - ob.y) / ob.height else 0
  { x := ob.x + offsetX + relX * ob.width * scaleX
    y := ob.y + offsetY + relY * ob.height * scaleY
    width := max 10 (original.width * scaleX)
    height := max 10 (original.height * scaleY) }

/-- The re-projection of one stroke point in `_handleResize`. -/
def resizePoint (original newBounds : Bounds) (p : ℚ × ℚ) : ℚ × ℚ :=
  let relPx := if original.width > 0 then (p.1 - original.x) / original.width else 0
  let relPy := if original.height > 0 then (p.2 - original.y) / original.height else 0
  (newBounds.x + relPx * newBounds.width, newBounds.y + relPy * newBounds.height)

/-- The object literal `updates` of `_handleResize`. -/
def resizeUpdates (obj : DrawObj) (ob original : Bounds) (originalPoints : Option Points)
    (scaleX scaleY offsetX offsetY : ℚ) : Updates :=
  { bounds := some (resizeBounds ob original scaleX scaleY offsetX offsetY)
    points :=
      if obj.type = some ObjType.stroke then
        originalPoints.map (fun pts =>
          pts.map (resizePoint original (resizeBounds ob original scaleX scaleY offsetX offsetY)))
      else none }

/-- One iteration of the loop of `_handleResize`, for finite scale factors.  When
`getObject(id)` is `null` the call of `updateObject` does nothing. -/
def resizeStep (ob : Bounds) (scaleX scaleY offsetX offsetY : ℚ) (app : App) (id : Int) : App :=
  match mapGet app.selectionSystem.originalObjectBounds id with
  | none => app
  | some original =>
    match app.objectManager.getObject id with
    | none => app
    | some obj =>
      { app with
        objectManager :=
          app.objectManager.updateObject id
            (resizeUpdates obj ob original
              (mapGet app.selectionSystem.originalObjectPoints id) scaleX scaleY offsetX
              offsetY) }

/-- The method `_handleResize` for the handle `h`.  The result is `none` when a scale factor
is `Infinity` or `NaN` and `updateObject` assigns bounds computed from it, which are then not
finite numbers. -/
def _handleResize (app : App) (h : Handle) (dx dy : ℚ) : Option App :=
  match app.selectionSystem.originalBounds with
  | none => some app
  | some ob =>
    match axisScale (includesE h) (includesW h) ob.width dx,
      axisScale (includesS h) (includesN h) ob.height dy with
    | some scaleX, some scaleY =>
      some
        (app.selectionSystem.selectedIds.foldl
          (resizeStep ob scaleX scaleY (axisOffset (includesW h) dx) (axisOffset (includesN h) dy))
          app)
    | _, _ =>
      if app.selectionSystem.selectedIds.any (fun id =>
          (mapGet app.selectionSystem.originalObjectBounds id).isSome &&
            (app.objectManager.getObject id).isSome) then none
      else some app

/-- The method `updateTransform`; `none` as for `_handleResize`. -/
def updateTransform (app : App) (currentPoint : Point) : Option App :=
  match app.selectionSystem.transformMode, app.selectionSystem.dragStart with
  | some mode, some dragStart =>
    let dx := currentPoint.x - dragStart.x
    let dy := currentPoint.y - dragStart.y
    let moved : Option App :=
      match mode with
      | TransformMode.move => some (app.selectionSystem.selectedIds.foldl (moveStep dx dy) app)
      | TransformMode.resize h => _handleResize app h dx dy
    moved.map (fun app' =>
      { app' with
        selectionSystem := _updateSelectionBounds app'.objectManager app'.selectionSystem })
  | _, _ => some app

/-- The method `endTransform`: the result `{ mode, objects }` and the next state. -/
def endTransform (app : App) : (Option TransformMode × List DrawObj) × App :=
  ((app.selectionSystem.transformMode, getSelectedObjects app),
    { app with
      selectionSystem :=
        { app.selectionSystem with
          transformMode := none
          dragStart := none
          originalBounds := none
          originalObjectBounds := []
          originalObjectPoints := [] } })

end SelectionSystem

open ObjectManager SelectionSystem

/-! ## Vocabulary of the properties -/

/-- A call of one of the mutating store methods `addObject`, `updateObject`, `deleteObject`. -/
inductive StoreCall where
  | add (objData : DrawObj)
  | update (objectId : Int) (updates : Updates)
  | delete (objectId : Int)

/-- Performs one store call. -/
def StoreCall.run (om : ObjectManager) : StoreCall → ObjectManager
  | StoreCall.add objData => om.addObject objData
  | StoreCall.update objectId updates => om.updateObject objectId updates
  | StoreCall.delete objectId => om.deleteObject objectId

/-- The x coordinates that occur in a point sequence. -/
def xCoords (pts : Points) : Set ℚ :=
  {x | ∃ p ∈ pts, p.1 = x}

/-- The y coordinates that occur in a point sequence. -/
def yCoords (pts : Points) : Set ℚ :=
  {y | ∃ p ∈ pts, p.2 = y}

/-- The box that the stroke-bounds property describes for `pts`: its origin is the least
x and the least y, and each dimension is the span between the greatest and the least
coordinate, or `1` where that span is zero. -/
def IsStrokeBox (pts : Points) (b : Bounds) : Prop :=
  IsLeast (xCoords pts) b.x ∧ IsLeast (yCoords pts) b.y ∧
    ∃ hiX hiY, IsGreatest (xCoords pts) hiX ∧ IsGreatest (yCoords pts) hiY ∧
      b.width = (if hiX - b.x = 0 then 1 else hiX - b.x) ∧
      b.height = (if hiY - b.y = 0 then 1 else hiY - b.y)

/-- Every creation, move, delete and clear event of the block range originates from the
participant `me`.  A creation event's originator is the creator that the attribute lookup
reports for its id. -/
def LocalOnlyRange (L : Ledger) (me : Address) (fromBlock toBlock : Nat) : Prop :=
  (∀ e ∈ queryFilter StrokePointsEvent.blockNumber L.strokePoints fromBlock toBlock,
      ∀ info, L.getObjectInfo e.objectId = some info → info.creator = me) ∧
  (∀ e ∈ queryFilter ShapeGeometryEvent.blockNumber L.shapeGeometry fromBlock toBlock,
      ∀ info, L.getObjectInfo e.objectId = some info → info.creator = me) ∧
  (∀ e ∈ queryFilter StickyNoteDataEvent.blockNumber L.stickyNoteData fromBlock toBlock,
      ∀ info, L.getObjectInfo e.objectId = some info → info.creator = me) ∧
  (∀ e ∈ queryFilter TextDataEvent.blockNumber L.textData fromBlock toBlock,
      ∀ info, L.getObjectInfo e.objectId = some info → info.creator = me) ∧
  (∀ e ∈ queryFilter ObjectMovedEvent.blockNumber L.objectMoved fromBlock toBlock,
      e.user = me) ∧
  (∀ e ∈ queryFilter ObjectDeletedEvent.blockNumber L.objectDeleted fromBlock toBlock,
      e.user = me) ∧
  (∀ e ∈ queryFilter CanvasClearedEvent.blockNumber L.canvasCleared fromBlock toBlock,
      e.user = me)

/-- A creation event for `id` is settled in `om` when `replayCreate` skips it. -/
def Settled (L : Ledger) (d : JsSet) (om : ObjectManager) (id : Nat) : Prop :=
  setHas d id = true ∨ mapHas om.objects id = true ∨ L.getObjectInfo id = none ∨
    ∃ info, L.getObjectInfo id = some info ∧ info.isDeleted = true

/-- Every key of `om` is a key of `om'`. -/
def KeysLe (om om' : ObjectManager) : Prop :=
  ∀ k, mapHas om.objects k = true → mapHas om'.objects k = true

/-- All creation events of the replay range are settled in `om`. -/
def AllSettled (L : Ledger) (currentBlock : Nat) (om : ObjectManager) : Prop :=
  (∀ e ∈ queryFilter StrokePointsEvent.blockNumber L.strokePoints
      (replayFromBlock L currentBlock) currentBlock,
    Settled L (replayDeletedIds L currentBlock) om e.objectId) ∧
  (∀ e ∈ queryFilter ShapeGeometryEvent.blockNumber L.shapeGeometry
      (replayFromBlock L currentBlock) currentBlock,
    Settled L (replayDeletedIds L currentBlock) om e.objectId) ∧
  (∀ e ∈ queryFilter StickyNoteDataEvent.blockNumber L.stickyNoteData
      (replayFromBlock L currentBlock) currentBlock,
    Settled L (replayDeletedIds L currentBlock) om e.objectId) ∧
  (∀ e ∈ queryFilter TextDataEvent.blockNumber L.textData
      (replayFromBlock L currentBlock) currentBlock,
    Settled L (replayDeletedIds L currentBlock) om e.objectId)

/-! ## Sample states -/

/-- A provisional stroke as the pen tool creates it. -/
def sampleStroke : DrawObj :=
  { id := -1, type := some ObjType.stroke, creator := some 7, colorIndex := 0, strokeWidth := 3,
    layer := 1, bounds := some { x := 10, y := 20, width := 30, height := 1 },
    points := some [(10, 20), (40, 20)], content := none, bgColorIndex := none, rotation := none,
    isLocked := false }

/-- A store holding the provisional stroke, which is also selected. -/
def sampleApp : App :=
  { objectManager := ObjectManager.new.addObject sampleStroke
    selectionSystem := { SelectionSystem.new with selectedIds := [-1] } }

/-- A store holding the provisional stroke while the selection holds the id `42`, which
is not a key of the store. -/
def staleSelectionApp : App :=
  { objectManager := ObjectManager.new.addObject sampleStroke
    selectionSystem := { SelectionSystem.new with selectedIds := [42] } }

/-- A confirmed stroke with canonical id `5`, created by participant `9`. -/
def remoteStroke : DrawObj :=
  { id := 5, type := some ObjType.stroke, creator := some 9, colorIndex := 0, strokeWidth := 3,
    layer := 1, bounds := some { x := 10, y := 20, width := 30, height := 1 },
    points := some [(10, 20), (40, 20)], content := none, bgColorIndex := none, rotation := none,
    isLocked := false }

/-- A sticky note with canonical id `5`, created by the local participant `7`. -/
def localNote : DrawObj :=
  { id := 5, type := some ObjType.stickyNote, creator := some 7, colorIndex := 0, strokeWidth := 0,
    layer := 1, bounds := some { x := 100, y := 100, width := 200, height := 150 },
    points := none, content := some "mine", bgColorIndex := some 0, rotation := none,
    isLocked := false }

/-- The application state once the local note is in the store. -/
def noteApp : App :=
  { objectManager := ObjectManager.new.addObject localNote
    selectionSystem := SelectionSystem.new }

/-- A ledger whose block `1` holds the echo of the local participant's creation of note `5`. -/
def echoLedger : Ledger :=
  { stickyNoteData := [⟨1, 5, 100, 100, 200, 150, "mine", 0⟩]
    getObjectInfo := fun id =>
      if id = 5 then some ⟨7, 5, 0, 0, 1, false, false⟩ else none }

/-- A ledger whose block `1` holds only a content update of note `5`. -/
def contentLedger : Ledger :=
  { contentUpdated := [⟨1, 5, "edited elsewhere"⟩] }

/-- A ledger whose block `1` holds the creation of stroke `5` by the remote participant `9`
and its deletion by the same participant. -/
def strokeLedger : Ledger :=
  { strokePoints := [⟨1, 5, [(10, 20), (40, 20)]⟩]
    objectDeleted := [⟨1, 9, 5⟩]
    getObjectInfo := fun id =>
      if id = 5 then some ⟨9, 0, 0, 3, 1, false, false⟩ else none }

/-- The application state after a delete of id `5` that the store never held. -/
def tombApp : App :=
  { objectManager := ObjectManager.new.deleteObject 5
    selectionSystem := SelectionSystem.new }

/-- The point `(x, y)` lies in the bounds of `obj` expanded on every side by the padding
`strokeWidth + 5`, with `strokeWidth` taken as `5` when it is `0` (or missing). -/
def PaddedHit (x y : ℚ) (obj : DrawObj) : Prop :=
  ∃ b, obj.bounds = some b ∧
    b.x - ((if obj.strokeWidth = 0 then 5 else obj.strokeWidth) + 5) ≤ x ∧
    x ≤ b.x + b.width + ((if obj.strokeWidth = 0 then 5 else obj.strokeWidth) + 5) ∧
    b.y - ((if obj.strokeWidth = 0 then 5 else obj.strokeWidth) + 5) ≤ y ∧
    y ≤ b.y + b.height + ((if obj.strokeWidth = 0 then 5 else obj.strokeWidth) + 5)

/-- The id `id` is not tombstoned, the map holds `obj` under it, and the point hits `obj`. -/
def HitAt (om : ObjectManager) (x y : ℚ) (id : Int) (obj : DrawObj) : Prop :=
  setHas om.deletedObjects id = false ∧ mapGet om.objects id = some obj ∧ PaddedHit x y obj

/-- A call of one of the store methods `addObject`, `updateObject`, `deleteObject`, `clear`. -/
inductive StoreAction where
  | call (c : StoreCall)
  | clear

/-- Performs one store action. -/
def StoreAction.run (om : ObjectManager) : StoreAction → ObjectManager
  | StoreAction.call c => c.run om
  | StoreAction.clear => om.clear

/-- One step of `insertionLog`. -/
def insertionLogStep (log : List Int) : StoreAction → List Int
  | StoreAction.call (StoreCall.add objData) =>
    if objData.id ∈ log then log else log ++ [objData.id]
  | StoreAction.call _ => log
  | StoreAction.clear => []

/-- The ids in the order in which they were first inserted by `addObject` since the last
`clear`. -/
def insertionLog (actions : List StoreAction) : List Int :=
  actions.foldl insertionLogStep []

/-- One step of `firstInsertions`. -/
def firstInsertionsStep (log : List Int) : StoreAction → List Int
  | StoreAction.call (StoreCall.add objData) =>
    if objData.id ∈ log then log else log ++ [objData.id]
  | _ => log

/-- The ids in the order in which they were first inserted by `addObject`, over the whole
history of the store. -/
def firstInsertions (actions : List StoreAction) : List Int :=
  actions.foldl firstInsertionsStep []

/-- The layer order is the one that `_updateLayerOrder` would compute now. -/
def LayerOrderCurrent (om : ObjectManager) : Prop :=
  om.layerOrder = om._updateLayerOrder.layerOrder

/-- A rectangle with id `1` on layer `0`. -/
def shapeA : DrawObj :=
  { id := 1, type := some ObjType.rectangle, creator := some 7, colorIndex := 0, strokeWidth := 3,
    layer := 0, bounds := some { x := 0, y := 0, width := 10, height := 10 }, points := none,
    content := none, bgColorIndex := none, rotation := some 0, isLocked := false }

/-- A rectangle with id `2` on layer `0`. -/
def shapeB : DrawObj :=
  { id := 2, type := some ObjType.rectangle, creator := some 7, colorIndex := 0, strokeWidth := 3,
    layer := 0, bounds := some { x := 20, y := 20, width := 10, height := 10 }, points := none,
    content := none, bgColorIndex := none, rotation := some 0, isLocked := false }

/-- Both rectangles are added, the store is cleared, and they are added again in the other
order. -/
def reinsertActions : List StoreAction :=
  [StoreAction.call (StoreCall.add shapeA), StoreAction.call (StoreCall.add shapeB),
    StoreAction.clear, StoreAction.call (StoreCall.add shapeB),
    StoreAction.call (StoreCall.add shapeA)]

/-- What the loops of a transform read and write for the id `k`: whether it is tombstoned,
the map entry, the snapshot of its bounds and the snapshot of its points. -/
def transformView (k : Int) (app : App) :
    Bool × Option DrawObj × Option Bounds × Option Points :=
  (setHas app.objectManager.deletedObjects k, mapGet app.objectManager.objects k,
    mapGet app.selectionSystem.originalObjectBounds k,
    mapGet app.selectionSystem.originalObjectPoints k)

/-- The fields that the loops of a transform never write. -/
def transformFrame (app : App) :
    JsSet × JsSet × Option TransformMode × Option Point × Option Bounds :=
  (app.objectManager.deletedObjects, app.selectionSystem.selectedIds,
    app.selectionSystem.transformMode, app.selectionSystem.dragStart,
    app.selectionSystem.originalBounds)

/-- The points of which a transform takes a snapshot: those of a stroke. -/
def strokePoints (obj : DrawObj) : Option Points :=
  if obj.type = some ObjType.stroke then obj.points else none

/-- The object after the assignment of `moveUpdates`. -/
def movedObj (obj : DrawObj) (original : Bounds) (originalPoints : Option Points) (dx dy : ℚ) :
    DrawObj :=
  obj.assign (moveUpdates obj original originalPoints dx dy)

/-- The method `updateTransform`, called once for each point of a drag. -/
def updateTransforms : List Point → App → Option App
  | [], app => some app
  | p :: rest, app => (updateTransform app p).bind (updateTransforms rest)

/-- The minima and maxima that the loop of `calculateStrokeBounds` ends with. -/
def strokeExtent : Points → Extent
  | [] => { minX := 0, minY := 0, maxX := 0, maxY := 0 }
  | p :: rest => rest.foldl extentStep { minX := p.1, minY := p.2, maxX := p.1, maxY := p.2 }

/-- A stroke with canonical id `3` and an empty point sequence, as a `StrokePoints` event
with no points creates it. -/
def emptyStroke : DrawObj :=
  { id := 3, type := some ObjType.stroke, creator := some 7, colorIndex := 0, strokeWidth := 3,
    layer := 1, bounds := some { x := 0, y := 0, width := 0, height := 0 }, points := some [],
    content := none, bgColorIndex := none, rotation := none, isLocked := false }

/-- The empty stroke is in the store and selected. -/
def emptyStrokeApp : App :=
  { objectManager := ObjectManager.new.addObject emptyStroke
    selectionSystem := { SelectionSystem.new with selectedIds := [3] } }

/-- The object after the assignment of `resizeUpdates`. -/
def resizedObj (obj : DrawObj) (ob original : Bounds) (originalPoints : Option Points)
    (scaleX scaleY offsetX offsetY : ℚ) : DrawObj :=
  obj.assign (resizeUpdates obj ob original originalPoints scaleX scaleY offsetX offsetY)

/-- The state after the loop of `_handleResize` that follows `startTransform`, before the
selection box is recomputed. -/
def resizeLoop (app : App) (h : Handle) (p0 : Point) (ob : Bounds) (sx sy dx dy : ℚ) : App :=
  app.selectionSystem.selectedIds.foldl
    (resizeStep ob sx sy (axisOffset (includesW h) dx) (axisOffset (includesN h) dy))
    (startTransform app (TransformMode.resize h) p0)

/-- A stroke with canonical id `6` from `(0, 0)` to `(10, 20)`, with the bounds that
`calculateStrokeBounds` gives. -/
def diagonalStroke : DrawObj :=
  { id := 6, type := some ObjType.stroke, creator := some 7, colorIndex := 0, strokeWidth := 3,
    layer := 1, bounds := some { x := 0, y := 0, width := 10, height := 20 },
    points := some [(0, 0), (10, 20)], content := none, bgColorIndex := none, rotation := none,
    isLocked := false }

/-- A store holding the diagonal stroke, selected by `selectObject`. -/
def diagonalApp : App :=
  selectObject
    { objectManager := ObjectManager.new.addObject diagonalStroke
      selectionSystem := SelectionSystem.new } 6 false

/-- A vertical stroke with canonical id `8` from `(0, 0)` to `(0, 10)`: its span on the x axis
is zero and the width of its bounds is the floored value `1`. -/
def verticalStroke : DrawObj :=
  { id := 8, type := some ObjType.stroke, creator := some 7, colorIndex := 0, strokeWidth := 3,
    layer := 1, bounds := some { x := 0, y := 0, width := 1, height := 10 },
    points := some [(0, 0), (0, 10)], content := none, bgColorIndex := none, rotation := none,
    isLocked := false }

/-- A store holding the vertical stroke, selected by `selectObject`. -/
def verticalApp : App :=
  selectObject
    { objectManager := ObjectManager.new.addObject verticalStroke
      selectionSystem := SelectionSystem.new } 8 false

/-- A vertical line shape with id `4`: its bounds have width `0`. -/
def verticalLine : DrawObj :=
  { id := 4, type := some ObjType.line, creator := some 7, colorIndex := 0, strokeWidth := 3,
    layer := 0, bounds := some { x := 100, y := 100, width := 0, height := 50 }, points := none,
    content := none, bgColorIndex := none, rotation := some 0, isLocked := false }

/-- A store holding the vertical line, selected by `selectObject`. -/
def verticalLineApp : App :=
  selectObject
    { objectManager := ObjectManager.new.addObject verticalLine
      selectionSystem := SelectionSystem.new } 4 false

/-- The state after both constructors and `addObject` of the rectangle with id `1`. -/
def shapeApp : App :=
  { objectManager := ObjectManager.new.addObject shapeA, selectionSystem := SelectionSystem.new }

/-- The box that the loop of `_updateSelectionBounds` computes for the ids `ids`: the
combined box of the retrievable objects with bounds among them, `none` when there is none. -/
def combinedBox (om : ObjectManager) (ids : JsSet) : Option Bounds :=
  (ids.foldl (boxStep om) none).map (fun e =>
    { x := e.minX, y := e.minY, width := e.maxX - e.minX, height := e.maxY - e.minY })

/-- The image of the minima and maxima under a map of each axis. -/
def extentMap (f g : ℚ → ℚ) (e : Extent) : Extent :=
  { minX := f e.minX, minY := g e.minY, maxX := f e.maxX, maxY := g e.maxY }

/-- The bounds of the object that `getObject(id)` returns, if both exist. -/
def boundsOf (om : ObjectManager) (id : Int) : Option Bounds :=
  (om.getObject id).bind (fun obj => obj.bounds)

/-- The two rectangles are stored and both are selected by `selectObject`. -/
def twoShapesApp : App :=
  selectObject
    (selectObject
      { objectManager := (ObjectManager.new.addObject shapeA).addObject shapeB
        selectionSystem := SelectionSystem.new } 1 false) 2 true

/-- A call of `generateLocalId` or of one of the store methods `addObject`, `updateObject`,
`deleteObject`, `clear`. -/
inductive IdAction where
  | generate
  | store (a : StoreAction)

/-- Performs one call on the object manager `s.2`; the ids that `generateLocalId` has
returned so far are collected in `s.1`, in the order of the calls. -/
def IdAction.run (s : List Int × ObjectManager) : IdAction → List Int × ObjectManager
  | IdAction.generate => (s.1 ++ [s.2.generateLocalId.1], s.2.generateLocalId.2)
  | IdAction.store a => (s.1, a.run s.2)

/-- The ids that the calls of `generateLocalId` in `actions` return on a fresh object
manager. -/
def generatedIds (actions : List IdAction) : List Int :=
  (actions.foldl IdAction.run ([], ObjectManager.new)).1

/-- The number of calls of `generateLocalId` in `actions`. -/
def generateCalls : List IdAction → Nat
  | [] => 0
  | IdAction.generate :: rest => generateCalls rest + 1
  | IdAction.store _ :: rest => generateCalls rest

/-- The function `createCursor` on the map `cursors`, of which the nickname of each entry is
kept; the keys are lower-cased addresses. -/
def createCursor (cursors : JsMap String) (address : Address) (nickname : String) :
    JsMap String :=
  match mapGet cursors address with
  | some existing => if existing ≠ nickname then mapSet cursors address nickname else cursors
  | none => mapSet cursors address nickname

/-- The set `leftUsers` of `loadInitialState`. -/
def replayLeftUsers (L : Ledger) (currentBlock : Nat) : JsSet :=
  (queryFilter UserLeftEvent.blockNumber L.userLeft 0 currentBlock).foldl
    (fun s e => setAdd s e.user) []

/-- The roster part of `loadInitialState`: the loop over the `UserJoined` events. -/
def replayRoster (L : Ledger) (myAddress : Option Address) (currentBlock : Nat)
    (cursors : JsMap String) : JsMap String :=
  (queryFilter UserJoinedEvent.blockNumber L.userJoined 0 currentBlock).foldl
    (fun cursors e =>
      if setHas (replayLeftUsers L currentBlock) e.user then cursors
      else if some e.user = myAddress then cursors
      else createCursor cursors e.user e.nickname)
    cursors

/-- The `UserJoined` loop of `processEvents`; `processEvents` has no loop over `UserLeft`. -/
def catchUpRoster (L : Ledger) (myAddress : Option Address) (fromBlock toBlock : Nat)
    (cursors : JsMap String) : JsMap String :=
  (queryFilter UserJoinedEvent.blockNumber L.userJoined fromBlock toBlock).foldl
    (fun cursors e =>
      if some e.user ≠ myAddress then createCursor cursors e.user e.nickname else cursors)
    cursors

/-- The remote participant `9` joins in block `1`, leaves in block `2` and joins again in
block `3`. -/
def rejoinLedger : Ledger :=
  { userJoined := [⟨1, 9, "bob"⟩, ⟨3, 9, "bob"⟩]
    userLeft := [⟨2, 9⟩] }

/-- The remote participant `9` creates the sticky note `3` with the content `"draft"` in
block `1` and updates its content to `"final"` in block `2`. -/
def editedLedger : Ledger :=
  { stickyNoteData := [⟨1, 3, 0, 0, 200, 150, "draft", 0⟩]
    contentUpdated := [⟨2, 3, "final"⟩]
    getObjectInfo := fun id =>
      if id = 3 then some ⟨9, 5, 0, 0, 1, false, false⟩ else none }

/-- The remote participant `9` clears the canvas in block `5` and creates the rectangle `2`
in block `6`. -/
def clearThenCreateLedger : Ledger :=
  { canvasCleared := [⟨5, 9⟩]
    shapeGeometry := [⟨6, 2, 20, 20, 10, 10, 0⟩]
    getObjectInfo := fun id =>
      if id = 2 then some ⟨9, 1, 0, 3, 0, false, false⟩ else none }

/-- The state after both constructors. -/
def freshApp : App :=
  { objectManager := ObjectManager.new, selectionSystem := SelectionSystem.new }

/-- The remote participant `9` clears the canvas in block `1`, the local participant `7`
clears it in block `2`. -/
def twoClearsLedger : Ledger :=
  { canvasCleared := [⟨1, 9⟩, ⟨2, 7⟩] }

/-- The object-store part of `ledger` without the creation events of the object `k`. -/
def withoutCreation (L : Ledger) (k : Nat) : Ledger :=
  { L with
    strokePoints := L.strokePoints.filter (fun e => decide (e.objectId ≠ k))
    shapeGeometry := L.shapeGeometry.filter (fun e => decide (e.objectId ≠ k))
    stickyNoteData := L.stickyNoteData.filter (fun e => decide (e.objectId ≠ k))
    textData := L.textData.filter (fun e => decide (e.objectId ≠ k)) }

/-- Block `1` holds the creation of rectangle `2`, whose lookup succeeds, and of stroke `5`,
whose lookup throws; block `2` moves both. -/
def failedLookupLedger : Ledger :=
  { strokePoints := [⟨1, 5, [(10, 20), (40, 20)]⟩]
    shapeGeometry := [⟨1, 2, 20, 20, 10, 10, 0⟩]
    objectMoved := [⟨2, 9, 5, 0, 0⟩, ⟨2, 9, 2, 30, 30⟩]
    getObjectInfo := fun id =>
      if id = 2 then some ⟨9, 1, 0, 3, 0, false, false⟩ else none }

/-- A rectangle with id `10` whose bounds are `5` wide and `5` high. -/
def smallShape : DrawObj :=
  { id := 10, type := some ObjType.rectangle, creator := some 7, colorIndex := 0,
    strokeWidth := 3, layer := 0, bounds := some { x := 0, y := 0, width := 5, height := 5 },
    points := none, content := none, bgColorIndex := none, rotation := some 0,
    isLocked := false }

/-- A store holding the small rectangle, selected by `selectObject`. -/
def smallShapeApp : App :=
  selectObject
    { objectManager := ObjectManager.new.addObject smallShape
      selectionSystem := SelectionSystem.new } 10 false

/-- A rectangle with id `11` whose bounds are `100` wide and `100` high. -/
def wideShape : DrawObj :=
  { id := 11, type := some ObjType.rectangle, creator := some 7, colorIndex := 0,
    strokeWidth := 3, layer := 0, bounds := some { x := 0, y := 0, width := 100, height := 100 },
    points := none, content := none, bgColorIndex := none, rotation := some 0,
    isLocked := false }

/-- A store holding the wide rectangle, selected by `selectObject`. -/
def wideShapeApp : App :=
  selectObject
    { objectManager := ObjectManager.new.addObject wideShape
      selectionSystem := SelectionSystem.new } 11 false

/-- Every creation, move and delete event of the block range originates from a participant
other than `myAddress`.  A creation event's originator is the creator that the attribute
lookup reports for its id. -/
def RemoteOnlyRange (L : Ledger) (myAddress : Option Address) (fromBlock toBlock : Nat) : Prop :=
  (∀ e ∈ queryFilter StrokePointsEvent.blockNumber L.strokePoints fromBlock toBlock,
      ∀ info, L.getObjectInfo e.objectId = some info → some info.creator ≠ myAddress) ∧
  (∀ e ∈ queryFilter ShapeGeometryEvent.blockNumber L.shapeGeometry fromBlock toBlock,
      ∀ info, L.getObjectInfo e.objectId = some info → some info.creator ≠ myAddress) ∧
  (∀ e ∈ queryFilter StickyNoteDataEvent.blockNumber L.stickyNoteData fromBlock toBlock,
      ∀ info, L.getObjectInfo e.objectId = some info → some info.creator ≠ myAddress) ∧
  (∀ e ∈ queryFilter TextDataEvent.blockNumber L.textData fromBlock toBlock,
      ∀ info, L.getObjectInfo e.objectId = some info → some info.creator ≠ myAddress) ∧
  (∀ e ∈ queryFilter ObjectMovedEvent.blockNumber L.objectMoved fromBlock toBlock,
      some e.user ≠ myAddress) ∧
  (∀ e ∈ queryFilter ObjectDeletedEvent.blockNumber L.objectDeleted fromBlock toBlock,
      some e.user ≠ myAddress)

/-- The attribute lookup reports an object as deleted only when the block range holds a
delete event for it. -/
def DeletedOnlyInRange (L : Ledger) (fromBlock toBlock : Nat) : Prop :=
  ∀ id info, L.getObjectInfo id = some info → info.isDeleted = true →
    ∃ e ∈ queryFilter ObjectDeletedEvent.blockNumber L.objectDeleted fromBlock toBlock,
      e.objectId = id

/-- The relation between the store `pe` of the catch-up and the store `rp` of the replay
while the creation and move loops run: neither has a tombstone, `rp` holds the entries of
`pe` whose ids are not in the set `d` of ids deleted in the range, in the same order, and
both layer orders are current. -/
def CatchUpRel (d : JsSet) (pe rp : ObjectManager) : Prop :=
  pe.deletedObjects = [] ∧ rp.deletedObjects = [] ∧
    rp.objects = pe.objects.filter (fun e => !setHas d e.1) ∧
    LayerOrderCurrent pe ∧ LayerOrderCurrent rp

/-- The remote participant `9` creates the stroke `5` and the rectangle `2` in block `1`;
in block `2` it moves the rectangle to `(30, 30)` and deletes the stroke, which the lookup
reports as deleted. -/
def remoteLedger : Ledger :=
  { strokePoints := [⟨1, 5, [(10, 20), (40, 20)]⟩]
    shapeGeometry := [⟨1, 2, 20, 20, 10, 10, 0⟩]
    objectMoved := [⟨2, 9, 2, 30, 30⟩]
    objectDeleted := [⟨2, 9, 5⟩]
    getObjectInfo := fun id =>
      if id = 2 then some ⟨9, 1, 0, 3, 0, false, false⟩
      else if id = 5 then some ⟨9, 0, 0, 3, 1, false, true⟩ else none }

open ObjectManager

/-! ## Lemmas on maps and sets -/

theorem mapGet_append {β : Type} (m n : JsMap β) (k : Int) :
    mapGet (m ++ n) k = (mapGet m k).orElse (fun _ => mapGet n k) := by
  induction m with
  | nil => simp [mapGet]
  | cons e m ih =>
    obtain ⟨k', v'⟩ := e
    by_cases h : k' = k
    · simp [mapGet, h]
    · simp [mapGet, h, ih]

theorem mapGet_map_replace {β : Type} (m : JsMap β) (k k' : Int) (v : β) :
    mapGet (m.map (fun e => if e.1 = k then (k, v) else e)) k' =
      if k' = k then (mapGet m k).map (fun _ => v) else mapGet m k' := by
  induction m with
  | nil => simp [mapGet]
  | cons e m ih =>
    obtain ⟨k0, v0⟩ := e
    by_cases h0 : k0 = k
    · by_cases h1 : k' = k
      · simp [mapGet, h0, h1]
      · have h2 : ¬ k = k' := fun h => h1 h.symm
        simp [mapGet, h0, h1, h2, ih]
    · by_cases h1 : k' = k
      · subst h1
        simp [mapGet, h0, ih]
      · by_cases h2 : k0 = k'
        · simp [mapGet, h0, h1, h2]
        · simp [mapGet, h0, h1, h2, ih]

theorem mapGet_mapSet_self {β : Type} (m : JsMap β) (k : Int) (v : β) :
    mapGet (mapSet m k v) k = some v := by
  unfold mapSet
  by_cases h : mapHas m k = true
  · rw [if_pos h, mapGet_map_replace, if_pos rfl]
    unfold mapHas at h
    obtain ⟨w, hw⟩ := Option.isSome_iff_exists.1 h
    rw [hw]
    rfl
  · rw [if_neg h, mapGet_append]
    have hn : mapGet m k = none := by
      unfold mapHas at h
      simpa using h
    simp [hn, mapGet]

theorem mapGet_mapSet_of_ne {β : Type} (m : JsMap β) (k k' : Int) (v : β) (h : k' ≠ k) :
    mapGet (mapSet m k v) k' = mapGet m k' := by
  unfold mapSet
  by_cases hh : mapHas m k = true
  · rw [if_pos hh, mapGet_map_replace, if_neg h]
  · rw [if_neg hh, mapGet_append]
    have h2 : ¬ k = k' := fun e => h e.symm
    cases hg : mapGet m k' <;> simp [mapGet, h2]

theorem mapGet_mapDelete_self {β : Type} (m : JsMap β) (k : Int) :
    mapGet (mapDelete m k) k = none := by
  induction m with
  | nil => rfl
  | cons e m ih =>
    obtain ⟨k0, v0⟩ := e
    by_cases h0 : k0 = k
    · simpa [mapDelete, h0] using ih
    · have : mapDelete ((k0, v0) :: m) k = (k0, v0) :: mapDelete m k := by
        simp [mapDelete, h0]
      rw [this]
      simp [mapGet, h0, ih]

theorem mapGet_mapDelete_of_ne {β : Type} (m : JsMap β) (k k' : Int) (h : k' ≠ k) :
    mapGet (mapDelete m k) k' = mapGet m k' := by
  induction m with
  | nil => rfl
  | cons e m ih =>
    obtain ⟨k0, v0⟩ := e
    by_cases h0 : k0 = k
    · have h1 : ¬ k0 = k' := fun e => h (e.symm.trans h0)
      have : mapDelete ((k0, v0) :: m) k = mapDelete m k := by
        simp [mapDelete, h0]
      rw [this, ih]
      simp [mapGet, h1]
    · have : mapDelete ((k0, v0) :: m) k = (k0, v0) :: mapDelete m k := by
        simp [mapDelete, h0]
      rw [this]
      by_cases h1 : k0 = k'
      · simp [mapGet, h1]
      · simp [mapGet, h1, ih]

theorem mapHas_mapSet {β : Type} (m : JsMap β) (k k' : Int) (v : β) :
    mapHas (mapSet m k v) k' = (mapHas m k' || decide (k' = k)) := by
  by_cases h : k' = k
  · subst h
    simp [mapHas, mapGet_mapSet_self]
  · simp [mapHas, mapGet_mapSet_of_ne _ _ _ _ h, h]

theorem mapSet_mapSet {β : Type} (m : JsMap β) (k : Int) (v w : β)
    (h : mapHas m k = true) : mapSet (mapSet m k v) k w = mapSet m k w := by
  have h2 : mapHas (mapSet m k v) k = true := by simp [mapHas_mapSet]
  rw [mapSet, if_pos h2, mapSet, if_pos h, mapSet, if_pos h, List.map_map]
  apply List.map_congr_left
  intro e _
  by_cases he : e.1 = k <;> simp [he]

theorem mapSet_comm {β : Type} (m : JsMap β) (k k' : Int) (v w : β) (hk : mapHas m k = true)
    (hk' : mapHas m k' = true) (hne : k ≠ k') :
    mapSet (mapSet m k v) k' w = mapSet (mapSet m k' w) k v := by
  have h1 : mapHas (mapSet m k v) k' = true := by simp [mapHas_mapSet, hk']
  have h2 : mapHas (mapSet m k' w) k = true := by simp [mapHas_mapSet, hk]
  rw [mapSet, if_pos h1, mapSet, if_pos hk, mapSet, if_pos h2, mapSet, if_pos hk',
    List.map_map, List.map_map]
  apply List.map_congr_left
  intro e _
  have hne' : ¬ k' = k := fun h => hne h.symm
  by_cases he : e.1 = k
  · have he' : ¬ e.1 = k' := fun h => hne (he.symm.trans h)
    simp [he, he', hne]
  · by_cases he' : e.1 = k'
    · simp [he, he', hne']
    · simp [he, he']

theorem setHas_setAdd (s : JsSet) (v w : Int) :
    setHas (setAdd s v) w = (setHas s w || decide (w = v)) := by
  unfold setAdd
  by_cases h : setHas s v = true
  · rw [if_pos h]
    by_cases hw : w = v
    · subst hw
      simp [h]
    · simp [hw]
  · rw [if_neg h]
    simp [setHas]

theorem setHas_setDelete (s : JsSet) (v w : Int) :
    setHas (setDelete s v) w = (setHas s w && decide (w ≠ v)) := by
  simp [setHas, setDelete, List.mem_filter]

theorem setHas_setAdd_self (s : JsSet) (v : Int) : setHas (setAdd s v) v = true := by
  rw [setHas_setAdd]
  simp

theorem setHas_setAdd_of_setHas (s : JsSet) (v w : Int) (h : setHas s w = true) :
    setHas (setAdd s v) w = true := by
  rw [setHas_setAdd, h]
  rfl

theorem setHas_foldl_setAdd {ε : Type} (f : ε → Int) (l : List ε) (s : JsSet) (v : Int)
    (h : setHas s v = true ∨ ∃ e ∈ l, f e = v) :
    setHas (l.foldl (fun s e => setAdd s (f e)) s) v = true := by
  induction l generalizing s with
  | nil =>
    rcases h with h | ⟨e, he, _⟩
    · exact h
    · exact absurd he (List.not_mem_nil e)
  | cons a l ih =>
    apply ih
    rcases h with h | ⟨e, he, hfe⟩
    · exact Or.inl (setHas_setAdd_of_setHas _ _ _ h)
    · rcases List.mem_cons.1 he with rfl | he'
      · left
        rw [← hfe]
        exact setHas_setAdd_self _ _
      · exact Or.inr ⟨e, he', hfe⟩

theorem foldl_invariant {ε : Type} (P : ObjectManager → Prop)
    (f : ObjectManager → ε → ObjectManager) (hf : ∀ om e, P om → P (f om e)) (l : List ε)
    (om : ObjectManager) (h : P om) : P (l.foldl f om) := by
  induction l generalizing om with
  | nil => exact h
  | cons e l ih => exact ih _ (hf om e h)

theorem foldl_eq_self {ε : Type} (f : ObjectManager → ε → ObjectManager) (l : List ε)
    (om : ObjectManager) (h : ∀ e ∈ l, f om e = om) : l.foldl f om = om := by
  induction l with
  | nil => rfl
  | cons a l ih =>
    rw [List.foldl_cons, h a (List.mem_cons_self _ _)]
    exact ih (fun e he => h e (List.mem_cons_of_mem _ he))

/-! ## The store methods -/

@[simp]
theorem _updateLayerOrder_objects (om : ObjectManager) :
    om._updateLayerOrder.objects = om.objects := rfl

@[simp]
theorem _updateLayerOrder_deletedObjects (om : ObjectManager) :
    om._updateLayerOrder.deletedObjects = om.deletedObjects := rfl

theorem addObject_deletedObjects (om : ObjectManager) (o : DrawObj) :
    (om.addObject o).deletedObjects = om.deletedObjects := rfl

theorem updateObject_deletedObjects (om : ObjectManager) (k : Int) (u : Updates) :
    (om.updateObject k u).deletedObjects = om.deletedObjects := by
  unfold updateObject
  cases mapGet om.objects k with
  | none => rfl
  | some obj =>
    simp only
    split_ifs <;> rfl

theorem deleteObject_deletedObjects (om : ObjectManager) (k : Int) :
    (om.deleteObject k).deletedObjects = setAdd om.deletedObjects k := rfl

theorem getObject_eq_some (om : ObjectManager) (id : Int) (obj : DrawObj) :
    om.getObject id = some obj ↔
      setHas om.deletedObjects id = false ∧ mapGet om.objects id = some obj := by
  unfold getObject
  by_cases h : setHas om.deletedObjects id = true
  · simp [h]
  · simp [h]

theorem getObject_some_mapHas (om : ObjectManager) (id : Int) (obj : DrawObj)
    (h : om.getObject id = some obj) : mapHas om.objects id = true := by
  unfold getObject at h
  split_ifs at h
  simp [mapHas, h]

theorem getObject_of_tombstone (om : ObjectManager) (id : Int)
    (h : setHas om.deletedObjects id = true) : om.getObject id = none := by
  simp [getObject, h]

theorem not_mem_visibleIds_of_tombstone (om : ObjectManager) (id : Int)
    (h : setHas om.deletedObjects id = true) : id ∉ om.visibleIds := by
  simp [visibleIds, List.mem_filter, h]

theorem getObject_set_of_ne (om : ObjectManager) (i j : Int) (v : DrawObj) (h : j ≠ i) :
    ({ om with objects := mapSet om.objects i v } : ObjectManager).getObject j =
      om.getObject j := by
  unfold getObject
  simp only [mapGet_mapSet_of_ne _ _ _ _ h]

theorem hitScan_some (om : ObjectManager) (x y : ℚ) (l : List Int) (o : DrawObj)
    (h : hitScan om x y l = some o) :
    ∃ k ∈ l, setHas om.deletedObjects k = false ∧ mapGet om.objects k = some o := by
  induction l with
  | nil => simp [hitScan] at h
  | cons id rest ih =>
    unfold hitScan at h
    by_cases hd : setHas om.deletedObjects id = true
    · rw [if_pos hd] at h
      obtain ⟨k, hk, hk2⟩ := ih h
      exact ⟨k, List.mem_cons_of_mem _ hk, hk2⟩
    · rw [if_neg hd] at h
      cases hg : mapGet om.objects id with
      | none =>
        rw [hg] at h
        obtain ⟨k, hk, hk2⟩ := ih h
        exact ⟨k, List.mem_cons_of_mem _ hk, hk2⟩
      | some obj =>
        rw [hg] at h
        simp only at h
        by_cases hb : _pointInBounds x y obj = true
        · rw [if_pos hb] at h
          refine ⟨id, List.mem_cons_self _ _, by simpa using hd, ?_⟩
          rw [hg]
          exact h
        · rw [if_neg hb] at h
          obtain ⟨k, hk, hk2⟩ := ih h
          exact ⟨k, List.mem_cons_of_mem _ hk, hk2⟩

theorem getObjectAtPoint_some (om : ObjectManager) (x y : ℚ) (o : DrawObj)
    (h : om.getObjectAtPoint x y = some o) :
    ∃ k ∈ om.layerOrder, setHas om.deletedObjects k = false ∧ mapGet om.objects k = some o := by
  obtain ⟨k, hk, hk2⟩ := hitScan_some om x y _ o h
  exact ⟨k, List.mem_reverse.1 hk, hk2⟩

/-! ## Identity remap -/

/-- C1 (amended).  When an object is stored under the provisional id `p` and the canonical
id `c` is not yet a key, `updateLocalIdToRealId p c` yields a store without key `p`, with key
`c` holding the same object with only its `id` changed to `c`, and with every other key
unchanged; afterwards `p` is not selected, `c` is selected exactly when `p` or `c` was selected
before, and the membership of every other id in the selection is unchanged. -/
theorem updateLocalIdToRealId_remap (app : App) (p c : Int) (obj : DrawObj)
    (hp : mapGet app.objectManager.objects p = some obj)
    (hc : mapHas app.objectManager.objects c = false) :
    mapGet (updateLocalIdToRealId app p c).objectManager.objects p = none ∧
    mapGet (updateLocalIdToRealId app p c).objectManager.objects c = some { obj with id := c } ∧
    (∀ k, k ≠ p → k ≠ c →
      mapGet (updateLocalIdToRealId app p c).objectManager.objects k =
        mapGet app.objectManager.objects k) ∧
    setHas (updateLocalIdToRealId app p c).selectionSystem.selectedIds p = false ∧
    (setHas (updateLocalIdToRealId app p c).selectionSystem.selectedIds c = true ↔
      setHas app.selectionSystem.selectedIds p = true ∨
        setHas app.selectionSystem.selectedIds c = true) ∧
    (∀ k, k ≠ p → k ≠ c →
      setHas (updateLocalIdToRealId app p c).selectionSystem.selectedIds k =
        setHas app.selectionSystem.selectedIds k) := by
  have hpc : p ≠ c := by
    rintro rfl
    simp [mapHas, hp] at hc
  have hobjs : (updateLocalIdToRealId app p c).objectManager.objects =
      mapSet (mapDelete app.objectManager.objects p) c { obj with id := c } := by
    simp [updateLocalIdToRealId, hp]
  have hsel : (updateLocalIdToRealId app p c).selectionSystem.selectedIds =
      if setHas app.selectionSystem.selectedIds p then
        setAdd (setDelete app.selectionSystem.selectedIds p) c
      else app.selectionSystem.selectedIds := by
    simp only [updateLocalIdToRealId, hp]
    split_ifs <;> rfl
  rw [hobjs, hsel]
  refine ⟨?_, ?_, ?_, ?_, ?_, ?_⟩
  · rw [mapGet_mapSet_of_ne _ _ _ _ hpc, mapGet_mapDelete_self]
  · exact mapGet_mapSet_self _ _ _
  · intro k hkp hkc
    rw [mapGet_mapSet_of_ne _ _ _ _ hkc, mapGet_mapDelete_of_ne _ _ _ hkp]
  · by_cases h : setHas app.selectionSystem.selectedIds p = true
    · rw [if_pos h, setHas_setAdd, setHas_setDelete]
      simp [hpc]
    · rw [if_neg h]
      simpa using h
  · by_cases h : setHas app.selectionSystem.selectedIds p = true
    · rw [if_pos h, setHas_setAdd, setHas_setDelete]
      simp [h]
    · rw [if_neg h]
      simp [h]
  · intro k hkp hkc
    by_cases h : setHas app.selectionSystem.selectedIds p = true
    · rw [if_pos h, setHas_setAdd, setHas_setDelete]
      simp [hkp, hkc]
    · rw [if_neg h]

/-- The remap scenario: the provisional stroke `-1` is selected and remapped to `42`. -/
theorem updateLocalIdToRealId_remap_witness :
    mapGet (updateLocalIdToRealId sampleApp (-1) 42).objectManager.objects (-1) = none ∧
    mapGet (updateLocalIdToRealId sampleApp (-1) 42).objectManager.objects 42 =
      some { sampleStroke with id := 42 } ∧
    setHas (updateLocalIdToRealId sampleApp (-1) 42).selectionSystem.selectedIds (-1) = false ∧
    setHas (updateLocalIdToRealId sampleApp (-1) 42).selectionSystem.selectedIds 42 = true := by
  have h := updateLocalIdToRealId_remap sampleApp (-1) 42 sampleStroke (by decide) (by decide)
  exact ⟨h.1, h.2.1, h.2.2.2.1, h.2.2.2.2.1.2 (Or.inl (by decide))⟩

/-- C1 as stated fails when `c` is already selected: with `-1` stored, `42` not a key and the
selection `{42}`, the selection afterwards contains `42` and not `-1` although it did not
contain `-1` before. -/
theorem updateLocalIdToRealId_selection_counterexample :
    mapGet staleSelectionApp.objectManager.objects (-1) = some sampleStroke ∧
    mapHas staleSelectionApp.objectManager.objects 42 = false ∧
    ¬ ((setHas (updateLocalIdToRealId staleSelectionApp (-1) 42).selectionSystem.selectedIds 42
          = true ∧
        setHas (updateLocalIdToRealId staleSelectionApp (-1) 42).selectionSystem.selectedIds (-1)
          = false) ↔
      setHas staleSelectionApp.selectionSystem.selectedIds (-1) = true) := by
  decide

/-- C2 (the code at the failing input).  After `addObject` of the provisional stroke `-1` and
`deleteObject(-1)` nothing is visible; `updateLocalIdToRealId(-1, 42)` then makes the deleted
stroke visible under `42`, both in `getObjectsInLayerOrder` and through `getObject(42)`. -/
theorem updateLocalIdToRealId_resurrects_deleted :
    ((ObjectManager.new.addObject sampleStroke).deleteObject (-1)).getObjectsInLayerOrder = [] ∧
    ((ObjectManager.new.addObject sampleStroke).deleteObject (-1)).getObject 42 = none ∧
    (updateLocalIdToRealId
        { objectManager := (ObjectManager.new.addObject sampleStroke).deleteObject (-1)
          selectionSystem := SelectionSystem.new } (-1) 42).objectManager.getObjectsInLayerOrder
      = [some { sampleStroke with id := 42 }] ∧
    (updateLocalIdToRealId
        { objectManager := (ObjectManager.new.addObject sampleStroke).deleteObject (-1)
          selectionSystem := SelectionSystem.new } (-1) 42).objectManager.getObject 42
      = some { sampleStroke with id := 42 } := by
  decide

/-- C3.  When the store has no entry under `p`, `updateLocalIdToRealId p c` returns the state
it was given: object map, layer order, tombstone set and selection are unchanged.  The
function is total, so no error is raised. -/
theorem updateLocalIdToRealId_missing (app : App) (p c : Int)
    (hp : mapGet app.objectManager.objects p = none) :
    updateLocalIdToRealId app p c = app := by
  simp [updateLocalIdToRealId, hp]

/-- The store of the sample state has no entry under `-2`, and remapping `-2` changes nothing. -/
theorem updateLocalIdToRealId_missing_witness :
    mapGet sampleApp.objectManager.objects (-2) = none ∧
      updateLocalIdToRealId sampleApp (-2) 42 = sampleApp :=
  ⟨by decide, updateLocalIdToRealId_missing sampleApp (-2) 42 (by decide)⟩

/-! ## Tombstone permanence under the store methods -/

theorem storeCall_keeps_tombstone (om : ObjectManager) (call : StoreCall) (id : Int)
    (h : setHas om.deletedObjects id = true) :
    setHas (call.run om).deletedObjects id = true := by
  cases call with
  | add o => exact h
  | update k u =>
    show setHas (om.updateObject k u).deletedObjects id = true
    rw [updateObject_deletedObjects]
    exact h
  | delete k => exact setHas_setAdd_of_setHas _ _ _ h

theorem storeCalls_keep_tombstone (calls : List StoreCall) (om : ObjectManager) (id : Int)
    (h : setHas om.deletedObjects id = true) :
    setHas (calls.foldl StoreCall.run om).deletedObjects id = true := by
  induction calls generalizing om with
  | nil => exact h
  | cons call calls ih => exact ih _ (storeCall_keeps_tombstone om call id h)

/-- C7.  After `deleteObject id`, whatever sequence of `addObject`, `updateObject` and
`deleteObject` calls follows, `getObject id` returns nothing, `id` is not among the ids that
`getObjectsInLayerOrder` lists, every entry of that list is what the map holds under another
key, and every hit of `getObjectAtPoint` is the object stored under another key. -/
theorem tombstone_permanent (om : ObjectManager) (id : Int) (calls : List StoreCall) :
    (calls.foldl StoreCall.run (om.deleteObject id)).getObject id = none ∧
    id ∉ (calls.foldl StoreCall.run (om.deleteObject id)).visibleIds ∧
    (∀ entry ∈ (calls.foldl StoreCall.run (om.deleteObject id)).getObjectsInLayerOrder,
      ∃ k, k ≠ id ∧
        entry = mapGet (calls.foldl StoreCall.run (om.deleteObject id)).objects k) ∧
    (∀ x y o, (calls.foldl StoreCall.run (om.deleteObject id)).getObjectAtPoint x y = some o →
      ∃ k, k ≠ id ∧
        mapGet (calls.foldl StoreCall.run (om.deleteObject id)).objects k = some o) := by
  have h : setHas (calls.foldl StoreCall.run (om.deleteObject id)).deletedObjects id = true :=
    storeCalls_keep_tombstone calls _ id (setHas_setAdd_self _ _)
  refine ⟨getObject_of_tombstone _ _ h, not_mem_visibleIds_of_tombstone _ _ h, ?_, ?_⟩
  · intro entry hentry
    obtain ⟨k, hk, rfl⟩ := List.mem_map.1 hentry
    refine ⟨k, ?_, rfl⟩
    rintro rfl
    exact not_mem_visibleIds_of_tombstone _ _ h hk
  · intro x y o ho
    obtain ⟨k, _, hk, hko⟩ := getObjectAtPoint_some _ x y o ho
    refine ⟨k, ?_, hko⟩
    rintro rfl
    rw [h] at hk
    exact Bool.noConfusion hk

/-! ## Stroke bounds -/

theorem foldl_min_isLeast (l : List ℚ) (a : ℚ) :
    IsLeast {x | x = a ∨ x ∈ l} (l.foldl min a) := by
  induction l generalizing a with
  | nil => simp [IsLeast, lowerBounds]
  | cons b l ih =>
    obtain ⟨hmem, hlb⟩ := ih (min a b)
    refine ⟨?_, ?_⟩
    · rcases hmem with h | h
      · rcases min_choice a b with h2 | h2
        · left; simp only [List.foldl_cons]; rw [h, h2]
        · right; simp only [List.foldl_cons]; rw [h, h2]; simp
      · right; exact List.mem_cons_of_mem _ h
    · intro x hx
      simp only [List.foldl_cons]
      rcases hx with h | h
      · exact le_trans (hlb (Or.inl rfl)) (h ▸ min_le_left a b)
      · rcases List.mem_cons.1 h with h | h
        · exact le_trans (hlb (Or.inl rfl)) (h ▸ min_le_right a b)
        · exact hlb (Or.inr h)

theorem foldl_max_isGreatest (l : List ℚ) (a : ℚ) :
    IsGreatest {x | x = a ∨ x ∈ l} (l.foldl max a) := by
  induction l generalizing a with
  | nil => simp [IsGreatest, upperBounds]
  | cons b l ih =>
    obtain ⟨hmem, hub⟩ := ih (max a b)
    refine ⟨?_, ?_⟩
    · rcases hmem with h | h
      · rcases max_choice a b with h2 | h2
        · left; simp only [List.foldl_cons]; rw [h, h2]
        · right; simp only [List.foldl_cons]; rw [h, h2]; simp
      · right; exact List.mem_cons_of_mem _ h
    · intro x hx
      simp only [List.foldl_cons]
      rcases hx with h | h
      · exact le_trans (h ▸ le_max_left a b) (hub (Or.inl rfl))
      · rcases List.mem_cons.1 h with h | h
        · exact le_trans (h ▸ le_max_right a b) (hub (Or.inl rfl))
        · exact hub (Or.inr h)

theorem foldl_extentStep (rest : Points) (e : Extent) :
    rest.foldl extentStep e =
      { minX := (rest.map Prod.fst).foldl min e.minX
        minY := (rest.map Prod.snd).foldl min e.minY
        maxX := (rest.map Prod.fst).foldl max e.maxX
        maxY := (rest.map Prod.snd).foldl max e.maxY } := by
  induction rest generalizing e with
  | nil => rfl
  | cons p rest ih => simp [List.foldl_cons, ih, extentStep]

theorem xCoords_cons (p : ℚ × ℚ) (rest : Points) :
    xCoords (p :: rest) = {x | x = p.1 ∨ x ∈ rest.map Prod.fst} := by
  ext x
  constructor
  · rintro ⟨q, hq, rfl⟩
    rcases List.mem_cons.1 hq with h | h
    · exact Or.inl (by rw [h])
    · exact Or.inr (List.mem_map_of_mem _ h)
  · rintro (h | h)
    · exact ⟨p, List.mem_cons_self _ _, h.symm⟩
    · obtain ⟨q, hq, rfl⟩ := List.mem_map.1 h
      exact ⟨q, List.mem_cons_of_mem _ hq, rfl⟩

theorem yCoords_cons (p : ℚ × ℚ) (rest : Points) :
    yCoords (p :: rest) = {y | y = p.2 ∨ y ∈ rest.map Prod.snd} := by
  ext y
  constructor
  · rintro ⟨q, hq, rfl⟩
    rcases List.mem_cons.1 hq with h | h
    · exact Or.inl (by rw [h])
    · exact Or.inr (List.mem_map_of_mem _ h)
  · rintro (h | h)
    · exact ⟨p, List.mem_cons_self _ _, h.symm⟩
    · obtain ⟨q, hq, rfl⟩ := List.mem_map.1 h
      exact ⟨q, List.mem_cons_of_mem _ hq, rfl⟩

theorem isStrokeBox_calculateStrokeBounds (pts : Points) (h : pts ≠ []) :
    IsStrokeBox pts (calculateStrokeBounds pts) := by
  cases pts with
  | nil => exact absurd rfl h
  | cons p rest =>
    obtain ⟨px, py⟩ := p
    simp only [IsStrokeBox, calculateStrokeBounds, foldl_extentStep, xCoords_cons, yCoords_cons, orOne]
    exact ⟨foldl_min_isLeast _ px, foldl_min_isLeast _ py, _, _, foldl_max_isGreatest _ px,
      foldl_max_isGreatest _ py, rfl, rfl⟩

theorem span_pos_of_isLeast_isGreatest {S : Set ℚ} {lo hi : ℚ} (hlo : IsLeast S lo)
    (hhi : IsGreatest S hi) : 0 < (if hi - lo = 0 then 1 else hi - lo) := by
  have hle : lo ≤ hi := hlo.2 hhi.1
  split_ifs with h0
  · exact one_pos
  · exact lt_of_le_of_ne (sub_nonneg.2 hle) (Ne.symm h0)

theorem span_ge_one_of_int {S : Set ℚ} {lo hi : ℚ} (hlo : IsLeast S lo)
    (hhi : IsGreatest S hi) (hint : ∀ x ∈ S, ∃ n : ℤ, x = n) :
    1 ≤ (if hi - lo = 0 then 1 else hi - lo) := by
  have hle : lo ≤ hi := hlo.2 hhi.1
  obtain ⟨n, hn⟩ := hint lo hlo.1
  obtain ⟨m, hm⟩ := hint hi hhi.1
  split_ifs with h0
  · exact le_refl 1
  · subst hn hm
    have h1 : n ≤ m := by exact_mod_cast hle
    have h2 : m ≠ n := by
      intro h
      exact h0 (by rw [h, sub_self])
    have h3 : 1 ≤ m - n := by omega
    exact_mod_cast h3

/-- C9 (amended).  For every point sequence with at least one point, `calculateStrokeBounds`
returns a box whose `x` is the least x and whose `y` is the least y over all points, and
whose width and height are the spans between the greatest and the least coordinate, each
replaced by `1` when the span is zero. -/
theorem calculateStrokeBounds_box (pts : Points) (h : pts ≠ []) :
    IsStrokeBox pts (calculateStrokeBounds pts) :=
  isStrokeBox_calculateStrokeBounds pts h

/-- The box of the three points `(3, 4)`, `(1, 7)`, `(2, 2)`. -/
theorem calculateStrokeBounds_box_witness :
    ([(3, 4), (1, 7), (2, 2)] : Points) ≠ [] ∧
      IsStrokeBox [(3, 4), (1, 7), (2, 2)] (calculateStrokeBounds [(3, 4), (1, 7), (2, 2)]) :=
  ⟨by simp, calculateStrokeBounds_box _ (by simp)⟩

/-- C9 as stated fails on the empty sequence: the box returned has width `0` and height `0`,
not `1`, and its `x` is not the least x of any point. -/
theorem calculateStrokeBounds_empty_counterexample :
    (calculateStrokeBounds []).width = 0 ∧ (calculateStrokeBounds []).height = 0 ∧
      ¬ IsStrokeBox [] (calculateStrokeBounds []) := by
  refine ⟨rfl, rfl, ?_⟩
  rintro ⟨⟨⟨p, hp, _⟩, _⟩, _⟩
  exact List.not_mem_nil p hp

/-- C10 (amended).  For every point sequence with at least one point, the width and the
height that `calculateStrokeBounds` returns are both positive, so the box never has zero
area; they are both at least `1` when every coordinate is an integer. -/
theorem calculateStrokeBounds_dims (pts : Points) (h : pts ≠ []) :
    0 < (calculateStrokeBounds pts).width ∧ 0 < (calculateStrokeBounds pts).height ∧
      ((∀ p ∈ pts, (∃ n : ℤ, p.1 = n) ∧ ∃ n : ℤ, p.2 = n) →
        1 ≤ (calculateStrokeBounds pts).width ∧ 1 ≤ (calculateStrokeBounds pts).height) := by
  obtain ⟨hx, hy, hiX, hiY, hX, hY, hw, hh⟩ := isStrokeBox_calculateStrokeBounds pts h
  rw [hw, hh]
  refine ⟨span_pos_of_isLeast_isGreatest hx hX, span_pos_of_isLeast_isGreatest hy hY, ?_⟩
  intro hint
  refine ⟨span_ge_one_of_int hx hX ?_, span_ge_one_of_int hy hY ?_⟩
  · rintro x ⟨p, hp, rfl⟩
    exact (hint p hp).1
  · rintro y ⟨p, hp, rfl⟩
    exact (hint p hp).2

/-- The stroke from `(10, 20)` to `(10.5, 20)` has a box of positive width and height, and the
vertical integer stroke from `(3, 4)` to `(3, 9)` has a box of width and height at least `1`. -/
theorem calculateStrokeBounds_dims_witness :
    ([(10, 20), (21 / 2, 20)] : Points) ≠ [] ∧
      0 < (calculateStrokeBounds [(10, 20), (21 / 2, 20)]).width ∧
      0 < (calculateStrokeBounds [(10, 20), (21 / 2, 20)]).height ∧
      1 ≤ (calculateStrokeBounds [(3, 4), (3, 9)]).width ∧
      1 ≤ (calculateStrokeBounds [(3, 4), (3, 9)]).height :=
  ⟨by simp, (calculateStrokeBounds_dims _ (by simp)).1, (calculateStrokeBounds_dims _ (by simp)).2.1,
    (calculateStrokeBounds_dims [(3, 4), (3, 9)] (by simp)).2.2 (by
      intro p hp
      simp only [List.mem_cons, List.mem_singleton, List.not_mem_nil, or_false] at hp
      rcases hp with rfl | rfl
      · exact ⟨⟨3, by norm_num⟩, ⟨4, by norm_num⟩⟩
      · exact ⟨⟨3, by norm_num⟩, ⟨9, by norm_num⟩⟩)⟩

/-- C10 as stated fails on fractional coordinates: the stroke from `(10, 20)` to `(10.5, 20)`
has a box of width `1 / 2`, which is less than `1`. -/
theorem calculateStrokeBounds_fraction_counterexample :
    (calculateStrokeBounds [(10, 20), (21 / 2, 20)]).width = 1 / 2 ∧
      ¬ (1 ≤ (calculateStrokeBounds [(10, 20), (21 / 2, 20)]).width ∧
        1 ≤ (calculateStrokeBounds [(10, 20), (21 / 2, 20)]).height) := by
  norm_num [calculateStrokeBounds, extentStep, orOne]

/-! ## Event loops: case analysis and what they leave alone -/

theorem applyMove_cases (om : ObjectManager) (id : Nat) (x y : Int) :
    applyMove om id x y = om ∨
      ∃ obj b, om.getObject id = some obj ∧ obj.bounds = some b ∧
        applyMove om id x y =
          { om with objects := mapSet om.objects id (moveObjectTo obj b x y) } := by
  unfold applyMove
  cases hg : om.getObject id with
  | none => exact Or.inl rfl
  | some obj =>
    cases hb : obj.bounds with
    | none =>
      left
      simp only [hb]
    | some b =>
      right
      refine ⟨obj, b, rfl, hb, ?_⟩
      simp only [hb]

theorem replayCreate_cases (L : Ledger) (d : JsSet) (om : ObjectManager) (id : Nat)
    (build : ObjectInfo → DrawObj) :
    replayCreate L d om id build = om ∨
      ∃ info, setHas d id = false ∧ mapHas om.objects id = false ∧
        L.getObjectInfo id = some info ∧ info.isDeleted = false ∧
        replayCreate L d om id build = om.addObject (build info) := by
  unfold replayCreate
  by_cases h1 : setHas d id = true
  · left
    rw [if_pos h1]
  · by_cases h2 : mapHas om.objects id = true
    · left
      rw [if_neg h1, if_pos h2]
    · rw [if_neg h1, if_neg h2]
      cases hi : L.getObjectInfo id with
      | none => exact Or.inl rfl
      | some info =>
        by_cases h3 : info.isDeleted = true
        · left
          simp only [h3, if_true]
        · right
          refine ⟨info, by simpa using h1, by simpa using h2, rfl, by simpa using h3, ?_⟩
          simp only [h3]
          rfl

theorem catchUpCreate_cases (L : Ledger) (me : Option Address) (om : ObjectManager) (id : Nat)
    (build : ObjectInfo → DrawObj) :
    catchUpCreate L me om id build = om ∨
      ∃ info, mapHas om.objects id = false ∧ L.getObjectInfo id = some info ∧
        some info.creator ≠ me ∧ catchUpCreate L me om id build = om.addObject (build info) := by
  unfold catchUpCreate
  by_cases h2 : mapHas om.objects id = true
  · left
    simp [h2]
  · have h2' : mapHas om.objects id = false := by simpa using h2
    cases hi : L.getObjectInfo id with
    | none =>
      left
      simp [h2']
    | some info =>
      by_cases h3 : some info.creator = me
      · left
        simp [h2', h3]
      · right
        refine ⟨info, h2', rfl, h3, ?_⟩
        simp [h2', h3]

theorem catchUpContent_cases (om : ObjectManager) (e : ContentUpdatedEvent) :
    catchUpContent om e = om ∨
      ∃ obj, om.getObject e.objectId = some obj ∧
        catchUpContent om e =
          { om with
            objects := mapSet om.objects e.objectId { obj with content := some e.newContent } } := by
  unfold catchUpContent
  cases hg : om.getObject e.objectId with
  | none => exact Or.inl rfl
  | some obj => exact Or.inr ⟨obj, rfl, rfl⟩

theorem applyMove_deletedObjects (om : ObjectManager) (id : Nat) (x y : Int) :
    (applyMove om id x y).deletedObjects = om.deletedObjects := by
  rcases applyMove_cases om id x y with h | ⟨obj, b, _, _, h⟩ <;> rw [h]

theorem applyMove_layerOrder (om : ObjectManager) (id : Nat) (x y : Int) :
    (applyMove om id x y).layerOrder = om.layerOrder := by
  rcases applyMove_cases om id x y with h | ⟨obj, b, _, _, h⟩ <;> rw [h]

theorem applyMove_mapHas (om : ObjectManager) (id : Nat) (x y : Int) (k : Int) :
    mapHas (applyMove om id x y).objects k = mapHas om.objects k := by
  rcases applyMove_cases om id x y with h | ⟨obj, b, hg, _, h⟩ <;> rw [h]
  simp only [mapHas_mapSet]
  by_cases hk : k = (id : Int)
  · subst hk
    simp [getObject_some_mapHas om _ obj hg]
  · simp [hk]

theorem replayCreate_deletedObjects (L : Ledger) (d : JsSet) (om : ObjectManager) (id : Nat)
    (build : ObjectInfo → DrawObj) :
    (replayCreate L d om id build).deletedObjects = om.deletedObjects := by
  rcases replayCreate_cases L d om id build with h | ⟨info, _, _, _, _, h⟩ <;> rw [h]
  rfl

theorem catchUpCreate_deletedObjects (L : Ledger) (me : Option Address) (om : ObjectManager)
    (id : Nat) (build : ObjectInfo → DrawObj) :
    (catchUpCreate L me om id build).deletedObjects = om.deletedObjects := by
  rcases catchUpCreate_cases L me om id build with h | ⟨info, _, _, _, h⟩ <;> rw [h]
  rfl

theorem catchUpMove_deletedObjects (me : Option Address) (om : ObjectManager)
    (e : ObjectMovedEvent) : (catchUpMove me om e).deletedObjects = om.deletedObjects := by
  unfold catchUpMove
  split_ifs
  · rfl
  · exact applyMove_deletedObjects _ _ _ _

theorem catchUpContent_deletedObjects (om : ObjectManager) (e : ContentUpdatedEvent) :
    (catchUpContent om e).deletedObjects = om.deletedObjects := by
  rcases catchUpContent_cases om e with h | ⟨obj, _, h⟩ <;> rw [h]

theorem catchUpDelete_keeps_tombstone (me : Option Address) (om : ObjectManager)
    (e : ObjectDeletedEvent) (id : Int) (h : setHas om.deletedObjects id = true) :
    setHas (catchUpDelete me om e).deletedObjects id = true := by
  unfold catchUpDelete
  split_ifs
  · exact h
  · exact setHas_setAdd_of_setHas _ _ _ h

theorem replayCreations_deletedObjects (L : Ledger) (currentBlock : Nat) (om : ObjectManager) :
    (replayCreations L currentBlock om).deletedObjects = om.deletedObjects := by
  unfold replayCreations
  simp only
  refine foldl_invariant (fun o => o.deletedObjects = om.deletedObjects) _
    (fun o e h => (replayCreate_deletedObjects L _ o _ _).trans h) _ _ ?_
  refine foldl_invariant (fun o => o.deletedObjects = om.deletedObjects) _
    (fun o e h => (replayCreate_deletedObjects L _ o _ _).trans h) _ _ ?_
  refine foldl_invariant (fun o => o.deletedObjects = om.deletedObjects) _
    (fun o e h => (replayCreate_deletedObjects L _ o _ _).trans h) _ _ ?_
  exact foldl_invariant (fun o => o.deletedObjects = om.deletedObjects) _
    (fun o e h => (replayCreate_deletedObjects L _ o _ _).trans h) _ _ rfl

theorem replayMoves_deletedObjects (moved : List ObjectMovedEvent) (om : ObjectManager) :
    (replayMoves moved om).deletedObjects = om.deletedObjects :=
  foldl_invariant (fun o => o.deletedObjects = om.deletedObjects) _
    (fun o _ h => (applyMove_deletedObjects o _ _ _).trans h) _ _ rfl

theorem loadInitialState_deletedObjects (L : Ledger) (currentBlock : Nat) (om : ObjectManager) :
    (loadInitialState L currentBlock om).deletedObjects = om.deletedObjects := by
  unfold loadInitialState
  rw [replayMoves_deletedObjects, replayCreations_deletedObjects]

theorem replayMoves_mapHas (moved : List ObjectMovedEvent) (om : ObjectManager) (k : Int) :
    mapHas (replayMoves moved om).objects k = mapHas om.objects k :=
  foldl_invariant (fun o => mapHas o.objects k = mapHas om.objects k) _
    (fun o _ h => (applyMove_mapHas o _ _ _ k).trans h) _ _ rfl

/-! ## Tombstones and the event loops -/

theorem catchUpLoops_keeps_tombstone (L : Ledger) (me : Option Address) (fromBlock toBlock : Nat)
    (om : ObjectManager) (id : Int) (h : setHas om.deletedObjects id = true) :
    setHas (catchUpLoops L me fromBlock toBlock om).deletedObjects id = true := by
  unfold catchUpLoops
  simp only
  refine foldl_invariant (fun o => setHas o.deletedObjects id = true) _
    (fun o e ho => by dsimp only at ho ⊢; rw [catchUpContent_deletedObjects]; exact ho) _ _ ?_
  refine foldl_invariant (fun o => setHas o.deletedObjects id = true) _
    (fun o e ho => catchUpDelete_keeps_tombstone me o e id ho) _ _ ?_
  refine foldl_invariant (fun o => setHas o.deletedObjects id = true) _
    (fun o e ho => by dsimp only at ho ⊢; rw [catchUpMove_deletedObjects]; exact ho) _ _ ?_
  refine foldl_invariant (fun o => setHas o.deletedObjects id = true) _
    (fun o e ho => by dsimp only at ho ⊢; rw [catchUpCreate_deletedObjects]; exact ho) _ _ ?_
  refine foldl_invariant (fun o => setHas o.deletedObjects id = true) _
    (fun o e ho => by dsimp only at ho ⊢; rw [catchUpCreate_deletedObjects]; exact ho) _ _ ?_
  refine foldl_invariant (fun o => setHas o.deletedObjects id = true) _
    (fun o e ho => by dsimp only at ho ⊢; rw [catchUpCreate_deletedObjects]; exact ho) _ _ ?_
  exact foldl_invariant (fun o => setHas o.deletedObjects id = true) _
    (fun o e ho => by dsimp only at ho ⊢; rw [catchUpCreate_deletedObjects]; exact ho) _ _ h

theorem processEvents_hides_tombstoned (L : Ledger) (me : Option Address)
    (fromBlock toBlock : Nat) (app : App) (id : Int)
    (h : setHas app.objectManager.deletedObjects id = true) :
    (processEvents L me fromBlock toBlock app).objectManager.getObject id = none ∧
      id ∉ (processEvents L me fromBlock toBlock app).objectManager.visibleIds := by
  have h7 := catchUpLoops_keeps_tombstone L me fromBlock toBlock app.objectManager id h
  unfold processEvents
  cases (queryFilter CanvasClearedEvent.blockNumber L.canvasCleared fromBlock toBlock).getLast? with
  | none => exact ⟨getObject_of_tombstone _ _ h7, not_mem_visibleIds_of_tombstone _ _ h7⟩
  | some lastClear =>
    simp only
    split_ifs
    · exact ⟨by simp [getObject, ObjectManager.clear, setHas, mapGet],
        by simp [visibleIds, ObjectManager.clear]⟩
    · exact ⟨getObject_of_tombstone _ _ h7, not_mem_visibleIds_of_tombstone _ _ h7⟩

theorem replayCreate_avoids (L : Ledger) (d : JsSet) (om : ObjectManager) (id : Nat)
    (build : ObjectInfo → DrawObj) (hb : ∀ info, (build info).id = id)
    (hQ : ∀ k, setHas d k = true → mapHas om.objects k = false) :
    ∀ k, setHas d k = true → mapHas (replayCreate L d om id build).objects k = false := by
  intro k hk
  rcases replayCreate_cases L d om id build with h | ⟨info, hd, _, _, _, h⟩ <;> rw [h]
  · exact hQ k hk
  · show mapHas (mapSet om.objects (build info).id (build info)) k = false
    rw [mapHas_mapSet, hQ k hk, hb]
    have : k ≠ (id : Int) := by
      rintro rfl
      rw [hk] at hd
      exact Bool.noConfusion hd
    simp [this]

theorem replayCreations_avoids (L : Ledger) (currentBlock : Nat) (om : ObjectManager)
    (hQ : ∀ k, setHas (replayDeletedIds L currentBlock) k = true → mapHas om.objects k = false) :
    ∀ k, setHas (replayDeletedIds L currentBlock) k = true →
      mapHas (replayCreations L currentBlock om).objects k = false := by
  unfold replayCreations
  simp only
  refine foldl_invariant
    (fun o => ∀ k, setHas (replayDeletedIds L currentBlock) k = true → mapHas o.objects k = false)
    _ (fun o e ho => replayCreate_avoids L _ o _ _ (fun _ => rfl) ho) _ _ ?_
  refine foldl_invariant
    (fun o => ∀ k, setHas (replayDeletedIds L currentBlock) k = true → mapHas o.objects k = false)
    _ (fun o e ho => replayCreate_avoids L _ o _ _ (fun _ => rfl) ho) _ _ ?_
  refine foldl_invariant
    (fun o => ∀ k, setHas (replayDeletedIds L currentBlock) k = true → mapHas o.objects k = false)
    _ (fun o e ho => replayCreate_avoids L _ o _ _ (fun _ => rfl) ho) _ _ ?_
  exact foldl_invariant
    (fun o => ∀ k, setHas (replayDeletedIds L currentBlock) k = true → mapHas o.objects k = false)
    _ (fun o e ho => replayCreate_avoids L _ o _ _ (fun _ => rfl) ho) _ _ hQ

/-- C8.  When `id` is in the tombstone set, after full replay and after incremental catch-up
over any ledger and range (so after any creation-kind event for `id`) `getObject id` returns
nothing and `id` is not among the ids that `getObjectsInLayerOrder` lists; and after full
replay from an empty store no id with a delete event in the replayed range is a key of the
store. -/
theorem tombstoned_never_reinstated (L : Ledger) (myAddress : Option Address)
    (fromBlock toBlock currentBlock : Nat) (app : App) (id : Int)
    (h : setHas app.objectManager.deletedObjects id = true) :
    ((loadInitialState L currentBlock app.objectManager).getObject id = none ∧
      id ∉ (loadInitialState L currentBlock app.objectManager).visibleIds) ∧
    ((processEvents L myAddress fromBlock toBlock app).objectManager.getObject id = none ∧
      id ∉ (processEvents L myAddress fromBlock toBlock app).objectManager.visibleIds) ∧
    (∀ e ∈ queryFilter ObjectDeletedEvent.blockNumber L.objectDeleted
        (replayFromBlock L currentBlock) currentBlock,
      mapHas (loadInitialState L currentBlock ObjectManager.new).objects e.objectId = false) := by
  have h1 : setHas (loadInitialState L currentBlock app.objectManager).deletedObjects id = true := by
    rw [loadInitialState_deletedObjects]
    exact h
  refine ⟨⟨getObject_of_tombstone _ _ h1, not_mem_visibleIds_of_tombstone _ _ h1⟩,
    processEvents_hides_tombstoned L myAddress fromBlock toBlock app id h, ?_⟩
  intro e he
  unfold loadInitialState
  rw [replayMoves_mapHas]
  refine replayCreations_avoids L currentBlock ObjectManager.new (fun _ _ => rfl) _ ?_
  exact setHas_foldl_setAdd (fun e : ObjectDeletedEvent => (e.objectId : Int)) _ _ _
    (Or.inr ⟨e, he, rfl⟩)

/-- A creation event for the tombstoned id `5` arrives in catch-up and in full replay: the id
stays invisible. -/
theorem tombstoned_never_reinstated_witness :
    setHas tombApp.objectManager.deletedObjects 5 = true ∧
      (processEvents strokeLedger (some 7) 1 1 tombApp).objectManager.getObject 5 = none ∧
      (loadInitialState strokeLedger 1 tombApp.objectManager).getObject 5 = none ∧
      mapHas (loadInitialState strokeLedger 1 ObjectManager.new).objects 5 = false :=
  ⟨by decide,
    (tombstoned_never_reinstated strokeLedger (some 7) 1 1 1 tombApp 5 (by decide)).2.1.1,
    (tombstoned_never_reinstated strokeLedger (some 7) 1 1 1 tombApp 5 (by decide)).1.1,
    (tombstoned_never_reinstated strokeLedger (some 7) 1 1 1 tombApp 5 (by decide)).2.2
      ⟨1, 9, 5⟩ (by decide)⟩

/-! ## Move events -/

theorem applyMove_eq (om : ObjectManager) (id : Nat) (x y : Int) (obj : DrawObj) (b : Bounds)
    (hg : om.getObject id = some obj) (hb : obj.bounds = some b) :
    applyMove om id x y = { om with objects := mapSet om.objects id (moveObjectTo obj b x y) } := by
  unfold applyMove
  rw [hg]
  simp only [hb]

theorem moveObjectTo_moveObjectTo (obj : DrawObj) (b : Bounds) (x1 y1 x2 y2 : ℚ) :
    moveObjectTo (moveObjectTo obj b x1 y1) { b with x := x1, y := y1 } x2 y2 =
      moveObjectTo obj b x2 y2 := by
  unfold moveObjectTo
  by_cases ht : obj.type = some ObjType.stroke
  · simp only [ht, if_true]
    congr 1
    cases obj.points with
    | none => rfl
    | some pts =>
      simp only [Option.map_some', List.map_map, Option.some.injEq]
      apply List.map_congr_left
      intro p _
      simp only [Function.comp_apply, Prod.mk.injEq]
      constructor <;> ring
  · simp only [ht, if_false]

theorem applyMove_applyMove (om : ObjectManager) (id : Nat) (x1 y1 x2 y2 : Int) :
    applyMove (applyMove om id x1 y1) id x2 y2 = applyMove om id x2 y2 := by
  rcases applyMove_cases om id x1 y1 with h | ⟨obj, b, hg, hb, h⟩
  · rw [h]
  · rw [h, applyMove_eq om id x2 y2 obj b hg hb]
    have hd := ((getObject_eq_some om id obj).1 hg).1
    have hg1 : ({ om with objects := mapSet om.objects id (moveObjectTo obj b x1 y1) } :
        ObjectManager).getObject id = some (moveObjectTo obj b x1 y1) :=
      (getObject_eq_some _ _ _).2 ⟨hd, mapGet_mapSet_self _ _ _⟩
    rw [applyMove_eq _ id x2 y2 _ { b with x := x1, y := y1 } hg1 rfl]
    simp only [moveObjectTo_moveObjectTo]
    rw [mapSet_mapSet _ _ _ _ (getObject_some_mapHas om _ obj hg)]

theorem getObject_applyMove_of_ne (om : ObjectManager) (i : Nat) (x y : Int) (j : Int)
    (h : j ≠ (i : Int)) : (applyMove om i x y).getObject j = om.getObject j := by
  rcases applyMove_cases om i x y with h1 | ⟨obj, b, _, _, h1⟩ <;> rw [h1]
  exact getObject_set_of_ne om i j _ h

theorem applyMove_of_not (om : ObjectManager) (id : Nat) (x y : Int)
    (h : ¬ ∃ obj b, om.getObject id = some obj ∧ obj.bounds = some b) :
    applyMove om id x y = om := by
  rcases applyMove_cases om id x y with h1 | ⟨obj, b, hg, hb, _⟩
  · exact h1
  · exact absurd ⟨obj, b, hg, hb⟩ h

theorem applyMove_comm (om : ObjectManager) (i j : Nat) (x1 y1 x2 y2 : Int) (h : i ≠ j) :
    applyMove (applyMove om i x1 y1) j x2 y2 = applyMove (applyMove om j x2 y2) i x1 y1 := by
  have hij : (i : Int) ≠ (j : Int) := by exact_mod_cast h
  have hji : (j : Int) ≠ (i : Int) := fun e => hij e.symm
  have hgj := getObject_applyMove_of_ne om i x1 y1 j hji
  have hgi := getObject_applyMove_of_ne om j x2 y2 i hij
  by_cases Hi : ∃ obj b, om.getObject i = some obj ∧ obj.bounds = some b
  · by_cases Hj : ∃ obj b, om.getObject j = some obj ∧ obj.bounds = some b
    · obtain ⟨oi, bi, hoi, hbi⟩ := Hi
      obtain ⟨oj, bj, hoj, hbj⟩ := Hj
      rw [applyMove_eq _ j x2 y2 oj bj (hgj.trans hoj) hbj,
        applyMove_eq _ i x1 y1 oi bi (hgi.trans hoi) hbi,
        applyMove_eq om i x1 y1 oi bi hoi hbi, applyMove_eq om j x2 y2 oj bj hoj hbj]
      simp only
      rw [mapSet_comm _ _ _ _ _ (getObject_some_mapHas om _ oi hoi)
        (getObject_some_mapHas om _ oj hoj) hij]
    · have Hj' : ¬ ∃ obj b, (applyMove om i x1 y1).getObject j = some obj ∧
          obj.bounds = some b := by
        rw [hgj]
        exact Hj
      rw [applyMove_of_not _ j x2 y2 Hj', applyMove_of_not om j x2 y2 Hj]
  · have Hi' : ¬ ∃ obj b, (applyMove om j x2 y2).getObject i = some obj ∧
        obj.bounds = some b := by
      rw [hgi]
      exact Hi
    rw [applyMove_of_not _ i x1 y1 Hi', applyMove_of_not om i x1 y1 Hi]

theorem replayMoves_cons (e : ObjectMovedEvent) (moved : List ObjectMovedEvent)
    (om : ObjectManager) :
    replayMoves (e :: moved) om = replayMoves moved (applyMove om e.objectId e.newX e.newY) :=
  rfl

theorem replayMoves_append_singleton (moved : List ObjectMovedEvent) (e : ObjectMovedEvent)
    (om : ObjectManager) :
    replayMoves (moved ++ [e]) om =
      applyMove (replayMoves moved om) e.objectId e.newX e.newY := by
  simp [replayMoves, List.foldl_append]

theorem applyMove_replayMoves_applyMove (moved : List ObjectMovedEvent) (e : ObjectMovedEvent)
    (om : ObjectManager) :
    applyMove (replayMoves moved (applyMove om e.objectId e.newX e.newY)) e.objectId e.newX
        e.newY =
      applyMove (replayMoves moved om) e.objectId e.newX e.newY := by
  induction moved generalizing om with
  | nil => exact applyMove_applyMove om _ _ _ _ _
  | cons f moved ih =>
    rw [replayMoves_cons, replayMoves_cons]
    by_cases hfe : e.objectId = f.objectId
    · rw [← hfe, applyMove_applyMove]
    · rw [applyMove_comm om _ _ _ _ _ _ hfe, ih]

theorem replayMoves_idempotent (moved : List ObjectMovedEvent) (om : ObjectManager) :
    replayMoves moved (replayMoves moved om) = replayMoves moved om := by
  induction moved using List.reverseRecOn generalizing om with
  | nil => rfl
  | append_singleton moved e ih =>
    rw [replayMoves_append_singleton, replayMoves_append_singleton,
      applyMove_replayMoves_applyMove, ih]

theorem catchUpMove_of_remote (me : Option Address) (om : ObjectManager) (e : ObjectMovedEvent)
    (h : some e.user ≠ me) : catchUpMove me om e = applyMove om e.objectId e.newX e.newY := by
  unfold catchUpMove
  rw [if_neg h]

theorem moveObjectTo_by (obj : DrawObj) (b : Bounds) (x y dx dy : ℚ) (hx : x = b.x + dx)
    (hy : y = b.y + dy) :
    moveObjectTo obj b x y =
      { obj with
        bounds := some { x := b.x + dx, y := b.y + dy, width := b.width, height := b.height }
        points :=
          if obj.type = some ObjType.stroke then
            obj.points.map (fun pts => pts.map (fun p => (p.1 + dx, p.2 + dy)))
          else obj.points } := by
  subst hx hy
  unfold moveObjectTo
  simp only [add_sub_cancel_left]

/-- C6.  For an object that `getObject` returns with bounds `b`, and two applied move events
for it that displace it by `d1` and then by `d2`, both `ObjectMoved` loops end in the state that
the second event alone produces; the object's bounds origin is `b` displaced by `d1 + d2`, its
width and height are those of `b`, and a stroke's points are all displaced by `d1 + d2`. -/
theorem move_events_compose (om : ObjectManager) (myAddress : Option Address)
    (e1 e2 : ObjectMovedEvent) (obj : DrawObj) (b : Bounds) (d1 d2 : ℚ × ℚ)
    (hobj : om.getObject e1.objectId = some obj) (hb : obj.bounds = some b)
    (hid : e2.objectId = e1.objectId)
    (h1x : (e1.newX : ℚ) = b.x + d1.1) (h1y : (e1.newY : ℚ) = b.y + d1.2)
    (h2x : (e2.newX : ℚ) = e1.newX + d2.1) (h2y : (e2.newY : ℚ) = e1.newY + d2.2)
    (hu1 : some e1.user ≠ myAddress) (hu2 : some e2.user ≠ myAddress) :
    replayMoves [e1, e2] om = replayMoves [e2] om ∧
    [e1, e2].foldl (catchUpMove myAddress) om = [e2].foldl (catchUpMove myAddress) om ∧
    [e1, e2].foldl (catchUpMove myAddress) om = replayMoves [e1, e2] om ∧
    (replayMoves [e1, e2] om).getObject e1.objectId =
      some { obj with
        bounds := some
          { x := b.x + (d1.1 + d2.1), y := b.y + (d1.2 + d2.2), width := b.width,
            height := b.height }
        points :=
          if obj.type = some ObjType.stroke then
            obj.points.map (fun pts => pts.map (fun p => (p.1 + (d1.1 + d2.1), p.2 + (d1.2 + d2.2))))
          else obj.points } := by
  have hr : replayMoves [e1, e2] om = replayMoves [e2] om := by
    show applyMove (applyMove om e1.objectId e1.newX e1.newY) e2.objectId e2.newX e2.newY =
      applyMove om e2.objectId e2.newX e2.newY
    rw [hid, applyMove_applyMove]
  have hc : [e1, e2].foldl (catchUpMove myAddress) om = replayMoves [e1, e2] om := by
    show catchUpMove myAddress (catchUpMove myAddress om e1) e2 =
      applyMove (applyMove om e1.objectId e1.newX e1.newY) e2.objectId e2.newX e2.newY
    rw [catchUpMove_of_remote _ _ _ hu1, catchUpMove_of_remote _ _ _ hu2]
  have hc2 : [e2].foldl (catchUpMove myAddress) om = replayMoves [e2] om := by
    show catchUpMove myAddress om e2 = applyMove om e2.objectId e2.newX e2.newY
    rw [catchUpMove_of_remote _ _ _ hu2]
  refine ⟨hr, by rw [hc, hc2, hr], hc, ?_⟩
  rw [hr]
  show (applyMove om e2.objectId e2.newX e2.newY).getObject e1.objectId = _
  rw [hid, applyMove_eq om _ _ _ obj b hobj hb]
  have hx : (e2.newX : ℚ) = b.x + (d1.1 + d2.1) := by rw [h2x, h1x]; ring
  have hy : (e2.newY : ℚ) = b.y + (d1.2 + d2.2) := by rw [h2y, h1y]; ring
  rw [moveObjectTo_by obj b _ _ _ _ hx hy]
  exact (getObject_eq_some _ _ _).2
    ⟨((getObject_eq_some om _ obj).1 hobj).1, mapGet_mapSet_self _ _ _⟩

/-- Stroke `5` at `(10, 20)` is moved to `(15, 25)` and then to `(12, 30)`. -/
theorem move_events_compose_witness :
    (replayMoves [⟨3, 8, 5, 15, 25⟩, ⟨4, 8, 5, 12, 30⟩]
        (ObjectManager.new.addObject remoteStroke)).getObject 5 =
      some { remoteStroke with
        bounds := some { x := 10 + (5 + -3), y := 20 + (5 + 5), width := 30, height := 1 }
        points := some [(10 + (5 + -3), 20 + (5 + 5)), (40 + (5 + -3), 20 + (5 + 5))] } :=
  (move_events_compose (ObjectManager.new.addObject remoteStroke) (some 7) ⟨3, 8, 5, 15, 25⟩
    ⟨4, 8, 5, 12, 30⟩ remoteStroke { x := 10, y := 20, width := 30, height := 1 } (5, 5) (-3, 5)
    (by decide) rfl rfl (by norm_num) (by norm_num) (by norm_num) (by norm_num) (by decide)
    (by decide)).2.2.2

/-! ## Full replay is idempotent -/

theorem replayCreate_of_settled (L : Ledger) (d : JsSet) (om : ObjectManager) (id : Nat)
    (build : ObjectInfo → DrawObj) (h : Settled L d om id) :
    replayCreate L d om id build = om := by
  rcases replayCreate_cases L d om id build with h1 | ⟨info, hd, hm, hi, hdel, _⟩
  · exact h1
  · rcases h with h | h | h | ⟨info', hi', hdel'⟩
    · rw [h] at hd
      exact Bool.noConfusion hd
    · rw [h] at hm
      exact Bool.noConfusion hm
    · rw [h] at hi
      exact Option.noConfusion hi
    · rw [hi] at hi'
      cases hi'
      rw [hdel] at hdel'
      exact Bool.noConfusion hdel'

theorem keysLe_refl (om : ObjectManager) : KeysLe om om := fun _ h => h

theorem keysLe_trans {a b c : ObjectManager} (h1 : KeysLe a b) (h2 : KeysLe b c) : KeysLe a c :=
  fun k h => h2 k (h1 k h)

theorem settled_of_keysLe (L : Ledger) (d : JsSet) {om om' : ObjectManager} (id : Nat)
    (hle : KeysLe om om') (h : Settled L d om id) : Settled L d om' id := by
  rcases h with h | h | h
  · exact Or.inl h
  · exact Or.inr (Or.inl (hle _ h))
  · exact Or.inr (Or.inr h)

theorem settled_mono (L : Ledger) (d : JsSet) {om om' : ObjectManager} (id : Nat)
    (h : Settled L d om id) (hle : KeysLe om om') : Settled L d om' id :=
  settled_of_keysLe L d id hle h

theorem keysLe_replayCreate (L : Ledger) (d : JsSet) (om : ObjectManager) (id : Nat)
    (build : ObjectInfo → DrawObj) : KeysLe om (replayCreate L d om id build) := by
  intro k hk
  rcases replayCreate_cases L d om id build with h1 | ⟨info, _, _, _, _, h1⟩ <;> rw [h1]
  · exact hk
  · show mapHas (mapSet om.objects (build info).id (build info)) k = true
    rw [mapHas_mapSet, hk]
    rfl

theorem replayCreate_of_not_settled (L : Ledger) (d : JsSet) (om : ObjectManager) (id : Nat)
    (build : ObjectInfo → DrawObj) (h : ¬ Settled L d om id) :
    ∃ info, replayCreate L d om id build = om.addObject (build info) := by
  have hd : ¬ setHas d id = true := fun e => h (Or.inl e)
  have hm : ¬ mapHas om.objects id = true := fun e => h (Or.inr (Or.inl e))
  cases hi : L.getObjectInfo id with
  | none => exact absurd (Or.inr (Or.inr (Or.inl hi))) h
  | some info =>
    have hdel : ¬ info.isDeleted = true := fun e => h (Or.inr (Or.inr (Or.inr ⟨info, hi, e⟩)))
    refine ⟨info, ?_⟩
    unfold replayCreate
    rw [if_neg hd, if_neg hm, hi]
    simp [hdel]

theorem settled_replayCreate (L : Ledger) (d : JsSet) (om : ObjectManager) (id : Nat)
    (build : ObjectInfo → DrawObj) (hb : ∀ info, (build info).id = id) :
    Settled L d (replayCreate L d om id build) id := by
  by_cases h : Settled L d om id
  · exact settled_of_keysLe L d id (keysLe_replayCreate L d om id build) h
  · obtain ⟨info, h1⟩ := replayCreate_of_not_settled L d om id build h
    rw [h1]
    right
    left
    show mapHas (mapSet om.objects (build info).id (build info)) id = true
    rw [hb, mapHas_mapSet]
    simp

theorem keysLe_foldl_replayCreate {ε : Type} (L : Ledger) (d : JsSet) (idOf : ε → Nat)
    (build : ε → ObjectInfo → DrawObj) (l : List ε) (om : ObjectManager) :
    KeysLe om (l.foldl (fun om e => replayCreate L d om (idOf e) (build e)) om) := by
  induction l generalizing om with
  | nil => exact keysLe_refl om
  | cons e l ih => exact keysLe_trans (keysLe_replayCreate L d om _ _) (ih _)

theorem settled_foldl_replayCreate {ε : Type} (L : Ledger) (d : JsSet) (idOf : ε → Nat)
    (build : ε → ObjectInfo → DrawObj) (hb : ∀ e info, (build e info).id = idOf e)
    (l : List ε) (om : ObjectManager) :
    ∀ e ∈ l, Settled L d (l.foldl (fun om e => replayCreate L d om (idOf e) (build e)) om)
      (idOf e) := by
  induction l generalizing om with
  | nil => intro e he; exact absurd he (List.not_mem_nil e)
  | cons a l ih =>
    intro e he
    rcases List.mem_cons.1 he with rfl | he'
    · exact settled_of_keysLe L d _ (keysLe_foldl_replayCreate L d idOf build l _)
        (settled_replayCreate L d om _ _ (hb e))
    · exact ih _ e he'

theorem foldl_replayCreate_of_settled {ε : Type} (L : Ledger) (d : JsSet) (idOf : ε → Nat)
    (build : ε → ObjectInfo → DrawObj) (l : List ε) (om : ObjectManager)
    (h : ∀ e ∈ l, Settled L d om (idOf e)) :
    l.foldl (fun om e => replayCreate L d om (idOf e) (build e)) om = om := by
  induction l with
  | nil => rfl
  | cons a l ih =>
    rw [List.foldl_cons, replayCreate_of_settled L d om _ _ (h a (List.mem_cons_self _ _))]
    exact ih (fun e he => h e (List.mem_cons_of_mem _ he))

theorem allSettled_of_keysLe (L : Ledger) (currentBlock : Nat) {om om' : ObjectManager}
    (hle : KeysLe om om') (h : AllSettled L currentBlock om) : AllSettled L currentBlock om' :=
  ⟨fun e he => settled_of_keysLe L _ _ hle (h.1 e he),
    fun e he => settled_of_keysLe L _ _ hle (h.2.1 e he),
    fun e he => settled_of_keysLe L _ _ hle (h.2.2.1 e he),
    fun e he => settled_of_keysLe L _ _ hle (h.2.2.2 e he)⟩

theorem replayCreations_of_allSettled (L : Ledger) (currentBlock : Nat) (om : ObjectManager)
    (h : AllSettled L currentBlock om) : replayCreations L currentBlock om = om := by
  unfold replayCreations
  simp only
  rw [foldl_replayCreate_of_settled L _ StrokePointsEvent.objectId strokeObject _ om h.1,
    foldl_replayCreate_of_settled L _ ShapeGeometryEvent.objectId shapeObject _ om h.2.1,
    foldl_replayCreate_of_settled L _ StickyNoteDataEvent.objectId stickyObject _ om h.2.2.1,
    foldl_replayCreate_of_settled L _ TextDataEvent.objectId textObject _ om h.2.2.2]

theorem allSettled_replayCreations (L : Ledger) (currentBlock : Nat) (om : ObjectManager) :
    AllSettled L currentBlock (replayCreations L currentBlock om) := by
  have k2 := keysLe_foldl_replayCreate L (replayDeletedIds L currentBlock)
    ShapeGeometryEvent.objectId shapeObject
    (queryFilter ShapeGeometryEvent.blockNumber L.shapeGeometry (replayFromBlock L currentBlock)
      currentBlock)
  have k3 := keysLe_foldl_replayCreate L (replayDeletedIds L currentBlock)
    StickyNoteDataEvent.objectId stickyObject
    (queryFilter StickyNoteDataEvent.blockNumber L.stickyNoteData
      (replayFromBlock L currentBlock) currentBlock)
  have k4 := keysLe_foldl_replayCreate L (replayDeletedIds L currentBlock)
    TextDataEvent.objectId textObject
    (queryFilter TextDataEvent.blockNumber L.textData (replayFromBlock L currentBlock)
      currentBlock)
  unfold replayCreations
  simp only
  refine ⟨?_, ?_, ?_, ?_⟩
  · intro e he
    exact settled_mono L _ _
      (settled_foldl_replayCreate L _ StrokePointsEvent.objectId strokeObject (fun _ _ => rfl)
        _ om e he)
      (keysLe_trans (k2 _) (keysLe_trans (k3 _) (k4 _)))
  · intro e he
    exact settled_mono L _ _
      (settled_foldl_replayCreate L _ ShapeGeometryEvent.objectId shapeObject (fun _ _ => rfl)
        _ _ e he)
      (keysLe_trans (k3 _) (k4 _))
  · intro e he
    exact settled_mono L _ _
      (settled_foldl_replayCreate L _ StickyNoteDataEvent.objectId stickyObject
        (fun _ _ => rfl) _ _ e he)
      (k4 _)
  · intro e he
    exact settled_foldl_replayCreate L _ TextDataEvent.objectId textObject (fun _ _ => rfl) _ _
      e he

theorem keysLe_replayMoves (moved : List ObjectMovedEvent) (om : ObjectManager) :
    KeysLe om (replayMoves moved om) := by
  intro k hk
  rw [replayMoves_mapHas]
  exact hk

theorem loadInitialState_idempotent (L : Ledger) (currentBlock : Nat) (om : ObjectManager) :
    loadInitialState L currentBlock (loadInitialState L currentBlock om) =
      loadInitialState L currentBlock om := by
  unfold loadInitialState
  rw [replayCreations_of_allSettled L currentBlock _
    (allSettled_of_keysLe L currentBlock (keysLe_replayMoves _ _)
      (allSettled_replayCreations L currentBlock om)),
    replayMoves_idempotent]

/-- C5.  Running `loadInitialState` twice in succession over the same ledger, attribute
lookup and checkpoint range gives the same object manager as running it once, from the empty
store and from any other store. -/
theorem full_replay_twice (L : Ledger) (currentBlock : Nat) :
    loadInitialState L currentBlock (loadInitialState L currentBlock ObjectManager.new) =
      loadInitialState L currentBlock ObjectManager.new ∧
    ∀ om, loadInitialState L currentBlock (loadInitialState L currentBlock om) =
      loadInitialState L currentBlock om :=
  ⟨loadInitialState_idempotent L currentBlock _, loadInitialState_idempotent L currentBlock⟩

/-! ## Self-echo suppression -/

theorem catchUpCreate_of_local (L : Ledger) (me : Address) (om : ObjectManager) (id : Nat)
    (build : ObjectInfo → DrawObj)
    (h : ∀ info, L.getObjectInfo id = some info → info.creator = me) :
    catchUpCreate L (some me) om id build = om := by
  rcases catchUpCreate_cases L (some me) om id build with h1 | ⟨info, _, hi, hne, _⟩
  · exact h1
  · exact absurd (congrArg some (h info hi)) hne

theorem catchUpLoops_of_local (L : Ledger) (me : Address) (fromBlock toBlock : Nat)
    (om : ObjectManager) (hlocal : LocalOnlyRange L me fromBlock toBlock)
    (hcontent :
      queryFilter ContentUpdatedEvent.blockNumber L.contentUpdated fromBlock toBlock = []) :
    catchUpLoops L (some me) fromBlock toBlock om = om := by
  obtain ⟨h1, h2, h3, h4, h5, h6, _⟩ := hlocal
  unfold catchUpLoops
  simp only
  rw [foldl_eq_self _ _ om (fun e he => catchUpCreate_of_local L me om _ _ (h1 e he)),
    foldl_eq_self _ _ om (fun e he => catchUpCreate_of_local L me om _ _ (h2 e he)),
    foldl_eq_self _ _ om (fun e he => catchUpCreate_of_local L me om _ _ (h3 e he)),
    foldl_eq_self _ _ om (fun e he => catchUpCreate_of_local L me om _ _ (h4 e he)),
    foldl_eq_self _ _ om (fun e he => by
      unfold catchUpMove
      rw [if_pos (congrArg some (h5 e he))]),
    foldl_eq_self _ _ om (fun e he => by
      unfold catchUpDelete
      rw [if_pos (congrArg some (h6 e he))]),
    hcontent]
  rfl

/-- C4 (amended).  Over a block range whose creation, move, delete and clear events all
originate from the local participant and which holds no content-update event, `processEvents`
returns the state it was given; so a locally created object is neither duplicated nor
changed by the echo of its creation. -/
theorem processEvents_local_only (L : Ledger) (me : Address) (fromBlock toBlock : Nat)
    (app : App) (hlocal : LocalOnlyRange L me fromBlock toBlock)
    (hcontent :
      queryFilter ContentUpdatedEvent.blockNumber L.contentUpdated fromBlock toBlock = []) :
    processEvents L (some me) fromBlock toBlock app = app := by
  unfold processEvents
  rw [catchUpLoops_of_local L me fromBlock toBlock _ hlocal hcontent]
  cases hl : (queryFilter CanvasClearedEvent.blockNumber L.canvasCleared fromBlock
      toBlock).getLast? with
  | none => rfl
  | some lastClear =>
    have hu : lastClear.user = me := hlocal.2.2.2.2.2.2 _ (List.mem_of_getLast?_eq_some hl)
    simp only [hu, ne_eq, not_true_eq_false, if_false]

/-- The self-echo scenario: note `5` is in the store and block `1` holds its creation event,
authored by the local participant `7`. -/
theorem processEvents_local_only_witness :
    mapGet noteApp.objectManager.objects 5 = some localNote ∧
      processEvents echoLedger (some 7) 1 1 noteApp = noteApp :=
  ⟨by decide,
    processEvents_local_only echoLedger 7 1 1 noteApp
      (by simp [LocalOnlyRange, queryFilter, echoLedger]) (by simp [queryFilter, echoLedger])⟩

/-- C4 as stated fails on content updates, which carry no originator: the range has no
creation, move, delete or clear event at all, yet the content of note `5` changes. -/
theorem processEvents_content_counterexample :
    LocalOnlyRange contentLedger 7 1 1 ∧
      processEvents contentLedger (some 7) 1 1 noteApp ≠ noteApp ∧
      (processEvents contentLedger (some 7) 1 1 noteApp).objectManager.getObject 5 =
        some { localNote with content := some "edited elsewhere" } := by
  refine ⟨by simp [LocalOnlyRange, queryFilter, contentLedger], ?_, ?_⟩
  · decide
  · decide

/-! ## Hit testing -/

theorem _pointInBounds_iff (x y : ℚ) (obj : DrawObj) :
    _pointInBounds x y obj = true ↔ PaddedHit x y obj := by
  unfold _pointInBounds PaddedHit
  cases hb : obj.bounds with
  | none => simp
  | some b => simp [and_assoc]

theorem hitScan_cons_of_hit (om : ObjectManager) (x y : ℚ) (id : Int) (rest : List Int)
    (o : DrawObj) (h : HitAt om x y id o) : hitScan om x y (id :: rest) = some o := by
  obtain ⟨hd, hg, hp⟩ := h
  unfold hitScan
  simp [hd, hg, (_pointInBounds_iff x y o).2 hp]

theorem hitScan_cons_of_miss (om : ObjectManager) (x y : ℚ) (id : Int) (rest : List Int)
    (h : ∀ o, ¬ HitAt om x y id o) : hitScan om x y (id :: rest) = hitScan om x y rest := by
  rw [hitScan]
  by_cases hd : setHas om.deletedObjects id = true
  · rw [if_pos hd]
  · rw [if_neg hd]
    cases hg : mapGet om.objects id with
    | none => rfl
    | some obj =>
      simp only
      by_cases hp : _pointInBounds x y obj = true
      · exact absurd ⟨by simpa using hd, hg, (_pointInBounds_iff x y obj).1 hp⟩ (h obj)
      · rw [if_neg hp]

theorem hitAt_unique (om : ObjectManager) (x y : ℚ) (id : Int) (o o' : DrawObj)
    (h : HitAt om x y id o) (h' : HitAt om x y id o') : o = o' :=
  Option.some.inj (h.2.1.symm.trans h'.2.1)

theorem hitScan_eq_some_iff (om : ObjectManager) (x y : ℚ) (l : List Int) (o : DrawObj) :
    hitScan om x y l = some o ↔
      ∃ a id b, l = a ++ id :: b ∧ (∀ k ∈ a, ∀ o', ¬ HitAt om x y k o') ∧ HitAt om x y id o := by
  induction l with
  | nil => simp [hitScan]
  | cons k rest ih =>
    by_cases hk : ∃ o', HitAt om x y k o'
    · obtain ⟨o', ho'⟩ := hk
      rw [hitScan_cons_of_hit om x y k rest o' ho']
      constructor
      · intro h
        cases h
        exact ⟨[], k, rest, rfl, fun _ hm => absurd hm (List.not_mem_nil _), ho'⟩
      · rintro ⟨a, id, b, hl, ha, hid⟩
        cases a with
        | nil =>
          simp only [List.nil_append, List.cons.injEq] at hl
          obtain ⟨rfl, _⟩ := hl
          rw [hitAt_unique om x y k o' o ho' hid]
        | cons k' a =>
          simp only [List.cons_append, List.cons.injEq] at hl
          obtain ⟨rfl, _⟩ := hl
          exact absurd ho' (ha k (List.mem_cons_self _ _) o')
    · have hk' : ∀ o', ¬ HitAt om x y k o' := fun o' h => hk ⟨o', h⟩
      rw [hitScan_cons_of_miss om x y k rest hk', ih]
      constructor
      · rintro ⟨a, id, b, hl, ha, hid⟩
        refine ⟨k :: a, id, b, by rw [hl]; rfl, ?_, hid⟩
        intro j hj
        rcases List.mem_cons.1 hj with rfl | hj
        · exact hk'
        · exact ha j hj
      · rintro ⟨a, id, b, hl, ha, hid⟩
        cases a with
        | nil =>
          simp only [List.nil_append, List.cons.injEq] at hl
          obtain ⟨rfl, _⟩ := hl
          exact absurd hid (hk' o)
        | cons k' a =>
          simp only [List.cons_append, List.cons.injEq] at hl
          obtain ⟨rfl, rfl⟩ := hl
          exact ⟨a, id, b, rfl, fun j hj => ha j (List.mem_cons_of_mem _ hj), hid⟩

theorem hitScan_eq_none_iff (om : ObjectManager) (x y : ℚ) (l : List Int) :
    hitScan om x y l = none ↔ ∀ k ∈ l, ∀ o, ¬ HitAt om x y k o := by
  induction l with
  | nil => simp [hitScan]
  | cons k rest ih =>
    by_cases hk : ∃ o', HitAt om x y k o'
    · obtain ⟨o', ho'⟩ := hk
      rw [hitScan_cons_of_hit om x y k rest o' ho']
      constructor
      · intro h
        cases h
      · intro h
        exact absurd ho' (h k (List.mem_cons_self _ _) o')
    · have hk' : ∀ o', ¬ HitAt om x y k o' := fun o' h => hk ⟨o', h⟩
      rw [hitScan_cons_of_miss om x y k rest hk', ih]
      constructor
      · intro h j hj
        rcases List.mem_cons.1 hj with rfl | hj
        · exact hk'
        · exact h j hj
      · intro h j hj
        exact h j (List.mem_cons_of_mem _ hj)

/-- C20.  For every store and point, `getObjectAtPoint` returns `o` exactly when `o` is the
object of the last id in layer order that is not tombstoned, is stored, and whose bounds
expanded by the padding `strokeWidth + 5` (`strokeWidth` taken as `5` when `0` or missing)
contain the point; it returns nothing exactly when no id in layer order has such an object. -/
theorem getObjectAtPoint_topmost (om : ObjectManager) (x y : ℚ) :
    (∀ o, om.getObjectAtPoint x y = some o ↔
      ∃ below id above, om.layerOrder = below ++ id :: above ∧ HitAt om x y id o ∧
        ∀ k ∈ above, ∀ o', ¬ HitAt om x y k o') ∧
    (om.getObjectAtPoint x y = none ↔ ∀ k ∈ om.layerOrder, ∀ o, ¬ HitAt om x y k o) := by
  unfold getObjectAtPoint
  constructor
  · intro o
    rw [hitScan_eq_some_iff]
    constructor
    · rintro ⟨a, id, b, hl, ha, hid⟩
      refine ⟨b.reverse, id, a.reverse, ?_, hid, fun k hk => ha k (List.mem_reverse.1 hk)⟩
      have := congrArg List.reverse hl
      simpa using this
    · rintro ⟨below, id, above, hl, hid, ha⟩
      refine ⟨above.reverse, id, below.reverse, ?_, fun k hk => ha k (List.mem_reverse.1 hk), hid⟩
      rw [hl]
      simp
  · rw [hitScan_eq_none_iff]
    constructor
    · intro h k hk
      exact h k (List.mem_reverse.2 hk)
    · intro h k hk
      exact h k (List.mem_reverse.1 hk)

/-! ## Layer order -/

theorem mem_mapKeys_iff {β : Type} (m : JsMap β) (k : Int) :
    k ∈ mapKeys m ↔ mapHas m k = true := by
  induction m with
  | nil => simp [mapKeys, mapHas, mapGet]
  | cons e m ih =>
    by_cases h : e.1 = k
    · simp [mapKeys, mapHas, mapGet, h]
    · have h' : ¬ k = e.1 := fun e' => h e'.symm
      have ih' : k ∈ List.map (fun e => e.1) m ↔ (mapGet m k).isSome = true := ih
      simp [mapKeys, mapHas, mapGet, h, h', ih']

theorem mapKeys_mapSet {β : Type} (m : JsMap β) (k : Int) (v : β) :
    mapKeys (mapSet m k v) = if mapHas m k = true then mapKeys m else mapKeys m ++ [k] := by
  unfold mapSet
  by_cases h : mapHas m k = true
  · rw [if_pos h, if_pos h]
    unfold mapKeys
    rw [List.map_map]
    apply List.map_congr_left
    intro e _
    by_cases he : e.1 = k <;> simp [he]
  · rw [if_neg h, if_neg h]
    simp [mapKeys]

theorem layerKey_congr (om om' : ObjectManager)
    (h : ∀ id, (mapGet om'.objects id).map (fun o => o.layer) =
      (mapGet om.objects id).map (fun o => o.layer)) :
    om'.layerKey = om.layerKey := by
  funext id
  have := h id
  unfold layerKey
  cases h1 : mapGet om'.objects id <;> cases h2 : mapGet om.objects id <;>
    simp [h1, h2] at this ⊢
  exact this

theorem _updateLayerOrder_congr (om om' : ObjectManager)
    (hk : mapKeys om'.objects = mapKeys om.objects)
    (hd : om'.deletedObjects = om.deletedObjects) (hl : om'.layerKey = om.layerKey) :
    om'._updateLayerOrder.layerOrder = om._updateLayerOrder.layerOrder := by
  unfold _updateLayerOrder
  simp only [hk, hd, hl]

theorem layerOrderCurrent_updateLayerOrder (om : ObjectManager) :
    LayerOrderCurrent om._updateLayerOrder := rfl

theorem layerOrderCurrent_updateObject (om : ObjectManager) (id : Int) (u : Updates)
    (h : LayerOrderCurrent om) : LayerOrderCurrent (om.updateObject id u) := by
  unfold updateObject
  cases hg : mapGet om.objects id with
  | none => exact h
  | some obj =>
    simp only
    by_cases hd : (!setHas om.deletedObjects id) = true
    · rw [if_pos hd]
      by_cases hl : u.layer.isSome = true
      · rw [if_pos hl]
        exact layerOrderCurrent_updateLayerOrder _
      · rw [if_neg hl]
        unfold LayerOrderCurrent
        have hhas : mapHas om.objects id = true := by simp [mapHas, hg]
        rw [_updateLayerOrder_congr om
          { om with objects := mapSet om.objects id (obj.assign u) }
          (by simp [mapKeys_mapSet, hhas]) rfl ?_]
        · exact h
        · apply layerKey_congr
          intro k
          by_cases hk : k = id
          · subst hk
            have hnone : u.layer = none := by
              cases hu : u.layer with
              | none => rfl
              | some v => simp [hu] at hl
            simp [mapGet_mapSet_self, hg, DrawObj.assign, hnone]
          · simp [mapGet_mapSet_of_ne _ _ _ _ hk]
    · rw [if_neg hd]
      exact h

theorem layerOrderCurrent_run (om : ObjectManager) (a : StoreAction)
    (h : LayerOrderCurrent om) : LayerOrderCurrent (a.run om) := by
  cases a with
  | clear => rfl
  | call c =>
    cases c with
    | add o => exact layerOrderCurrent_updateLayerOrder _
    | update id u => exact layerOrderCurrent_updateObject om id u h
    | delete id => exact layerOrderCurrent_updateLayerOrder _

theorem updateObject_mapKeys (om : ObjectManager) (id : Int) (u : Updates) :
    mapKeys (om.updateObject id u).objects = mapKeys om.objects := by
  unfold updateObject
  cases hg : mapGet om.objects id with
  | none => rfl
  | some obj =>
    have hhas : mapHas om.objects id = true := by simp [mapHas, hg]
    simp only
    split_ifs <;> simp [mapKeys_mapSet, hhas]

theorem mapKeys_run (om : ObjectManager) (a : StoreAction) :
    mapKeys (a.run om).objects = insertionLogStep (mapKeys om.objects) a := by
  cases a with
  | clear => rfl
  | call c =>
    cases c with
    | add o =>
      show mapKeys (mapSet om.objects o.id o) = _
      rw [mapKeys_mapSet]
      simp only [insertionLogStep, mem_mapKeys_iff]
    | update id u => exact updateObject_mapKeys om id u
    | delete id => rfl

theorem foldl_run_new (P : ObjectManager → List Int → Prop)
    (h0 : P ObjectManager.new [])
    (hstep : ∀ om log a, P om log → P (StoreAction.run om a) (insertionLogStep log a))
    (actions : List StoreAction) :
    P (actions.foldl StoreAction.run ObjectManager.new) (insertionLog actions) := by
  unfold insertionLog
  generalize ObjectManager.new = om at h0 ⊢
  generalize ([] : List Int) = log at h0 ⊢
  induction actions generalizing om log with
  | nil => exact h0
  | cons a actions ih => exact ih _ _ (hstep om log a h0)

theorem insertionLogStep_nodup (log : List Int) (a : StoreAction) (h : log.Nodup) :
    (insertionLogStep log a).Nodup := by
  cases a with
  | clear => exact List.nodup_nil
  | call c =>
    cases c with
    | add o =>
      show (if o.id ∈ log then log else log ++ [o.id]).Nodup
      by_cases hm : o.id ∈ log
      · rw [if_pos hm]
        exact h
      · rw [if_neg hm]
        exact List.Nodup.append h (List.nodup_singleton _) (by simpa using hm)
    | update id u => exact h
    | delete id => exact h

/-- What the reachable stores have in common. -/
theorem reachable_store (actions : List StoreAction) :
    LayerOrderCurrent (actions.foldl StoreAction.run ObjectManager.new) ∧
      mapKeys (actions.foldl StoreAction.run ObjectManager.new).objects = insertionLog actions ∧
      (insertionLog actions).Nodup :=
  foldl_run_new (fun om log => LayerOrderCurrent om ∧ mapKeys om.objects = log ∧ log.Nodup)
    ⟨rfl, rfl, List.nodup_nil⟩
    (fun om log a h => ⟨layerOrderCurrent_run om a h.1, by rw [mapKeys_run, h.2.1],
      insertionLogStep_nodup log a h.2.2⟩)
    actions

/-! ## Layer order of the reachable stores -/

theorem layerOrder_perm (om : ObjectManager) (h : LayerOrderCurrent om) :
    List.Perm om.layerOrder
      ((mapKeys om.objects).filter (fun id => !setHas om.deletedObjects id)) := by
  rw [h]
  exact List.perm_insertionSort _ _

theorem mem_layerOrder_iff (om : ObjectManager) (h : LayerOrderCurrent om) (id : Int) :
    id ∈ om.layerOrder ↔ mapHas om.objects id = true ∧ setHas om.deletedObjects id = false := by
  rw [(layerOrder_perm om h).mem_iff, List.mem_filter, mem_mapKeys_iff]
  simp

theorem layerOrder_nodup (om : ObjectManager) (h : LayerOrderCurrent om)
    (hk : (mapKeys om.objects).Nodup) : om.layerOrder.Nodup :=
  (layerOrder_perm om h).nodup_iff.2 (hk.filter _)

theorem layerOrder_sorted (om : ObjectManager) (h : LayerOrderCurrent om) :
    List.Sorted (fun a b => om.layerKey a ≤ om.layerKey b) om.layerOrder := by
  haveI : IsTotal Int (fun a b => om.layerKey a ≤ om.layerKey b) :=
    ⟨fun a b => le_total _ _⟩
  haveI : IsTrans Int (fun a b => om.layerKey a ≤ om.layerKey b) :=
    ⟨fun _ _ _ h1 h2 => le_trans h1 h2⟩
  rw [h]
  exact List.sorted_insertionSort _ _

theorem layerOrder_stable (om : ObjectManager) (h : LayerOrderCurrent om) (a b : Int)
    (hs : List.Sublist [a, b] (mapKeys om.objects)) (ha : setHas om.deletedObjects a = false)
    (hb : setHas om.deletedObjects b = false) (hab : om.layerKey a ≤ om.layerKey b) :
    List.Sublist [a, b] om.layerOrder := by
  rw [h]
  have hf : List.Sublist [a, b]
      ((mapKeys om.objects).filter (fun id => !setHas om.deletedObjects id)) := by
    have := hs.filter (fun id => !setHas om.deletedObjects id)
    simpa [ha, hb] using this
  exact @List.pair_sublist_insertionSort Int (fun a b => om.layerKey a ≤ om.layerKey b) _ a b _
    hab hf

theorem visibleIds_eq_layerOrder (om : ObjectManager) (h : LayerOrderCurrent om) :
    om.visibleIds = om.layerOrder := by
  unfold visibleIds
  rw [List.filter_eq_self]
  intro id hid
  rw [((mem_layerOrder_iff om h id).1 hid).2]
  rfl

/-- C17.  After any sequence of `addObject`, `updateObject`, `deleteObject` and `clear` calls
on a fresh object manager, the layer order has no duplicate, and an id is in it exactly when
it is a key of the object map and is not in the tombstone set. -/
theorem layerOrder_exact (actions : List StoreAction) :
    (actions.foldl StoreAction.run ObjectManager.new).layerOrder.Nodup ∧
      ∀ id, id ∈ (actions.foldl StoreAction.run ObjectManager.new).layerOrder ↔
        mapHas (actions.foldl StoreAction.run ObjectManager.new).objects id = true ∧
          setHas (actions.foldl StoreAction.run ObjectManager.new).deletedObjects id = false := by
  obtain ⟨h1, h2, h3⟩ := reachable_store actions
  exact ⟨layerOrder_nodup _ h1 (h2 ▸ h3), mem_layerOrder_iff _ h1⟩

theorem getObject_layer (om : ObjectManager) (id : Int) (o : DrawObj)
    (h : om.getObject id = some o) : om.layerKey id = o.layer := by
  unfold layerKey
  rw [((getObject_eq_some om id o).1 h).2]

/-- C16 (amended).  After any sequence of `addObject`, `updateObject`, `deleteObject` and
`clear` calls on a fresh object manager, every entry of `getObjectsInLayerOrder` is an
object, the entries are in non-decreasing order of `layer`, and two retrievable objects of
equal layer appear in the order in which their ids were first inserted since the last
`clear`. -/
theorem getObjectsInLayerOrder_sorted (actions : List StoreAction) :
    (∀ entry ∈ (actions.foldl StoreAction.run ObjectManager.new).getObjectsInLayerOrder,
      ∃ o, entry = some o) ∧
    List.Pairwise (fun a b => ∃ oa ob, a = some oa ∧ b = some ob ∧ oa.layer ≤ ob.layer)
      (actions.foldl StoreAction.run ObjectManager.new).getObjectsInLayerOrder ∧
    ∀ a b oa ob, List.Sublist [a, b] (insertionLog actions) →
      (actions.foldl StoreAction.run ObjectManager.new).getObject a = some oa →
      (actions.foldl StoreAction.run ObjectManager.new).getObject b = some ob →
      oa.layer = ob.layer →
      List.Sublist [some oa, some ob]
        (actions.foldl StoreAction.run ObjectManager.new).getObjectsInLayerOrder := by
  obtain ⟨h1, h2, _⟩ := reachable_store actions
  generalize actions.foldl StoreAction.run ObjectManager.new = om at h1 h2 ⊢
  have hget : ∀ id ∈ om.layerOrder, ∃ o, mapGet om.objects id = some o ∧
      om.layerKey id = o.layer := by
    intro id hid
    have hm := ((mem_layerOrder_iff om h1 id).1 hid).1
    obtain ⟨o, ho⟩ := Option.isSome_iff_exists.1 hm
    exact ⟨o, ho, by unfold layerKey; rw [ho]⟩
  unfold getObjectsInLayerOrder
  rw [visibleIds_eq_layerOrder om h1]
  refine ⟨?_, ?_, ?_⟩
  · intro entry hentry
    obtain ⟨id, hid, rfl⟩ := List.mem_map.1 hentry
    obtain ⟨o, ho, _⟩ := hget id hid
    exact ⟨o, ho⟩
  · rw [List.pairwise_map]
    refine (layerOrder_sorted om h1).imp_of_mem ?_
    intro a b ha hb hab
    obtain ⟨oa, hoa, hla⟩ := hget a ha
    obtain ⟨ob, hob, hlb⟩ := hget b hb
    exact ⟨oa, ob, hoa, hob, by rw [← hla, ← hlb]; exact hab⟩
  · intro a b oa ob hs hoa hob hl
    have ha := (getObject_eq_some om a oa).1 hoa
    have hb := (getObject_eq_some om b ob).1 hob
    have hsub := layerOrder_stable om h1 a b (h2 ▸ hs) ha.1 hb.1
      (by rw [getObject_layer om a oa hoa, getObject_layer om b ob hob, hl])
    have := hsub.map (fun id => mapGet om.objects id)
    simpa [ha.2, hb.2] using this

/-- Both rectangles are added, `1` before `2`. -/
theorem getObjectsInLayerOrder_sorted_witness :
    List.Sublist [some shapeA, some shapeB]
      ([StoreAction.call (StoreCall.add shapeA), StoreAction.call (StoreCall.add shapeB)].foldl
        StoreAction.run ObjectManager.new).getObjectsInLayerOrder :=
  (getObjectsInLayerOrder_sorted
    [StoreAction.call (StoreCall.add shapeA), StoreAction.call (StoreCall.add shapeB)]).2.2
    1 2 shapeA shapeB (by decide) (by decide) (by decide) rfl

/-- C16 as stated fails across a `clear`: id `1` was first inserted before id `2`, both
rectangles are retrievable and on layer `0`, yet `getObjectsInLayerOrder` lists the rectangle
`2` before the rectangle `1`. -/
theorem getObjectsInLayerOrder_clear_counterexample :
    List.Sublist [1, 2] (firstInsertions reinsertActions) ∧
      (reinsertActions.foldl StoreAction.run ObjectManager.new).getObject 1 = some shapeA ∧
      (reinsertActions.foldl StoreAction.run ObjectManager.new).getObject 2 = some shapeB ∧
      shapeA.layer = shapeB.layer ∧
      (reinsertActions.foldl StoreAction.run ObjectManager.new).getObjectsInLayerOrder =
        [some shapeB, some shapeA] ∧
      ¬ List.Sublist [some shapeA, some shapeB]
        (reinsertActions.foldl StoreAction.run ObjectManager.new).getObjectsInLayerOrder := by
  decide

/-! ## Loops over the selected ids -/

theorem foldl_preserves {σ ε : Type} (P : σ → Prop) (f : σ → ε → σ)
    (hf : ∀ s e, P s → P (f s e)) (l : List ε) (s : σ) (h : P s) : P (l.foldl f s) := by
  induction l generalizing s with
  | nil => exact h
  | cons e l ih => exact ih _ (hf s e h)

theorem foldl_view_fixed {σ V : Type} (step : σ → Int → σ) (view : σ → V) (k : Int) (v1 : V)
    (hself : ∀ s, view s = v1 → view (step s k) = v1)
    (hframe : ∀ s id, id ≠ k → view (step s id) = view s) (ids : List Int) (s : σ)
    (h : view s = v1) : view (ids.foldl step s) = v1 := by
  induction ids generalizing s with
  | nil => exact h
  | cons id ids ih =>
    apply ih
    by_cases hid : id = k
    · rw [hid]
      exact hself s h
    · rw [hframe s id hid]
      exact h

theorem foldl_view {σ V : Type} (step : σ → Int → σ) (view : σ → V) (k : Int) (v0 v1 : V)
    (hself0 : ∀ s, view s = v0 → view (step s k) = v1)
    (hself1 : ∀ s, view s = v1 → view (step s k) = v1)
    (hframe : ∀ s id, id ≠ k → view (step s id) = view s) (ids : List Int) (s : σ)
    (h : view s = v0) : view (ids.foldl step s) = if k ∈ ids then v1 else v0 := by
  induction ids generalizing s with
  | nil => simpa using h
  | cons id ids ih =>
    by_cases hid : id = k
    · subst hid
      rw [List.foldl_cons, if_pos (List.mem_cons_self _ _)]
      exact foldl_view_fixed step view id v1 hself1 hframe ids _ (hself0 s h)
    · rw [List.foldl_cons, ih _ ((hframe s id hid).trans h)]
      have : k ∈ id :: ids ↔ k ∈ ids := by
        constructor
        · intro hm
          rcases List.mem_cons.1 hm with rfl | hm
          · exact absurd rfl hid
          · exact hm
        · exact List.mem_cons_of_mem _
      simp only [this]

theorem updateObject_of_getObject (om : ObjectManager) (id : Int) (u : Updates) (obj : DrawObj)
    (hg : om.getObject id = some obj) (hl : u.layer = none) :
    om.updateObject id u = { om with objects := mapSet om.objects id (obj.assign u) } := by
  obtain ⟨hd, hm⟩ := (getObject_eq_some om id obj).1 hg
  unfold updateObject
  rw [hm]
  simp [hd, hl]

theorem updateObject_of_tombstone (om : ObjectManager) (id : Int) (u : Updates)
    (hd : setHas om.deletedObjects id = true) : om.updateObject id u = om := by
  unfold updateObject
  cases mapGet om.objects id with
  | none => rfl
  | some obj => simp [hd]

theorem updateObject_objects_of_ne (om : ObjectManager) (id k : Int) (u : Updates)
    (h : k ≠ id) : mapGet (om.updateObject id u).objects k = mapGet om.objects k := by
  unfold updateObject
  cases hg : mapGet om.objects id with
  | none => rfl
  | some obj =>
    simp only
    split_ifs <;> simp [mapGet_mapSet_of_ne _ _ _ _ h]

theorem snapshotPoints_of_ne (points : JsMap Points) (id k : Int) (obj : DrawObj) (g : Bool)
    (h : k ≠ id) : mapGet (snapshotPoints points id obj g) k = mapGet points k := by
  unfold snapshotPoints
  cases obj.points with
  | none => rfl
  | some pts =>
    simp only
    split_ifs
    · exact mapGet_mapSet_of_ne _ _ _ _ h
    · rfl

theorem startStep_frame (app : App) (id : Int) :
    transformFrame (startStep app id) = transformFrame app := by
  unfold startStep
  split
  · rfl
  · split
    · rfl
    · split
      · split_ifs <;> rfl
      · rfl

theorem startStep_view_of_ne (app : App) (id k : Int) (h : id ≠ k) :
    transformView k (startStep app id) = transformView k app := by
  have h' : k ≠ id := fun e => h e.symm
  unfold startStep transformView
  split
  · rfl
  · split
    · simp only [mapGet_mapSet_of_ne _ _ _ _ h', snapshotPoints_of_ne _ _ _ _ _ h']
    · split
      · split_ifs
        · simp only [mapGet_mapSet_of_ne _ _ _ _ h']
        · rfl
      · rfl

theorem moveStep_frame (dx dy : ℚ) (app : App) (id : Int) :
    transformFrame (moveStep dx dy app id) = transformFrame app := by
  unfold moveStep transformFrame
  split
  · rfl
  · split
    · simp only [updateObject_deletedObjects]
    · split
      · simp only [updateObject_deletedObjects]
      · split
        · split_ifs
          · simp only [updateObject_deletedObjects]
          · rfl
        · rfl

theorem moveStep_view_of_ne (dx dy : ℚ) (app : App) (id k : Int) (h : id ≠ k) :
    transformView k (moveStep dx dy app id) = transformView k app := by
  have h' : k ≠ id := fun e => h e.symm
  unfold moveStep transformView
  split
  · rfl
  · split
    · simp only [updateObject_objects_of_ne _ _ _ _ h', updateObject_deletedObjects]
    · split
      · simp only [updateObject_objects_of_ne _ _ _ _ h', mapGet_mapSet_of_ne _ _ _ _ h',
          snapshotPoints_of_ne _ _ _ _ _ h', updateObject_deletedObjects]
      · split
        · split_ifs
          · simp only [updateObject_objects_of_ne _ _ _ _ h', mapGet_mapSet_of_ne _ _ _ _ h',
              snapshotPoints_of_ne _ _ _ _ _ h', updateObject_deletedObjects]
          · rfl
        · rfl

theorem resizeStep_selectionSystem (ob : Bounds) (sx sy ox oy : ℚ) (app : App) (id : Int) :
    (resizeStep ob sx sy ox oy app id).selectionSystem = app.selectionSystem := by
  unfold resizeStep
  split
  · rfl
  · split <;> rfl

theorem resizeStep_deletedObjects (ob : Bounds) (sx sy ox oy : ℚ) (app : App) (id : Int) :
    (resizeStep ob sx sy ox oy app id).objectManager.deletedObjects =
      app.objectManager.deletedObjects := by
  unfold resizeStep
  split
  · rfl
  · split
    · rfl
    · simp only [updateObject_deletedObjects]

theorem resizeStep_frame (ob : Bounds) (sx sy ox oy : ℚ) (app : App) (id : Int) :
    transformFrame (resizeStep ob sx sy ox oy app id) = transformFrame app := by
  unfold transformFrame
  rw [resizeStep_selectionSystem, resizeStep_deletedObjects]

theorem resizeStep_view_of_ne (ob : Bounds) (sx sy ox oy : ℚ) (app : App) (id k : Int)
    (h : id ≠ k) :
    transformView k (resizeStep ob sx sy ox oy app id) = transformView k app := by
  have h' : k ≠ id := fun e => h e.symm
  unfold transformView
  rw [resizeStep_selectionSystem, resizeStep_deletedObjects]
  unfold resizeStep
  split
  · rfl
  · split
    · rfl
    · simp only [updateObject_objects_of_ne _ _ _ _ h']

/-! ## Move transform -/

theorem getObject_of_view (k : Int) (app : App) (m : Option DrawObj) (ob : Option Bounds)
    (op : Option Points) (h : transformView k app = (false, m, ob, op)) :
    app.objectManager.getObject k = m := by
  unfold transformView at h
  simp only [Prod.mk.injEq] at h
  unfold getObject
  rw [h.1, h.2.1]
  rfl

theorem getObject_of_view_tombstoned (k : Int) (app : App) (m : Option DrawObj)
    (ob : Option Bounds) (op : Option Points) (h : transformView k app = (true, m, ob, op)) :
    app.objectManager.getObject k = none := by
  unfold transformView at h
  simp only [Prod.mk.injEq] at h
  unfold getObject
  rw [h.1]
  rfl

theorem startStep_of_none (app : App) (k : Int) (h : app.objectManager.getObject k = none) :
    startStep app k = app := by
  unfold startStep
  rw [h]

theorem moveStep_of_none (dx dy : ℚ) (app : App) (k : Int)
    (h : app.objectManager.getObject k = none) : moveStep dx dy app k = app := by
  unfold moveStep
  rw [h]

theorem resizeStep_of_none (ob : Bounds) (sx sy ox oy : ℚ) (app : App) (k : Int)
    (h : app.objectManager.getObject k = none) : resizeStep ob sx sy ox oy app k = app := by
  unfold resizeStep
  rw [h]
  split <;> rfl

theorem startStep_view_self (app : App) (k : Int) (obj : DrawObj) (b : Bounds)
    (ob : Option Bounds) (op : Option Points) (hop : op = none ∨ op = strokePoints obj)
    (h : transformView k app = (false, some obj, ob, op)) (hb : obj.bounds = some b) :
    transformView k (startStep app k) = (false, some obj, some b, strokePoints obj) := by
  have hg := getObject_of_view k app _ _ _ h
  unfold transformView at h
  simp only [Prod.mk.injEq] at h
  obtain ⟨h1, h2, h3, h4⟩ := h
  unfold startStep
  rw [hg]
  simp only [hb]
  unfold transformView
  simp only [h1, h2, mapGet_mapSet_self, Prod.mk.injEq, true_and]
  unfold snapshotPoints strokePoints
  cases hp : obj.points with
  | none =>
    simp only [h4]
    rcases hop with hop | hop
    · rw [hop]
      simp
    · rw [hop]
      simp [strokePoints, hp]
  | some pts =>
    by_cases ht : obj.type = some ObjType.stroke
    · simp [ht, mapGet_mapSet_self]
    · simp only [ht, false_and, if_false, h4]
      rcases hop with hop | hop
      · exact hop
      · rw [hop]
        simp [strokePoints, ht]

theorem movedObj_eq (obj : DrawObj) (b : Bounds) (op : Option Points) (dx dy : ℚ) :
    movedObj obj b op dx dy =
      { obj with
        bounds := some { x := b.x + dx, y := b.y + dy, width := b.width, height := b.height }
        points :=
          match (if obj.type = some ObjType.stroke then
              op.map (fun pts => pts.map (fun p => (p.1 + dx, p.2 + dy)))
            else none) with
          | some p => some p
          | none => obj.points } := rfl

theorem movedObj_movedObj (obj : DrawObj) (b : Bounds) (op : Option Points)
    (dx dy dx' dy' : ℚ) :
    movedObj (movedObj obj b op dx dy) b op dx' dy' = movedObj obj b op dx' dy' := by
  rw [movedObj_eq, movedObj_eq, movedObj_eq]
  by_cases ht : obj.type = some ObjType.stroke
  · cases op with
    | none => simp [ht]
    | some pts => simp [ht]
  · simp [ht]

theorem moveStep_view_self (dx dy : ℚ) (app : App) (k : Int) (obj : DrawObj) (b : Bounds)
    (op : Option Points) (h : transformView k app = (false, some obj, some b, op)) :
    transformView k (moveStep dx dy app k) = (false, some (movedObj obj b op dx dy), some b, op) := by
  have hg := getObject_of_view k app _ _ _ h
  unfold transformView at h
  simp only [Prod.mk.injEq] at h
  obtain ⟨h1, h2, h3, h4⟩ := h
  unfold moveStep
  rw [hg]
  simp only [h3]
  unfold transformView
  simp only [h4, updateObject_of_getObject _ _ (moveUpdates obj b op dx dy) obj hg rfl, h1, h3,
    mapGet_mapSet_self]
  rfl

theorem _updateSelectionBounds_eq (om : ObjectManager) (sel : SelectionSystem) :
    ∃ sb, _updateSelectionBounds om sel = { sel with selectionBounds := sb } := by
  unfold _updateSelectionBounds
  split_ifs
  · exact ⟨none, rfl⟩
  · split
    · exact ⟨_, rfl⟩
    · exact ⟨sel.selectionBounds, rfl⟩

theorem transformView_updateSelectionBounds (k : Int) (app : App) :
    transformView k
        { app with
          selectionSystem := _updateSelectionBounds app.objectManager app.selectionSystem } =
      transformView k app := by
  obtain ⟨sb, h⟩ := _updateSelectionBounds_eq app.objectManager app.selectionSystem
  rw [h]
  rfl

theorem transformFrame_updateSelectionBounds (app : App) :
    transformFrame
        { app with
          selectionSystem := _updateSelectionBounds app.objectManager app.selectionSystem } =
      transformFrame app := by
  obtain ⟨sb, h⟩ := _updateSelectionBounds_eq app.objectManager app.selectionSystem
  rw [h]
  rfl

theorem startTransform_frame (app : App) (mode : TransformMode) (p0 : Point) :
    transformFrame (startTransform app mode p0) =
      (app.objectManager.deletedObjects, app.selectionSystem.selectedIds, some mode, some p0,
        app.selectionSystem.selectionBounds) := by
  unfold startTransform
  exact foldl_preserves
    (fun s => transformFrame s =
      (app.objectManager.deletedObjects, app.selectionSystem.selectedIds, some mode, some p0,
        app.selectionSystem.selectionBounds))
    startStep (fun s id h => (startStep_frame s id).trans h) _ _ rfl

theorem startTransform_view (app : App) (mode : TransformMode) (p0 : Point) (k : Int)
    (obj : DrawObj) (b : Bounds) (hsel : k ∈ app.selectionSystem.selectedIds)
    (hobj : app.objectManager.getObject k = some obj) (hb : obj.bounds = some b) :
    transformView k (startTransform app mode p0) =
      (false, some obj, some b, strokePoints obj) := by
  obtain ⟨hd, hm⟩ := (getObject_eq_some _ _ _).1 hobj
  unfold startTransform
  rw [foldl_view startStep (transformView k) k (false, some obj, none, none)
    (false, some obj, some b, strokePoints obj)
    (fun s h => startStep_view_self s k obj b none none (Or.inl rfl) h hb)
    (fun s h => startStep_view_self s k obj b (some b) (strokePoints obj) (Or.inr rfl) h hb)
    (fun s id hid => startStep_view_of_ne s id k hid) _ _
    (by simp [transformView, hd, hm, mapGet]), if_pos hsel]

theorem startTransform_view_tombstoned (app : App) (mode : TransformMode) (p0 : Point) (k : Int)
    (hd : setHas app.objectManager.deletedObjects k = true) :
    transformView k (startTransform app mode p0) =
      (true, mapGet app.objectManager.objects k, none, none) := by
  unfold startTransform
  exact foldl_view_fixed startStep (transformView k) k _
    (fun s h => by rw [startStep_of_none s k (getObject_of_view_tombstoned k s _ _ _ h)]; exact h)
    (fun s id hid => startStep_view_of_ne s id k hid) _ _
    (by simp [transformView, hd, mapGet])

theorem updateTransform_move (app : App) (p0 p : Point)
    (hm : app.selectionSystem.transformMode = some TransformMode.move)
    (hd : app.selectionSystem.dragStart = some p0) :
    updateTransform app p =
      some
        { app.selectionSystem.selectedIds.foldl (moveStep (p.x - p0.x) (p.y - p0.y)) app with
          selectionSystem :=
            _updateSelectionBounds
              (app.selectionSystem.selectedIds.foldl (moveStep (p.x - p0.x) (p.y - p0.y))
                app).objectManager
              (app.selectionSystem.selectedIds.foldl (moveStep (p.x - p0.x) (p.y - p0.y))
                app).selectionSystem } := by
  unfold updateTransform
  rw [hm, hd]
  rfl

theorem moveLoop_frame (dx dy : ℚ) (ids : List Int) (app : App) :
    transformFrame (ids.foldl (moveStep dx dy) app) = transformFrame app :=
  foldl_preserves (fun s => transformFrame s = transformFrame app) (moveStep dx dy)
    (fun s id h => (moveStep_frame dx dy s id).trans h) _ _ rfl

theorem moveLoop_view (dx dy : ℚ) (ids : List Int) (app : App) (k : Int) (obj : DrawObj)
    (b : Bounds) (op : Option Points) (hk : k ∈ ids)
    (h : transformView k app = (false, some obj, some b, op)) :
    transformView k (ids.foldl (moveStep dx dy) app) =
      (false, some (movedObj obj b op dx dy), some b, op) := by
  rw [foldl_view (moveStep dx dy) (transformView k) k (false, some obj, some b, op)
    (false, some (movedObj obj b op dx dy), some b, op)
    (fun s hs => moveStep_view_self dx dy s k obj b op hs)
    (fun s hs => by
      rw [moveStep_view_self dx dy s k _ b op hs, movedObj_movedObj])
    (fun s id hid => moveStep_view_of_ne dx dy s id k hid) _ _ h, if_pos hk]

theorem moveLoop_view_tombstoned (dx dy : ℚ) (ids : List Int) (app : App) (k : Int)
    (m : Option DrawObj) (ob : Option Bounds) (op : Option Points)
    (h : transformView k app = (true, m, ob, op)) :
    transformView k (ids.foldl (moveStep dx dy) app) = (true, m, ob, op) :=
  foldl_view_fixed (moveStep dx dy) (transformView k) k _
    (fun s hs => by
      rw [moveStep_of_none dx dy s k (getObject_of_view_tombstoned k s _ _ _ hs)]; exact hs)
    (fun s id hid => moveStep_view_of_ne dx dy s id k hid) _ _ h

theorem updateTransforms_move (p0 : Point) (k : Int) (obj : DrawObj) (b : Bounds)
    (op : Option Points) (drags : List Point) (p1 : Point) (app : App) (o : DrawObj)
    (hm : app.selectionSystem.transformMode = some TransformMode.move)
    (hd : app.selectionSystem.dragStart = some p0) (hk : k ∈ app.selectionSystem.selectedIds)
    (hv : transformView k app = (false, some o, some b, op))
    (hsame : ∀ dx dy, movedObj o b op dx dy = movedObj obj b op dx dy) :
    ∃ app', updateTransforms (drags ++ [p1]) app = some app' ∧
      app'.objectManager.getObject k =
        some (movedObj obj b op (p1.x - p0.x) (p1.y - p0.y)) := by
  induction drags generalizing app o with
  | nil =>
    refine ⟨_, by
      show (updateTransform app p1).bind (updateTransforms []) = _
      rw [updateTransform_move app p0 p1 hm hd]
      rfl, ?_⟩
    apply getObject_of_view k _ _ (some b) op
    rw [transformView_updateSelectionBounds, moveLoop_view _ _ _ _ k o b op hk hv, hsame]
  | cons p drags ih =>
    have hf := (transformFrame_updateSelectionBounds
      (app.selectionSystem.selectedIds.foldl (moveStep (p.x - p0.x) (p.y - p0.y)) app)).trans
      (moveLoop_frame (p.x - p0.x) (p.y - p0.y) app.selectionSystem.selectedIds app)
    simp only [transformFrame, Prod.mk.injEq] at hf
    obtain ⟨app', h1, h2⟩ := ih
      { app.selectionSystem.selectedIds.foldl (moveStep (p.x - p0.x) (p.y - p0.y)) app with
        selectionSystem :=
          _updateSelectionBounds
            (app.selectionSystem.selectedIds.foldl (moveStep (p.x - p0.x) (p.y - p0.y))
              app).objectManager
            (app.selectionSystem.selectedIds.foldl (moveStep (p.x - p0.x) (p.y - p0.y))
              app).selectionSystem }
      (movedObj o b op (p.x - p0.x) (p.y - p0.y))
      (hf.2.2.1.trans hm) (hf.2.2.2.1.trans hd) (by rw [hf.2.1]; exact hk)
      (by rw [transformView_updateSelectionBounds, moveLoop_view _ _ _ _ k o b op hk hv])
      (fun dx dy => by rw [movedObj_movedObj, hsame])
    refine ⟨app', ?_, h2⟩
    show (updateTransform app p).bind (updateTransforms (drags ++ [p1])) = _
    rw [updateTransform_move app p0 p hm hd]
    exact h1

theorem movedObj_strokePoints (obj : DrawObj) (b : Bounds) (dx dy : ℚ) :
    movedObj obj b (strokePoints obj) dx dy =
      { obj with
        bounds := some { x := b.x + dx, y := b.y + dy, width := b.width, height := b.height }
        points :=
          if obj.type = some ObjType.stroke then
            obj.points.map (fun pts => pts.map (fun p => (p.1 + dx, p.2 + dy)))
          else obj.points } := by
  rw [movedObj_eq]
  unfold strokePoints
  by_cases ht : obj.type = some ObjType.stroke
  · cases hp : obj.points with
    | none => simp [ht, hp]
    | some pts => simp [ht, hp]
  · simp [ht]

theorem startTransform_move_result (app : App) (p0 : Point) (drags : List Point) (p1 : Point)
    (id : Int) (obj : DrawObj) (b : Bounds) (hsel : id ∈ app.selectionSystem.selectedIds)
    (hobj : app.objectManager.getObject id = some obj) (hb : obj.bounds = some b) :
    ∃ app',
      updateTransforms (drags ++ [p1]) (startTransform app TransformMode.move p0) = some app' ∧
      app'.objectManager.getObject id =
        some { obj with
          bounds := some
            { x := b.x + (p1.x - p0.x), y := b.y + (p1.y - p0.y), width := b.width,
              height := b.height }
          points :=
            if obj.type = some ObjType.stroke then
              obj.points.map (fun pts =>
                pts.map (fun p => (p.1 + (p1.x - p0.x), p.2 + (p1.y - p0.y))))
            else obj.points } := by
  have hf := startTransform_frame app TransformMode.move p0
  simp only [transformFrame, Prod.mk.injEq] at hf
  obtain ⟨app', h1, h2⟩ := updateTransforms_move p0 id obj b (strokePoints obj) drags p1
    (startTransform app TransformMode.move p0) obj hf.2.2.1 hf.2.2.2.1
    (by rw [hf.2.1]; exact hsel)
    (startTransform_view app TransformMode.move p0 id obj b hsel hobj hb) (fun _ _ => rfl)
  exact ⟨app', h1, by rw [h2, movedObj_strokePoints]⟩

/-- C15.  After `startTransform('move', p0)` and any sequence of `updateTransform` calls
ending with `updateTransform(p1)`, a selected object that `getObject` returns with bounds `b`
has the bounds `b` translated by `p1 - p0` with width and height unchanged; a stroke has every
point of its point sequence translated by `p1 - p0`; every other field is unchanged.  The
intermediate drag points do not occur in the result. -/
theorem move_transform_translates (app : App) (p0 : Point) (drags : List Point) (p1 : Point)
    (id : Int) (obj : DrawObj) (b : Bounds) (hsel : id ∈ app.selectionSystem.selectedIds)
    (hobj : app.objectManager.getObject id = some obj) (hb : obj.bounds = some b) :
    ∃ app',
      updateTransforms (drags ++ [p1]) (startTransform app TransformMode.move p0) = some app' ∧
      app'.objectManager.getObject id =
        some { obj with
          bounds := some
            { x := b.x + (p1.x - p0.x), y := b.y + (p1.y - p0.y), width := b.width,
              height := b.height }
          points :=
            if obj.type = some ObjType.stroke then
              obj.points.map (fun pts =>
                pts.map (fun p => (p.1 + (p1.x - p0.x), p.2 + (p1.y - p0.y))))
            else obj.points } :=
  startTransform_move_result app p0 drags p1 id obj b hsel hobj hb

/-- The selected sample stroke is dragged from `(15, 20)` over `(100, 100)` to `(20, 25)`. -/
theorem move_transform_translates_witness :
    ∃ app',
      updateTransforms ([⟨100, 100⟩] ++ [⟨20, 25⟩])
        (startTransform sampleApp TransformMode.move ⟨15, 20⟩) = some app' ∧
      app'.objectManager.getObject (-1) =
        some { sampleStroke with
          bounds := some { x := 10 + (20 - 15), y := 20 + (25 - 20), width := 30, height := 1 }
          points :=
            if sampleStroke.type = some ObjType.stroke then
              sampleStroke.points.map (fun pts =>
                pts.map (fun p => (p.1 + (20 - 15), p.2 + (25 - 20))))
            else sampleStroke.points } :=
  move_transform_translates sampleApp ⟨15, 20⟩ [⟨100, 100⟩] ⟨20, 25⟩ (-1) sampleStroke
    { x := 10, y := 20, width := 30, height := 1 } (by decide) (by decide) rfl

/-! ## Stroke bounds under monotone maps -/

theorem foldl_extentStep_map (f g : ℚ → ℚ) (hf : Monotone f) (hg : Monotone g) (rest : Points)
    (e : Extent) :
    (rest.map (fun p => (f p.1, g p.2))).foldl extentStep
        { minX := f e.minX, minY := g e.minY, maxX := f e.maxX, maxY := g e.maxY } =
      { minX := f (rest.foldl extentStep e).minX
        minY := g (rest.foldl extentStep e).minY
        maxX := f (rest.foldl extentStep e).maxX
        maxY := g (rest.foldl extentStep e).maxY } := by
  induction rest generalizing e with
  | nil => rfl
  | cons p rest ih =>
    simp only [List.map_cons, List.foldl_cons]
    rw [← ih (extentStep e p)]
    congr 1
    simp only [extentStep, hf.map_min, hf.map_max, hg.map_min, hg.map_max]

theorem calculateStrokeBounds_eq_strokeExtent (pts : Points) (h : pts ≠ []) :
    calculateStrokeBounds pts =
      { x := (strokeExtent pts).minX
        y := (strokeExtent pts).minY
        width := orOne ((strokeExtent pts).maxX - (strokeExtent pts).minX)
        height := orOne ((strokeExtent pts).maxY - (strokeExtent pts).minY) } := by
  cases pts with
  | nil => exact absurd rfl h
  | cons p rest => rfl

theorem calculateStrokeBounds_map (f g : ℚ → ℚ) (hf : Monotone f) (hg : Monotone g)
    (pts : Points) (h : pts ≠ []) :
    calculateStrokeBounds (pts.map (fun p => (f p.1, g p.2))) =
      { x := f (strokeExtent pts).minX
        y := g (strokeExtent pts).minY
        width := orOne (f (strokeExtent pts).maxX - f (strokeExtent pts).minX)
        height := orOne (g (strokeExtent pts).maxY - g (strokeExtent pts).minY) } := by
  cases pts with
  | nil => exact absurd rfl h
  | cons p rest =>
    have := foldl_extentStep_map f g hf hg rest
      { minX := p.1, minY := p.2, maxX := p.1, maxY := p.2 }
    simp only [List.map_cons, calculateStrokeBounds, strokeExtent, this]

theorem calculateStrokeBounds_translate (pts : Points) (h : pts ≠ []) (dx dy : ℚ) :
    calculateStrokeBounds (pts.map (fun p => (p.1 + dx, p.2 + dy))) =
      { x := (calculateStrokeBounds pts).x + dx
        y := (calculateStrokeBounds pts).y + dy
        width := (calculateStrokeBounds pts).width
        height := (calculateStrokeBounds pts).height } := by
  rw [calculateStrokeBounds_map (fun x => x + dx) (fun y => y + dy)
    (fun a b hab => add_le_add_right hab dx) (fun a b hab => add_le_add_right hab dy) pts h,
    calculateStrokeBounds_eq_strokeExtent pts h]
  simp only [add_sub_add_right_eq_sub]

theorem updateTransforms_singleton (p : Point) (app : App) :
    updateTransforms [p] app = updateTransform app p := by
  show (updateTransform app p).bind (updateTransforms []) = _
  cases updateTransform app p <;> rfl

theorem mapGet_of_view (k : Int) (app : App) (d : Bool) (m : Option DrawObj)
    (ob : Option Bounds) (op : Option Points) (h : transformView k app = (d, m, ob, op)) :
    mapGet app.objectManager.objects k = m := by
  unfold transformView at h
  simp only [Prod.mk.injEq] at h
  exact h.2.1

/-- C11 (amended).  For every selected stroke with at least one point whose stored bounds
equal `calculateStrokeBounds(points)` when a move transform starts, after
`startTransform('move', p0)` followed by any `updateTransform(p1)` the stroke's stored bounds
still equal `calculateStrokeBounds` of its stored points. -/
theorem move_keeps_stroke_bounds (app : App) (p0 p1 : Point) (id : Int) (obj : DrawObj)
    (pts : Points) (hsel : id ∈ app.selectionSystem.selectedIds)
    (hstored : mapGet app.objectManager.objects id = some obj)
    (htype : obj.type = some ObjType.stroke) (hpts : obj.points = some pts) (hne : pts ≠ [])
    (hbounds : obj.bounds = some (calculateStrokeBounds pts)) :
    ∃ app' obj' pts',
      updateTransform (startTransform app TransformMode.move p0) p1 = some app' ∧
      mapGet app'.objectManager.objects id = some obj' ∧ obj'.points = some pts' ∧
      obj'.bounds = some (calculateStrokeBounds pts') := by
  have hf := startTransform_frame app TransformMode.move p0
  simp only [transformFrame, Prod.mk.injEq] at hf
  rw [updateTransform_move _ p0 p1 hf.2.2.1 hf.2.2.2.1]
  by_cases hd : setHas app.objectManager.deletedObjects id = true
  · refine ⟨_, obj, pts, rfl, ?_, hpts, hbounds⟩
    apply mapGet_of_view id _ true _ none none
    rw [transformView_updateSelectionBounds]
    exact moveLoop_view_tombstoned _ _ _ _ id _ _ _
      ((startTransform_view_tombstoned app TransformMode.move p0 id hd).trans (by rw [hstored]))
  · have hobj : app.objectManager.getObject id = some obj :=
      (getObject_eq_some _ _ _).2 ⟨by simpa using hd, hstored⟩
    refine ⟨_, movedObj obj (calculateStrokeBounds pts) (strokePoints obj) (p1.x - p0.x)
      (p1.y - p0.y), pts.map (fun p => (p.1 + (p1.x - p0.x), p.2 + (p1.y - p0.y))), rfl, ?_, ?_,
      ?_⟩
    · apply mapGet_of_view id _ false _ (some (calculateStrokeBounds pts)) (strokePoints obj)
      rw [transformView_updateSelectionBounds]
      exact moveLoop_view _ _ _ _ id obj _ _ (by rw [hf.2.1]; exact hsel)
        (startTransform_view app TransformMode.move p0 id obj _ hsel hobj hbounds)
    · rw [movedObj_strokePoints]
      simp [htype, hpts]
    · rw [movedObj_strokePoints, calculateStrokeBounds_translate pts hne]

/-- The selected sample stroke is dragged from `(15, 20)` to `(20, 25)`. -/
theorem move_keeps_stroke_bounds_witness :
    ∃ app' obj' pts',
      updateTransform (startTransform sampleApp TransformMode.move ⟨15, 20⟩) ⟨20, 25⟩ =
        some app' ∧
      mapGet app'.objectManager.objects (-1) = some obj' ∧ obj'.points = some pts' ∧
      obj'.bounds = some (calculateStrokeBounds pts') :=
  move_keeps_stroke_bounds sampleApp ⟨15, 20⟩ ⟨20, 25⟩ (-1) sampleStroke [(10, 20), (40, 20)]
    (by decide) (by decide) rfl rfl (by simp)
    (by norm_num [sampleStroke, calculateStrokeBounds, extentStep, orOne])

/-- C11 as stated fails on a stroke with an empty point sequence: its bounds are the all-zero
box of `calculateStrokeBounds([])`; a move by `(5, 5)` shifts the bounds to `(5, 5, 0, 0)` while
the points stay empty, whose box is still all-zero. -/
theorem move_empty_stroke_counterexample :
    3 ∈ emptyStrokeApp.selectionSystem.selectedIds ∧
    emptyStrokeApp.objectManager.getObject 3 = some emptyStroke ∧
    emptyStroke.bounds = emptyStroke.points.map calculateStrokeBounds ∧
    ∃ app' obj',
      updateTransform (startTransform emptyStrokeApp TransformMode.move ⟨0, 0⟩) ⟨5, 5⟩ =
        some app' ∧
      app'.objectManager.getObject 3 = some obj' ∧
      obj'.points = some [] ∧
      obj'.bounds = some { x := 5, y := 5, width := 0, height := 0 } ∧
      obj'.bounds ≠ obj'.points.map calculateStrokeBounds := by
  refine ⟨by decide, by decide, rfl, ?_⟩
  obtain ⟨app', h1, h2⟩ := startTransform_move_result emptyStrokeApp ⟨0, 0⟩ [] ⟨5, 5⟩ 3
    emptyStroke { x := 0, y := 0, width := 0, height := 0 } (by decide) (by decide) rfl
  rw [List.nil_append, updateTransforms_singleton] at h1
  refine ⟨app', _, h1, h2, rfl, ?_, ?_⟩
  · norm_num
  · norm_num [emptyStroke, calculateStrokeBounds]

/-! ## Resize transform -/

theorem resizedObj_eq (obj : DrawObj) (ob b : Bounds) (op : Option Points) (sx sy ox oy : ℚ) :
    resizedObj obj ob b op sx sy ox oy =
      { obj with
        bounds := some (resizeBounds ob b sx sy ox oy)
        points :=
          match (if obj.type = some ObjType.stroke then
              op.map (fun pts => pts.map (resizePoint b (resizeBounds ob b sx sy ox oy)))
            else none) with
          | some p => some p
          | none => obj.points } := rfl

theorem resizedObj_resizedObj (obj : DrawObj) (ob b : Bounds) (op : Option Points)
    (sx sy ox oy : ℚ) :
    resizedObj (resizedObj obj ob b op sx sy ox oy) ob b op sx sy ox oy =
      resizedObj obj ob b op sx sy ox oy := by
  rw [resizedObj_eq, resizedObj_eq]
  by_cases ht : obj.type = some ObjType.stroke
  · cases op with
    | none => simp [ht]
    | some pts => simp [ht]
  · simp [ht]

theorem resizedObj_strokePoints (obj : DrawObj) (ob b : Bounds) (sx sy ox oy : ℚ) :
    resizedObj obj ob b (strokePoints obj) sx sy ox oy =
      { obj with
        bounds := some (resizeBounds ob b sx sy ox oy)
        points :=
          if obj.type = some ObjType.stroke then
            obj.points.map (fun pts => pts.map (resizePoint b (resizeBounds ob b sx sy ox oy)))
          else obj.points } := by
  rw [resizedObj_eq]
  unfold strokePoints
  by_cases ht : obj.type = some ObjType.stroke
  · cases hp : obj.points with
    | none => simp [ht, hp]
    | some pts => simp [ht, hp]
  · simp [ht]

theorem resizeStep_view_self (ob : Bounds) (sx sy ox oy : ℚ) (app : App) (k : Int)
    (obj : DrawObj) (b : Bounds) (op : Option Points)
    (h : transformView k app = (false, some obj, some b, op)) :
    transformView k (resizeStep ob sx sy ox oy app k) =
      (false, some (resizedObj obj ob b op sx sy ox oy), some b, op) := by
  have hg := getObject_of_view k app _ _ _ h
  unfold transformView at h
  simp only [Prod.mk.injEq] at h
  obtain ⟨h1, h2, h3, h4⟩ := h
  unfold resizeStep
  rw [hg]
  simp only [h3]
  unfold transformView
  simp only [h4, updateObject_of_getObject _ _ (resizeUpdates obj ob b op sx sy ox oy) obj hg rfl,
    h1, h3, mapGet_mapSet_self]
  rfl

theorem resizeLoop_frame (ob : Bounds) (sx sy ox oy : ℚ) (ids : List Int) (app : App) :
    transformFrame (ids.foldl (resizeStep ob sx sy ox oy) app) = transformFrame app :=
  foldl_preserves (fun s => transformFrame s = transformFrame app) (resizeStep ob sx sy ox oy)
    (fun s id h => (resizeStep_frame ob sx sy ox oy s id).trans h) _ _ rfl

theorem resizeLoop_view (ob : Bounds) (sx sy ox oy : ℚ) (ids : List Int) (app : App) (k : Int)
    (obj : DrawObj) (b : Bounds) (op : Option Points) (hk : k ∈ ids)
    (h : transformView k app = (false, some obj, some b, op)) :
    transformView k (ids.foldl (resizeStep ob sx sy ox oy) app) =
      (false, some (resizedObj obj ob b op sx sy ox oy), some b, op) := by
  rw [foldl_view (resizeStep ob sx sy ox oy) (transformView k) k (false, some obj, some b, op)
    (false, some (resizedObj obj ob b op sx sy ox oy), some b, op)
    (fun s hs => resizeStep_view_self ob sx sy ox oy s k obj b op hs)
    (fun s hs => by
      rw [resizeStep_view_self ob sx sy ox oy s k _ b op hs, resizedObj_resizedObj])
    (fun s id hid => resizeStep_view_of_ne ob sx sy ox oy s id k hid) _ _ h, if_pos hk]

theorem resizeLoop_view_tombstoned (ob : Bounds) (sx sy ox oy : ℚ) (ids : List Int) (app : App)
    (k : Int) (m : Option DrawObj) (b : Option Bounds) (op : Option Points)
    (h : transformView k app = (true, m, b, op)) :
    transformView k (ids.foldl (resizeStep ob sx sy ox oy) app) = (true, m, b, op) :=
  foldl_view_fixed (resizeStep ob sx sy ox oy) (transformView k) k _
    (fun s hs => by
      rw [resizeStep_of_none ob sx sy ox oy s k (getObject_of_view_tombstoned k s _ _ _ hs)]
      exact hs)
    (fun s id hid => resizeStep_view_of_ne ob sx sy ox oy s id k hid) _ _ h

theorem jsDivide_of_ne (a b : ℚ) (h : b ≠ 0) : jsDivide a b = JsQuotient.finite (a / b) := by
  unfold jsDivide
  rw [if_neg h]

theorem axisScale_of_ne (far near : Bool) (extent d : ℚ) (h : extent ≠ 0) :
    axisScale far near extent d =
      some (if near then max (1 / 10) ((extent - d) / extent)
        else if far then max (1 / 10) ((extent + d) / extent) else 1) := by
  unfold axisScale
  simp only [jsDivide_of_ne _ _ h, maxTenth]
  cases near <;> cases far <;> rfl

theorem updateTransform_resize (app : App) (h : Handle) (p0 p : Point)
    (hm : app.selectionSystem.transformMode = some (TransformMode.resize h))
    (hd : app.selectionSystem.dragStart = some p0) :
    updateTransform app p =
      (_handleResize app h (p.x - p0.x) (p.y - p0.y)).map (fun app' =>
        { app' with
          selectionSystem :=
            _updateSelectionBounds app'.objectManager app'.selectionSystem }) := by
  unfold updateTransform
  rw [hm, hd]

theorem _handleResize_of_scales (app : App) (h : Handle) (dx dy : ℚ) (ob : Bounds) (sx sy : ℚ)
    (hob : app.selectionSystem.originalBounds = some ob)
    (hx : axisScale (includesE h) (includesW h) ob.width dx = some sx)
    (hy : axisScale (includesS h) (includesN h) ob.height dy = some sy) :
    _handleResize app h dx dy =
      some
        (app.selectionSystem.selectedIds.foldl
          (resizeStep ob sx sy (axisOffset (includesW h) dx) (axisOffset (includesN h) dy))
          app) := by
  unfold _handleResize
  rw [hob]
  simp only [hx, hy]

theorem _handleResize_of_none (app : App) (h : Handle) (dx dy : ℚ)
    (hob : app.selectionSystem.originalBounds = none) : _handleResize app h dx dy = some app := by
  unfold _handleResize
  rw [hob]

theorem getObject_of_transformView (k : Int) (app : App) (d : Bool) (m : Option DrawObj)
    (ob : Option Bounds) (op : Option Points) (h : transformView k app = (d, m, ob, op)) :
    app.objectManager.getObject k = if d = true then none else m := by
  unfold transformView at h
  simp only [Prod.mk.injEq] at h
  unfold getObject
  rw [h.1, h.2.1]

theorem startTransform_view_of_none (app : App) (mode : TransformMode) (p0 : Point) (k : Int)
    (h : app.objectManager.getObject k = none) :
    transformView k (startTransform app mode p0) =
      (setHas app.objectManager.deletedObjects k, mapGet app.objectManager.objects k, none,
        none) := by
  unfold startTransform
  refine foldl_view_fixed startStep (transformView k) k _
    (fun s hs => ?_) (fun s id hid => startStep_view_of_ne s id k hid) _ _
    (by simp [transformView, mapGet])
  rw [startStep_of_none s k]
  · exact hs
  · rw [getObject_of_transformView k s _ _ _ _ hs]
    exact h

theorem resizeLoop_view_of_none (app : App) (h : Handle) (p0 : Point) (ob : Bounds)
    (sx sy dx dy : ℚ) (k : Int) (hn : app.objectManager.getObject k = none) :
    transformView k (resizeLoop app h p0 ob sx sy dx dy) =
      (setHas app.objectManager.deletedObjects k, mapGet app.objectManager.objects k, none,
        none) := by
  unfold resizeLoop
  refine foldl_view_fixed _ (transformView k) k _ (fun s hs => ?_)
    (fun s id hid => resizeStep_view_of_ne _ _ _ _ _ s id k hid) _ _
    (startTransform_view_of_none app _ p0 k hn)
  rw [resizeStep_of_none _ _ _ _ _ s k]
  · exact hs
  · rw [getObject_of_transformView k s _ _ _ _ hs]
    exact hn

theorem resizeLoop_getObject_of_none (app : App) (h : Handle) (p0 : Point) (ob : Bounds)
    (sx sy dx dy : ℚ) (k : Int) (hn : app.objectManager.getObject k = none) :
    (resizeLoop app h p0 ob sx sy dx dy).objectManager.getObject k = none := by
  rw [getObject_of_transformView k _ _ _ _ _
    (resizeLoop_view_of_none app h p0 ob sx sy dx dy k hn)]
  exact hn

theorem resizeLoop_view_of_some (app : App) (h : Handle) (p0 : Point) (ob : Bounds)
    (sx sy dx dy : ℚ) (k : Int) (obj : DrawObj) (b : Bounds)
    (hsel : k ∈ app.selectionSystem.selectedIds)
    (hobj : app.objectManager.getObject k = some obj) (hb : obj.bounds = some b) :
    transformView k (resizeLoop app h p0 ob sx sy dx dy) =
      (false,
        some (resizedObj obj ob b (strokePoints obj) sx sy (axisOffset (includesW h) dx)
          (axisOffset (includesN h) dy)),
        some b, strokePoints obj) := by
  unfold resizeLoop
  exact resizeLoop_view _ _ _ _ _ _ _ k obj b _ hsel
    (startTransform_view app _ p0 k obj b hsel hobj hb)

theorem resizeLoop_selectionSystem_frame (app : App) (h : Handle) (p0 : Point) (ob : Bounds)
    (sx sy dx dy : ℚ) :
    transformFrame (resizeLoop app h p0 ob sx sy dx dy) =
      (app.objectManager.deletedObjects, app.selectionSystem.selectedIds,
        some (TransformMode.resize h), some p0, app.selectionSystem.selectionBounds) := by
  unfold resizeLoop
  rw [resizeLoop_frame, startTransform_frame]

theorem updateTransform_startTransform_resize (app : App) (h : Handle) (p0 p1 : Point)
    (ob : Bounds) (sx sy : ℚ) (hob : app.selectionSystem.selectionBounds = some ob)
    (hx : axisScale (includesE h) (includesW h) ob.width (p1.x - p0.x) = some sx)
    (hy : axisScale (includesS h) (includesN h) ob.height (p1.y - p0.y) = some sy) :
    updateTransform (startTransform app (TransformMode.resize h) p0) p1 =
      some
        { resizeLoop app h p0 ob sx sy (p1.x - p0.x) (p1.y - p0.y) with
          selectionSystem :=
            _updateSelectionBounds
              (resizeLoop app h p0 ob sx sy (p1.x - p0.x) (p1.y - p0.y)).objectManager
              (resizeLoop app h p0 ob sx sy (p1.x - p0.x) (p1.y - p0.y)).selectionSystem } := by
  have hf := startTransform_frame app (TransformMode.resize h) p0
  simp only [transformFrame, Prod.mk.injEq] at hf
  rw [updateTransform_resize _ h p0 p1 hf.2.2.1 hf.2.2.2.1,
    _handleResize_of_scales _ h _ _ ob sx sy (hf.2.2.2.2.trans hob) hx hy, hf.2.1]
  rfl

theorem updateTransform_startTransform_resize_of_none (app : App) (h : Handle)
    (p0 p1 : Point) (hob : app.selectionSystem.selectionBounds = none) :
    updateTransform (startTransform app (TransformMode.resize h) p0) p1 =
      some
        { startTransform app (TransformMode.resize h) p0 with
          selectionSystem :=
            _updateSelectionBounds
              (startTransform app (TransformMode.resize h) p0).objectManager
              (startTransform app (TransformMode.resize h) p0).selectionSystem } := by
  have hf := startTransform_frame app (TransformMode.resize h) p0
  simp only [transformFrame, Prod.mk.injEq] at hf
  rw [updateTransform_resize _ h p0 p1 hf.2.2.1 hf.2.2.2.1,
    _handleResize_of_none _ h _ _ (hf.2.2.2.2.trans hob)]
  rfl

/-! ## Stroke boxes under a resize -/

theorem strokeExtent_spec (pts : Points) (h : pts ≠ []) :
    IsLeast (xCoords pts) (strokeExtent pts).minX ∧
      IsGreatest (xCoords pts) (strokeExtent pts).maxX ∧
      IsLeast (yCoords pts) (strokeExtent pts).minY ∧
      IsGreatest (yCoords pts) (strokeExtent pts).maxY := by
  cases pts with
  | nil => exact absurd rfl h
  | cons p rest =>
    simp only [strokeExtent, foldl_extentStep, xCoords_cons, yCoords_cons]
    exact ⟨foldl_min_isLeast _ p.1, foldl_max_isGreatest _ p.1, foldl_min_isLeast _ p.2,
      foldl_max_isGreatest _ p.2⟩

theorem strokeExtent_spanX (pts : Points) (h : ∃ p ∈ pts, ∃ q ∈ pts, p.1 ≠ q.1) :
    (strokeExtent pts).minX < (strokeExtent pts).maxX := by
  obtain ⟨p, hp, q, hq, hpq⟩ := h
  obtain ⟨hlo, hhi, -, -⟩ := strokeExtent_spec pts (List.ne_nil_of_mem hp)
  have h1 := hlo.2 (show p.1 ∈ xCoords pts from ⟨p, hp, rfl⟩)
  have h2 := hhi.2 (show p.1 ∈ xCoords pts from ⟨p, hp, rfl⟩)
  have h3 := hlo.2 (show q.1 ∈ xCoords pts from ⟨q, hq, rfl⟩)
  have h4 := hhi.2 (show q.1 ∈ xCoords pts from ⟨q, hq, rfl⟩)
  by_contra hcon
  push_neg at hcon
  exact hpq (le_antisymm (by linarith) (by linarith))

theorem strokeExtent_spanY (pts : Points) (h : ∃ p ∈ pts, ∃ q ∈ pts, p.2 ≠ q.2) :
    (strokeExtent pts).minY < (strokeExtent pts).maxY := by
  obtain ⟨p, hp, q, hq, hpq⟩ := h
  obtain ⟨-, -, hlo, hhi⟩ := strokeExtent_spec pts (List.ne_nil_of_mem hp)
  have h1 := hlo.2 (show p.2 ∈ yCoords pts from ⟨p, hp, rfl⟩)
  have h2 := hhi.2 (show p.2 ∈ yCoords pts from ⟨p, hp, rfl⟩)
  have h3 := hlo.2 (show q.2 ∈ yCoords pts from ⟨q, hq, rfl⟩)
  have h4 := hhi.2 (show q.2 ∈ yCoords pts from ⟨q, hq, rfl⟩)
  by_contra hcon
  push_neg at hcon
  exact hpq (le_antisymm (by linarith) (by linarith))

theorem calculateStrokeBounds_resizePoint (pts : Points) (nb : Bounds)
    (hx : ∃ p ∈ pts, ∃ q ∈ pts, p.1 ≠ q.1) (hy : ∃ p ∈ pts, ∃ q ∈ pts, p.2 ≠ q.2)
    (hw : 0 < nb.width) (hh : 0 < nb.height) :
    calculateStrokeBounds (pts.map (resizePoint (calculateStrokeBounds pts) nb)) = nb := by
  have hne : pts ≠ [] := by
    obtain ⟨p, hp, -⟩ := hx
    exact List.ne_nil_of_mem hp
  have hsx := strokeExtent_spanX pts hx
  have hsy := strokeExtent_spanY pts hy
  have hox : orOne ((strokeExtent pts).maxX - (strokeExtent pts).minX) =
      (strokeExtent pts).maxX - (strokeExtent pts).minX := by
    unfold orOne
    rw [if_neg (by linarith)]
  have hoy : orOne ((strokeExtent pts).maxY - (strokeExtent pts).minY) =
      (strokeExtent pts).maxY - (strokeExtent pts).minY := by
    unfold orOne
    rw [if_neg (by linarith)]
  have hfun : resizePoint (calculateStrokeBounds pts) nb =
      fun p =>
        ((fun x => nb.x + (x - (strokeExtent pts).minX) /
            ((strokeExtent pts).maxX - (strokeExtent pts).minX) * nb.width) p.1,
          (fun y => nb.y + (y - (strokeExtent pts).minY) /
            ((strokeExtent pts).maxY - (strokeExtent pts).minY) * nb.height) p.2) := by
    funext p
    unfold resizePoint
    rw [calculateStrokeBounds_eq_strokeExtent pts hne]
    simp only [hox, hoy]
    rw [if_pos (by linarith), if_pos (by linarith)]
  have hf : Monotone (fun x : ℚ => nb.x + (x - (strokeExtent pts).minX) /
      ((strokeExtent pts).maxX - (strokeExtent pts).minX) * nb.width) := by
    intro a b hab
    have : (a - (strokeExtent pts).minX) / ((strokeExtent pts).maxX - (strokeExtent pts).minX)
        ≤ (b - (strokeExtent pts).minX) /
          ((strokeExtent pts).maxX - (strokeExtent pts).minX) :=
      div_le_div_of_nonneg_right (by linarith) (by linarith)
    have := mul_le_mul_of_nonneg_right this (le_of_lt hw)
    show _ + _ ≤ _ + _
    linarith
  have hg : Monotone (fun y : ℚ => nb.y + (y - (strokeExtent pts).minY) /
      ((strokeExtent pts).maxY - (strokeExtent pts).minY) * nb.height) := by
    intro a b hab
    have : (a - (strokeExtent pts).minY) / ((strokeExtent pts).maxY - (strokeExtent pts).minY)
        ≤ (b - (strokeExtent pts).minY) /
          ((strokeExtent pts).maxY - (strokeExtent pts).minY) :=
      div_le_div_of_nonneg_right (by linarith) (by linarith)
    have := mul_le_mul_of_nonneg_right this (le_of_lt hh)
    show _ + _ ≤ _ + _
    linarith
  have key := calculateStrokeBounds_map _ _ hf hg pts hne
  rw [hfun]
  refine key.trans ?_
  have e1 : (strokeExtent pts).maxX - (strokeExtent pts).minX ≠ 0 := by linarith
  have e2 : (strokeExtent pts).maxY - (strokeExtent pts).minY ≠ 0 := by linarith
  have w1 : nb.x + ((strokeExtent pts).maxX - (strokeExtent pts).minX) /
      ((strokeExtent pts).maxX - (strokeExtent pts).minX) * nb.width -
      (nb.x + ((strokeExtent pts).minX - (strokeExtent pts).minX) /
      ((strokeExtent pts).maxX - (strokeExtent pts).minX) * nb.width) = nb.width := by
    field_simp
  have w2 : nb.y + ((strokeExtent pts).maxY - (strokeExtent pts).minY) /
      ((strokeExtent pts).maxY - (strokeExtent pts).minY) * nb.height -
      (nb.y + ((strokeExtent pts).minY - (strokeExtent pts).minY) /
      ((strokeExtent pts).maxY - (strokeExtent pts).minY) * nb.height) = nb.height := by
    field_simp
  simp only [w1, w2]
  unfold orOne
  rw [if_neg (ne_of_gt hw), if_neg (ne_of_gt hh)]
  simp

theorem resizeBounds_pos (ob b : Bounds) (sx sy ox oy : ℚ) :
    0 < (resizeBounds ob b sx sy ox oy).width ∧ 0 < (resizeBounds ob b sx sy ox oy).height := by
  unfold resizeBounds
  constructor
  · exact lt_of_lt_of_le (by norm_num) (le_max_left _ _)
  · exact lt_of_lt_of_le (by norm_num) (le_max_left _ _)

/-! ## Resize of strokes -/

theorem diagonalApp_eq :
    diagonalApp =
      { objectManager := ObjectManager.new.addObject diagonalStroke
        selectionSystem :=
          { SelectionSystem.new with
            selectedIds := [6]
            selectionBounds := some { x := 0, y := 0, width := 10, height := 20 } } } := by
  norm_num [diagonalApp, selectObject, _updateSelectionBounds, boxStep, setAdd, setHas,
    ObjectManager.new, addObject, diagonalStroke, mapSet, mapHas, mapGet, getObject,
    SelectionSystem.new]

theorem verticalApp_eq :
    verticalApp =
      { objectManager := ObjectManager.new.addObject verticalStroke
        selectionSystem :=
          { SelectionSystem.new with
            selectedIds := [8]
            selectionBounds := some { x := 0, y := 0, width := 1, height := 10 } } } := by
  norm_num [verticalApp, selectObject, _updateSelectionBounds, boxStep, setAdd, setHas,
    ObjectManager.new, addObject, verticalStroke, mapSet, mapHas, mapGet, getObject,
    SelectionSystem.new]

theorem verticalLineApp_eq :
    verticalLineApp =
      { objectManager := ObjectManager.new.addObject verticalLine
        selectionSystem :=
          { SelectionSystem.new with
            selectedIds := [4]
            selectionBounds := some { x := 100, y := 100, width := 0, height := 50 } } } := by
  norm_num [verticalLineApp, selectObject, _updateSelectionBounds, boxStep, setAdd, setHas,
    ObjectManager.new, addObject, verticalLine, mapSet, mapHas, mapGet, getObject,
    SelectionSystem.new]

/-- C12 (amended).  For every selected stroke that has two points with different x and two
points with different y and whose stored bounds equal `calculateStrokeBounds(points)` when a
resize transform starts, where the selection box at that moment is absent or has a width and
a height other than zero, after `startTransform('resize-H', p0)` followed by any
`updateTransform(p1)` for any handle `H` the stroke's stored bounds still equal
`calculateStrokeBounds` of its re-projected stored points. -/
theorem resize_keeps_stroke_bounds (app : App) (h : Handle) (p0 p1 : Point) (id : Int)
    (obj : DrawObj) (pts : Points) (hsel : id ∈ app.selectionSystem.selectedIds)
    (hstored : mapGet app.objectManager.objects id = some obj)
    (htype : obj.type = some ObjType.stroke) (hpts : obj.points = some pts)
    (hx : ∃ p ∈ pts, ∃ q ∈ pts, p.1 ≠ q.1) (hy : ∃ p ∈ pts, ∃ q ∈ pts, p.2 ≠ q.2)
    (hbounds : obj.bounds = some (calculateStrokeBounds pts))
    (hbox : ∀ ob, app.selectionSystem.selectionBounds = some ob → ob.width ≠ 0 ∧ ob.height ≠ 0) :
    ∃ app' obj' pts',
      updateTransform (startTransform app (TransformMode.resize h) p0) p1 = some app' ∧
      mapGet app'.objectManager.objects id = some obj' ∧ obj'.points = some pts' ∧
      obj'.bounds = some (calculateStrokeBounds pts') := by
  cases hsb : app.selectionSystem.selectionBounds with
  | none =>
    rw [updateTransform_startTransform_resize_of_none app h p0 p1 hsb]
    refine ⟨_, obj, pts, rfl, ?_, hpts, hbounds⟩
    by_cases hd : setHas app.objectManager.deletedObjects id = true
    · apply mapGet_of_view id _ true _ none none
      rw [transformView_updateSelectionBounds]
      exact (startTransform_view_tombstoned app _ p0 id hd).trans (by rw [hstored])
    · have hobj : app.objectManager.getObject id = some obj :=
        (getObject_eq_some _ _ _).2 ⟨by simpa using hd, hstored⟩
      apply mapGet_of_view id _ false _ (some (calculateStrokeBounds pts)) (strokePoints obj)
      rw [transformView_updateSelectionBounds]
      exact startTransform_view app _ p0 id obj _ hsel hobj hbounds
  | some ob =>
    obtain ⟨hw, hh⟩ := hbox ob hsb
    obtain ⟨sx, hsx⟩ : ∃ sx, axisScale (includesE h) (includesW h) ob.width (p1.x - p0.x) =
        some sx := ⟨_, axisScale_of_ne _ _ _ _ hw⟩
    obtain ⟨sy, hsy⟩ : ∃ sy, axisScale (includesS h) (includesN h) ob.height (p1.y - p0.y) =
        some sy := ⟨_, axisScale_of_ne _ _ _ _ hh⟩
    rw [updateTransform_startTransform_resize app h p0 p1 ob sx sy hsb hsx hsy]
    by_cases hd : setHas app.objectManager.deletedObjects id = true
    · refine ⟨_, obj, pts, rfl, ?_, hpts, hbounds⟩
      apply mapGet_of_view id _ true _ none none
      rw [transformView_updateSelectionBounds]
      refine (resizeLoop_view_of_none app h p0 ob _ _ _ _ id ?_).trans (by rw [hd, hstored])
      unfold getObject
      rw [if_pos hd]
    · have hobj : app.objectManager.getObject id = some obj :=
        (getObject_eq_some _ _ _).2 ⟨by simpa using hd, hstored⟩
      refine ⟨_,
        resizedObj obj ob (calculateStrokeBounds pts) (strokePoints obj) sx sy
          (axisOffset (includesW h) (p1.x - p0.x)) (axisOffset (includesN h) (p1.y - p0.y)),
        pts.map (resizePoint (calculateStrokeBounds pts)
          (resizeBounds ob (calculateStrokeBounds pts) sx sy
            (axisOffset (includesW h) (p1.x - p0.x)) (axisOffset (includesN h) (p1.y - p0.y)))),
        rfl, ?_, ?_, ?_⟩
      · apply mapGet_of_view id _ false _ (some (calculateStrokeBounds pts)) (strokePoints obj)
        rw [transformView_updateSelectionBounds]
        exact resizeLoop_view_of_some app h p0 ob _ _ _ _ id obj _ hsel hobj hbounds
      · rw [resizedObj_strokePoints]
        simp only [htype, hpts, if_true, Option.map_some']
      · rw [resizedObj_strokePoints, calculateStrokeBounds_resizePoint pts _ hx hy
          (resizeBounds_pos _ _ _ _ _ _).1 (resizeBounds_pos _ _ _ _ _ _).2]

/-- The selected diagonal stroke is resized with the `se` handle from `(10, 20)` to
`(20, 40)`. -/
theorem resize_keeps_stroke_bounds_witness :
    ∃ app' obj' pts',
      updateTransform (startTransform diagonalApp (TransformMode.resize Handle.se) ⟨10, 20⟩)
        ⟨20, 40⟩ = some app' ∧
      mapGet app'.objectManager.objects 6 = some obj' ∧ obj'.points = some pts' ∧
      obj'.bounds = some (calculateStrokeBounds pts') :=
  resize_keeps_stroke_bounds diagonalApp Handle.se ⟨10, 20⟩ ⟨20, 40⟩ 6 diagonalStroke
    [(0, 0), (10, 20)] (by rw [diagonalApp_eq]; decide) (by rw [diagonalApp_eq]; decide) rfl rfl
    ⟨(0, 0), by simp, (10, 20), by simp, by norm_num⟩
    ⟨(0, 0), by simp, (10, 20), by simp, by norm_num⟩
    (by norm_num [diagonalStroke, calculateStrokeBounds, extentStep, orOne])
    (by
      intro ob hob
      rw [diagonalApp_eq] at hob
      cases hob
      norm_num)

/-- C12 as stated fails on a stroke with a zero span on the x axis.  The vertical stroke has
the bounds `(0, 0, 1, 10)` of `calculateStrokeBounds`; a resize with the `se` handle and a
drag of zero length stores the width `max(10, 1 * 1) = 10`, while every re-projected point
keeps the x coordinate `0`, so that `calculateStrokeBounds` of the stored points still has
the width `1`. -/
theorem resize_vertical_stroke_counterexample :
    8 ∈ verticalApp.selectionSystem.selectedIds ∧
    verticalApp.objectManager.getObject 8 = some verticalStroke ∧
    verticalStroke.bounds = verticalStroke.points.map calculateStrokeBounds ∧
    ∃ app' obj',
      updateTransform (startTransform verticalApp (TransformMode.resize Handle.se) ⟨1, 10⟩)
        ⟨1, 10⟩ = some app' ∧
      app'.objectManager.getObject 8 = some obj' ∧
      obj'.points = some [(0, 0), (0, 10)] ∧
      obj'.bounds = some { x := 0, y := 0, width := 10, height := 10 } ∧
      obj'.points.map calculateStrokeBounds =
        some { x := 0, y := 0, width := 1, height := 10 } ∧
      obj'.bounds ≠ obj'.points.map calculateStrokeBounds := by
  have hsel : (8 : Int) ∈ verticalApp.selectionSystem.selectedIds := by
    rw [verticalApp_eq]; decide
  have hobj : verticalApp.objectManager.getObject 8 = some verticalStroke := by
    rw [verticalApp_eq]; decide
  have hsb : verticalApp.selectionSystem.selectionBounds =
      some { x := 0, y := 0, width := 1, height := 10 } := by
    rw [verticalApp_eq]
  refine ⟨hsel, hobj, ?_, ?_⟩
  · norm_num [verticalStroke, calculateStrokeBounds, extentStep, orOne]
  · rw [updateTransform_startTransform_resize verticalApp Handle.se ⟨1, 10⟩ ⟨1, 10⟩ _ 1 1 hsb
      (by norm_num [axisScale, includesE, includesW, jsDivide, maxTenth])
      (by norm_num [axisScale, includesS, includesN, jsDivide, maxTenth])]
    have hv := resizeLoop_view_of_some verticalApp Handle.se ⟨1, 10⟩
      { x := 0, y := 0, width := 1, height := 10 } 1 1 (1 - 1) (10 - 10) 8 verticalStroke
      { x := 0, y := 0, width := 1, height := 10 } hsel hobj rfl
    refine ⟨_, resizedObj verticalStroke { x := 0, y := 0, width := 1, height := 10 }
      { x := 0, y := 0, width := 1, height := 10 } (strokePoints verticalStroke) 1 1
      (axisOffset (includesW Handle.se) (1 - 1)) (axisOffset (includesN Handle.se) (10 - 10)),
      rfl, ?_, ?_, ?_, ?_, ?_⟩
    · exact (getObject_of_view 8 _ _ _ _
        ((transformView_updateSelectionBounds 8 _).trans hv))
    · norm_num [resizedObj_strokePoints, verticalStroke, resizeBounds, resizePoint, axisOffset,
        includesW, includesN]
    · norm_num [resizedObj_strokePoints, verticalStroke, resizeBounds, resizePoint, axisOffset,
        includesW, includesN]
    · norm_num [resizedObj_strokePoints, verticalStroke, resizeBounds, resizePoint, axisOffset,
        includesW, includesN, calculateStrokeBounds, extentStep, orOne]
    · norm_num [resizedObj_strokePoints, verticalStroke, resizeBounds, resizePoint, axisOffset,
        includesW, includesN, calculateStrokeBounds, extentStep, orOne]

/-- C14 fails where the scale factor is computed: only the fractional offsets are guarded.
The vertical line of width `0` is the whole selection, so the snapshot of the selection box has
width `0`.  A resize with the `e` handle dragged by `5` to the right evaluates
`(0 + 5) / 0`, which is `Infinity`; the scale factor `Math.max(0.1, Infinity)` is not finite
and the bounds that `updateObject` assigns to the line are computed from it. -/
theorem resize_zero_width_not_finite :
    verticalLineApp.selectionSystem.selectedIds = [4] ∧
    verticalLineApp.objectManager.getObject 4 = some verticalLine ∧
    (startTransform verticalLineApp (TransformMode.resize Handle.e)
        ⟨100, 125⟩).selectionSystem.originalBounds =
      some { x := 100, y := 100, width := 0, height := 50 } ∧
    jsDivide (0 + (105 - 100)) 0 = JsQuotient.posInfinity ∧
    axisScale (includesE Handle.e) (includesW Handle.e) 0 (105 - 100) = none ∧
    updateTransform (startTransform verticalLineApp (TransformMode.resize Handle.e) ⟨100, 125⟩)
      ⟨105, 125⟩ = none := by
  have hf := startTransform_frame verticalLineApp (TransformMode.resize Handle.e) ⟨100, 125⟩
  simp only [transformFrame, Prod.mk.injEq] at hf
  have hsel : verticalLineApp.selectionSystem.selectedIds = [4] := by
    rw [verticalLineApp_eq]
  have hobj : verticalLineApp.objectManager.getObject 4 = some verticalLine := by
    rw [verticalLineApp_eq]; decide
  have hsb : verticalLineApp.selectionSystem.selectionBounds =
      some { x := 100, y := 100, width := 0, height := 50 } := by
    rw [verticalLineApp_eq]
  have hscale : axisScale (includesE Handle.e) (includesW Handle.e) 0 (105 - 100) = none := by
    norm_num [axisScale, includesE, includesW, jsDivide, maxTenth]
  refine ⟨hsel, hobj, hf.2.2.2.2.trans hsb, by norm_num [jsDivide], hscale, ?_⟩
  have hv := startTransform_view verticalLineApp (TransformMode.resize Handle.e) ⟨100, 125⟩ 4
    verticalLine _ (by rw [hsel]; decide) hobj rfl
  have hg := getObject_of_view 4 _ _ _ _ hv
  unfold transformView at hv
  simp only [Prod.mk.injEq] at hv
  rw [updateTransform_resize _ Handle.e ⟨100, 125⟩ ⟨105, 125⟩ hf.2.2.1 hf.2.2.2.1]
  unfold _handleResize
  rw [hf.2.2.2.2, hsb]
  simp only [hscale, hf.2.1, hsel, List.any_cons, hv.2.2.1, hg, Option.isSome_some,
    Bool.and_self, Bool.true_or, if_true, Option.map_none']

/-! ## Selection -/

theorem mem_getSelectedObjects (app : App) (o : DrawObj) :
    o ∈ getSelectedObjects app ↔
      ∃ id ∈ app.selectionSystem.selectedIds,
        setHas app.objectManager.deletedObjects id = false ∧
        mapGet app.objectManager.objects id = some o := by
  unfold getSelectedObjects
  rw [List.mem_filterMap]
  constructor
  · rintro ⟨id, hid, ho⟩
    exact ⟨id, hid, (getObject_eq_some _ _ _).1 ho⟩
  · rintro ⟨id, hid, ho⟩
    exact ⟨id, hid, (getObject_eq_some _ _ _).2 ho⟩

/-- C18 (amended).  In every state, hence after any sequence of operations of the selection
system and of the object manager, the objects that `getSelectedObjects` returns are exactly
the objects stored under an id of the selection set that is not tombstoned.  The selection
set itself is not restricted. -/
theorem getSelectedObjects_stored (app : App) (o : DrawObj) :
    o ∈ getSelectedObjects app ↔
      ∃ id ∈ app.selectionSystem.selectedIds,
        setHas app.objectManager.deletedObjects id = false ∧
        mapGet app.objectManager.objects id = some o :=
  mem_getSelectedObjects app o

/-- C18 as stated fails after `addObject`, `selectObject(1)`, `deleteObject(1)`: the id `1`
stays in the selection set although it is tombstoned and `getObject(1)` is `null`. -/
theorem selection_keeps_deleted_counterexample :
    ((selectObject shapeApp 1 false).selectionSystem.selectedIds = [1]) ∧
    ((selectObject shapeApp 1 false).objectManager.deleteObject 1).getObject 1 = none ∧
    setHas ((selectObject shapeApp 1 false).objectManager.deleteObject 1).deletedObjects 1 =
      true ∧
    getSelectedObjects
      { selectObject shapeApp 1 false with
        objectManager := (selectObject shapeApp 1 false).objectManager.deleteObject 1 } = [] := by
  decide

/-- C19 fails when the new selection holds no retrievable object with bounds: the test
`minX !== Infinity` has no `else` branch.  After `selectObject(1)` the selection box is the
box of the rectangle; `selectObject(99)` replaces the selection by an id that the store does
not hold and leaves that box in place. -/
theorem selectObject_stale_bounds :
    (selectObject shapeApp 1 false).selectionSystem.selectionBounds =
      some { x := 0, y := 0, width := 10, height := 10 } ∧
    (selectObject (selectObject shapeApp 1 false) 99 false).selectionSystem.selectedIds =
      [99] ∧
    (selectObject (selectObject shapeApp 1 false) 99 false).objectManager.getObject 99 =
      none ∧
    (selectObject (selectObject shapeApp 1 false) 99 false).selectionSystem.selectionBounds =
      some { x := 0, y := 0, width := 10, height := 10 } := by
  have h1 : (selectObject shapeApp 1 false).selectionSystem.selectionBounds =
      some { x := 0, y := 0, width := 10, height := 10 } := by
    norm_num [selectObject, _updateSelectionBounds, boxStep, setAdd, setHas, shapeApp,
      ObjectManager.new, addObject, shapeA, mapSet, mapHas, mapGet, getObject,
      SelectionSystem.new]
  refine ⟨h1, by decide, by decide, ?_⟩
  rw [← h1]
  rfl

/-! ## Resize of the combined box -/

theorem boxStep_eq (om : ObjectManager) (acc : Option Extent) (id : Int) :
    boxStep om acc id =
      match boundsOf om id with
      | some b =>
        match acc with
        | none =>
          some { minX := b.x, minY := b.y, maxX := b.x + b.width, maxY := b.y + b.height }
        | some e =>
          some
            { minX := min e.minX b.x
              minY := min e.minY b.y
              maxX := max e.maxX (b.x + b.width)
              maxY := max e.maxY (b.y + b.height) }
      | none => acc := by
  unfold boxStep boundsOf
  cases om.getObject id with
  | none => rfl
  | some obj =>
    cases hb : obj.bounds with
    | none => simp [hb]
    | some b => cases acc <;> simp [hb]

theorem boxStep_map (om om' : ObjectManager) (f g : ℚ → ℚ) (hf : Monotone f) (hg : Monotone g)
    (id : Int)
    (hid : match boundsOf om id with
      | some b => ∃ b', boundsOf om' id = some b' ∧ b'.x = f b.x ∧ b'.y = g b.y ∧
          b'.x + b'.width = f (b.x + b.width) ∧ b'.y + b'.height = g (b.y + b.height)
      | none => boundsOf om' id = none)
    (acc : Option Extent) :
    boxStep om' (acc.map (extentMap f g)) id = (boxStep om acc id).map (extentMap f g) := by
  rw [boxStep_eq, boxStep_eq]
  cases hb : boundsOf om id with
  | none =>
    rw [hb] at hid
    simp only [hid]
  | some b =>
    rw [hb] at hid
    obtain ⟨b', h0, h1, h2, h3, h4⟩ := hid
    simp only [h0]
    cases acc with
    | none => simp only [Option.map_none', Option.map_some', extentMap, ← h1, ← h2, ← h3, ← h4]
    | some e =>
      simp only [Option.map_some', extentMap, ← h1, ← h2, ← h3, ← h4, hf.map_min, hf.map_max,
        hg.map_min, hg.map_max]

theorem foldl_boxStep_map (om om' : ObjectManager) (f g : ℚ → ℚ) (hf : Monotone f)
    (hg : Monotone g) (ids : List Int)
    (hids : ∀ id ∈ ids, match boundsOf om id with
      | some b => ∃ b', boundsOf om' id = some b' ∧ b'.x = f b.x ∧ b'.y = g b.y ∧
          b'.x + b'.width = f (b.x + b.width) ∧ b'.y + b'.height = g (b.y + b.height)
      | none => boundsOf om' id = none)
    (acc : Option Extent) :
    ids.foldl (boxStep om') (acc.map (extentMap f g)) =
      (ids.foldl (boxStep om) acc).map (extentMap f g) := by
  induction ids generalizing acc with
  | nil => rfl
  | cons id ids ih =>
    rw [List.foldl_cons, List.foldl_cons,
      boxStep_map om om' f g hf hg id (hids id (List.mem_cons_self _ _)) acc]
    exact ih (fun k hk => hids k (List.mem_cons_of_mem _ hk)) _

theorem _updateSelectionBounds_of_fold (om : ObjectManager) (sel : SelectionSystem) (e : Extent)
    (h : sel.selectedIds.foldl (boxStep om) none = some e) :
    _updateSelectionBounds om sel =
      { sel with
        selectionBounds :=
          some
            { x := e.minX, y := e.minY, width := e.maxX - e.minX,
              height := e.maxY - e.minY } } := by
  unfold _updateSelectionBounds
  have hne : ¬ sel.selectedIds.length = 0 := by
    intro h0
    rw [List.length_eq_zero.1 h0] at h
    exact absurd h (by simp)
  rw [if_neg hne, h]

theorem resizeBounds_se (ob b : Bounds) (sx sy : ℚ) (hw : 0 < ob.width) (hh : 0 < ob.height)
    (hfx : 10 ≤ b.width * sx) (hfy : 10 ≤ b.height * sy) :
    resizeBounds ob b sx sy 0 0 =
      { x := ob.x + (b.x - ob.x) * sx
        y := ob.y + (b.y - ob.y) * sy
        width := b.width * sx
        height := b.height * sy } := by
  unfold resizeBounds
  simp only [gt_iff_lt, hw, hh, if_true, max_eq_right hfx, max_eq_right hfy, add_zero,
    div_mul_cancel₀ _ (ne_of_gt hw), div_mul_cancel₀ _ (ne_of_gt hh)]

theorem resize_se_core (app : App) (p0 : Point) (dx dy : ℚ) (ob : Bounds) (sx sy : ℚ)
    (hbox : combinedBox app.objectManager app.selectionSystem.selectedIds = some ob)
    (hcur : app.selectionSystem.selectionBounds = some ob)
    (hw : 0 < ob.width) (hh : 0 < ob.height)
    (hsxdef : sx = (ob.width + dx) / ob.width) (hsydef : sy = (ob.height + dy) / ob.height)
    (hsx : 1 / 10 ≤ sx) (hsy : 1 / 10 ≤ sy)
    (hobjs : ∀ id ∈ app.selectionSystem.selectedIds, ∀ obj,
      app.objectManager.getObject id = some obj →
        ∃ b, obj.bounds = some b ∧ 10 ≤ b.width * sx ∧ 10 ≤ b.height * sy) :
    ∃ app',
      updateTransform (startTransform app (TransformMode.resize Handle.se) p0)
        ⟨p0.x + dx, p0.y + dy⟩ = some app' ∧
      app'.selectionSystem.selectedIds = app.selectionSystem.selectedIds ∧
      app'.selectionSystem.selectionBounds =
        some { x := ob.x, y := ob.y, width := ob.width * sx, height := ob.height * sy } ∧
      combinedBox app'.objectManager app'.selectionSystem.selectedIds =
        some { x := ob.x, y := ob.y, width := ob.width * sx, height := ob.height * sy } ∧
      ∀ id ∈ app.selectionSystem.selectedIds, ∀ obj b,
        app.objectManager.getObject id = some obj → obj.bounds = some b →
          ∃ obj', app'.objectManager.getObject id = some obj' ∧
            obj'.bounds =
              some
                { x := ob.x + (b.x - ob.x) * sx
                  y := ob.y + (b.y - ob.y) * sy
                  width := b.width * sx
                  height := b.height * sy } := by
  have hdx : p0.x + dx - p0.x = dx := by ring
  have hdy : p0.y + dy - p0.y = dy := by ring
  have hax : axisScale (includesE Handle.se) (includesW Handle.se) ob.width
      (p0.x + dx - p0.x) = some sx := by
    rw [axisScale_of_ne _ _ _ _ (ne_of_gt hw), hdx, ← hsxdef]
    simp only [includesE, includesW, if_true, Bool.false_eq_true, if_false, max_eq_right hsx]
  have hay : axisScale (includesS Handle.se) (includesN Handle.se) ob.height
      (p0.y + dy - p0.y) = some sy := by
    rw [axisScale_of_ne _ _ _ _ (ne_of_gt hh), hdy, ← hsydef]
    simp only [includesS, includesN, if_true, Bool.false_eq_true, if_false, max_eq_right hsy]
  have hupd := updateTransform_startTransform_resize app Handle.se p0 ⟨p0.x + dx, p0.y + dy⟩ ob
    _ _ hcur hax hay
  simp only [hdx, hdy] at hupd
  have hoff : axisOffset (includesW Handle.se) dx = 0 ∧ axisOffset (includesN Handle.se) dy = 0 :=
    ⟨rfl, rfl⟩
  have hfr := resizeLoop_selectionSystem_frame app Handle.se p0 ob sx sy dx dy
  simp only [transformFrame, Prod.mk.injEq] at hfr
  have hget : ∀ id ∈ app.selectionSystem.selectedIds, ∀ obj b,
      app.objectManager.getObject id = some obj → obj.bounds = some b →
        (resizeLoop app Handle.se p0 ob sx sy dx dy).objectManager.getObject id =
          some (resizedObj obj ob b (strokePoints obj) sx sy 0 0) := by
    intro id hid obj b hobj hb
    have hv := resizeLoop_view_of_some app Handle.se p0 ob sx sy dx dy id obj b hid hobj hb
    rw [hoff.1, hoff.2] at hv
    exact getObject_of_view id _ _ _ _ hv
  have hbnd : ∀ id ∈ app.selectionSystem.selectedIds, ∀ obj b,
      app.objectManager.getObject id = some obj → obj.bounds = some b →
        (resizedObj obj ob b (strokePoints obj) sx sy 0 0).bounds =
          some
            { x := ob.x + (b.x - ob.x) * sx
              y := ob.y + (b.y - ob.y) * sy
              width := b.width * sx
              height := b.height * sy } := by
    intro id hid obj b hobj hb
    obtain ⟨b2, hb2, hfx, hfy⟩ := hobjs id hid obj hobj
    rw [hb] at hb2
    cases hb2
    rw [resizedObj_eq]
    simp only [resizeBounds_se ob b sx sy hw hh hfx hfy]
  obtain ⟨e, he, hob⟩ : ∃ e, app.selectionSystem.selectedIds.foldl
      (boxStep app.objectManager) none = some e ∧
      ob = { x := e.minX, y := e.minY, width := e.maxX - e.minX, height := e.maxY - e.minY } := by
    unfold combinedBox at hbox
    cases hfold : app.selectionSystem.selectedIds.foldl (boxStep app.objectManager) none with
    | none => rw [hfold] at hbox; exact absurd hbox (by simp)
    | some e =>
      rw [hfold] at hbox
      exact ⟨e, rfl, (Option.some.inj hbox).symm⟩
  have hsxpos : 0 ≤ sx := le_trans (by norm_num) hsx
  have hsypos : 0 ≤ sy := le_trans (by norm_num) hsy
  have hf : Monotone (fun x : ℚ => ob.x + (x - ob.x) * sx) := by
    intro a b hab
    have := mul_le_mul_of_nonneg_right (sub_le_sub_right hab ob.x) hsxpos
    show _ + _ ≤ _ + _
    linarith
  have hg : Monotone (fun y : ℚ => ob.y + (y - ob.y) * sy) := by
    intro a b hab
    have := mul_le_mul_of_nonneg_right (sub_le_sub_right hab ob.y) hsypos
    show _ + _ ≤ _ + _
    linarith
  have hfold := foldl_boxStep_map app.objectManager
    (resizeLoop app Handle.se p0 ob sx sy dx dy).objectManager _ _ hf hg
    app.selectionSystem.selectedIds (by
      intro id hid
      cases hobj : app.objectManager.getObject id with
      | none =>
        have h1 : boundsOf app.objectManager id = none := by
          unfold boundsOf; rw [hobj]; rfl
        rw [h1]
        show boundsOf _ id = none
        unfold boundsOf
        rw [resizeLoop_getObject_of_none app Handle.se p0 ob _ _ dx dy id hobj]
        rfl
      | some obj =>
        obtain ⟨b, hb, -, -⟩ := hobjs id hid obj hobj
        have h1 : boundsOf app.objectManager id = some b := by
          unfold boundsOf; rw [hobj]; exact hb
        rw [h1]
        refine ⟨⟨ob.x + (b.x - ob.x) * sx, ob.y + (b.y - ob.y) * sy, b.width * sx,
          b.height * sy⟩, ?_, rfl, rfl, ?_, ?_⟩
        · unfold boundsOf
          rw [hget id hid obj b hobj hb]
          exact hbnd id hid obj b hobj hb
        · show _ + _ = _ + _
          ring
        · show _ + _ = _ + _
          ring) none
  rw [Option.map_none', he, Option.map_some'] at hfold
  have hx1 : ob.x + (e.minX - ob.x) * sx = ob.x := by rw [hob]; ring
  have hy1 : ob.y + (e.minY - ob.y) * sy = ob.y := by rw [hob]; ring
  have hx2 : ob.x + (e.maxX - ob.x) * sx - ob.x = ob.width * sx := by rw [hob]; ring
  have hy2 : ob.y + (e.maxY - ob.y) * sy - ob.y = ob.height * sy := by rw [hob]; ring
  have hbox' : (⟨(extentMap (fun x : ℚ => ob.x + (x - ob.x) * sx)
          (fun y : ℚ => ob.y + (y - ob.y) * sy) e).minX,
        (extentMap (fun x : ℚ => ob.x + (x - ob.x) * sx)
          (fun y : ℚ => ob.y + (y - ob.y) * sy) e).minY,
        (extentMap (fun x : ℚ => ob.x + (x - ob.x) * sx)
            (fun y : ℚ => ob.y + (y - ob.y) * sy) e).maxX -
          (extentMap (fun x : ℚ => ob.x + (x - ob.x) * sx)
            (fun y : ℚ => ob.y + (y - ob.y) * sy) e).minX,
        (extentMap (fun x : ℚ => ob.x + (x - ob.x) * sx)
            (fun y : ℚ => ob.y + (y - ob.y) * sy) e).maxY -
          (extentMap (fun x : ℚ => ob.x + (x - ob.x) * sx)
            (fun y : ℚ => ob.y + (y - ob.y) * sy) e).minY⟩ : Bounds) =
      ⟨ob.x, ob.y, ob.width * sx, ob.height * sy⟩ := by
    simp only [extentMap, hx1, hy1, hx2, hy2]
  obtain ⟨sb, hsb⟩ := _updateSelectionBounds_eq
    (resizeLoop app Handle.se p0 ob sx sy dx dy).objectManager
    (resizeLoop app Handle.se p0 ob sx sy dx dy).selectionSystem
  refine ⟨_, hupd, ?_, ?_, ?_, ?_⟩
  · simp only [hsb]
    exact hfr.2.1
  · rw [← hfr.2.1] at hfold
    simp only [_updateSelectionBounds_of_fold _ _ _ hfold]
    exact congrArg some hbox'
  · simp only [hsb, hfr.2.1]
    unfold combinedBox
    rw [hfold, Option.map_some']
    exact congrArg some hbox'
  · intro id hid obj b hobj hb
    exact ⟨_, hget id hid obj b hobj hb, hbnd id hid obj b hobj hb⟩

theorem twoShapesApp_eq :
    twoShapesApp =
      { objectManager := (ObjectManager.new.addObject shapeA).addObject shapeB
        selectionSystem :=
          { SelectionSystem.new with
            selectedIds := [1, 2]
            selectionBounds := some { x := 0, y := 0, width := 30, height := 30 } } } := by
  norm_num [twoShapesApp, selectObject, _updateSelectionBounds, boxStep, setAdd, setHas,
    ObjectManager.new, addObject, shapeA, shapeB, mapSet, mapHas, mapGet, getObject,
    SelectionSystem.new, _updateLayerOrder]

/-- C13.  For a selection whose selection box is its combined bounding box `ob`, of positive
width and height, and in which every retrievable object has bounds, a resize with the `se`
handle by a drag `(dx, dy)` for which neither the `0.1` floor of the scale factors
`sx = (ob.width + dx) / ob.width`, `sy = (ob.height + dy) / ob.height` nor the `10` floor of
an object dimension applies returns a state whose selection box, which is again the combined
box of the selection, has the origin of `ob` and the size `(ob.width + dx, ob.height + dy)`,
and in which every selected object with bounds `b` has the bounds
`(ob.x + (b.x - ob.x) * sx, ob.y + (b.y - ob.y) * sy, b.width * sx, b.height * sy)`. -/
theorem resize_se_scales (app : App) (p0 : Point) (dx dy : ℚ) (ob : Bounds)
    (hbox : combinedBox app.objectManager app.selectionSystem.selectedIds = some ob)
    (hcur : app.selectionSystem.selectionBounds = some ob)
    (hw : 0 < ob.width) (hh : 0 < ob.height)
    (hsx : 1 / 10 ≤ (ob.width + dx) / ob.width) (hsy : 1 / 10 ≤ (ob.height + dy) / ob.height)
    (hobjs : ∀ id ∈ app.selectionSystem.selectedIds, ∀ obj,
      app.objectManager.getObject id = some obj →
        ∃ b, obj.bounds = some b ∧ 10 ≤ b.width * ((ob.width + dx) / ob.width) ∧
          10 ≤ b.height * ((ob.height + dy) / ob.height)) :
    ∃ app',
      updateTransform (startTransform app (TransformMode.resize Handle.se) p0)
        ⟨p0.x + dx, p0.y + dy⟩ = some app' ∧
      app'.selectionSystem.selectionBounds =
        some { x := ob.x, y := ob.y, width := ob.width + dx, height := ob.height + dy } ∧
      combinedBox app'.objectManager app'.selectionSystem.selectedIds =
        some { x := ob.x, y := ob.y, width := ob.width + dx, height := ob.height + dy } ∧
      ∀ id ∈ app.selectionSystem.selectedIds, ∀ obj b,
        app.objectManager.getObject id = some obj → obj.bounds = some b →
          ∃ obj', app'.objectManager.getObject id = some obj' ∧
            obj'.bounds =
              some
                { x := ob.x + (b.x - ob.x) * ((ob.width + dx) / ob.width)
                  y := ob.y + (b.y - ob.y) * ((ob.height + dy) / ob.height)
                  width := b.width * ((ob.width + dx) / ob.width)
                  height := b.height * ((ob.height + dy) / ob.height) } := by
  obtain ⟨app', h1, -, h3, h4, h5⟩ := resize_se_core app p0 dx dy ob _ _ hbox hcur hw hh rfl rfl
    hsx hsy hobjs
  have e1 : ob.width * ((ob.width + dx) / ob.width) = ob.width + dx := by
    field_simp
  have e2 : ob.height * ((ob.height + dy) / ob.height) = ob.height + dy := by
    field_simp
  rw [e1, e2] at h3 h4
  exact ⟨app', h1, h3, h4, h5⟩

/-- The rectangles `(0, 0, 10, 10)` and `(20, 20, 10, 10)` in the box `(0, 0, 30, 30)`,
resized with the `se` handle by `(+30, +30)`: the box becomes `(0, 0, 60, 60)` and the
rectangles become `(0, 0, 20, 20)` and `(40, 40, 20, 20)`. -/
theorem resize_se_scales_witness :
    ∃ app',
      updateTransform (startTransform twoShapesApp (TransformMode.resize Handle.se) ⟨30, 30⟩)
        ⟨60, 60⟩ = some app' ∧
      app'.selectionSystem.selectionBounds =
        some { x := 0, y := 0, width := 60, height := 60 } ∧
      (∃ a, app'.objectManager.getObject 1 = some a ∧
        a.bounds = some { x := 0, y := 0, width := 20, height := 20 }) ∧
      ∃ b, app'.objectManager.getObject 2 = some b ∧
        b.bounds = some { x := 40, y := 40, width := 20, height := 20 } := by
  have hA : twoShapesApp.objectManager.getObject 1 = some shapeA := by
    rw [twoShapesApp_eq]; decide
  have hB : twoShapesApp.objectManager.getObject 2 = some shapeB := by
    rw [twoShapesApp_eq]; decide
  have hids : twoShapesApp.selectionSystem.selectedIds = [1, 2] := by
    rw [twoShapesApp_eq]
  obtain ⟨app', h1, h2, -, h4⟩ := resize_se_scales twoShapesApp ⟨30, 30⟩ 30 30
    { x := 0, y := 0, width := 30, height := 30 }
    (by
      rw [twoShapesApp_eq]
      norm_num [combinedBox, boxStep, ObjectManager.new, addObject, shapeA, shapeB, mapSet,
        mapHas, mapGet, getObject, setHas, _updateLayerOrder])
    (by rw [twoShapesApp_eq])
    (by norm_num) (by norm_num) (by norm_num) (by norm_num)
    (by
      intro id hid obj hobj
      rw [hids] at hid
      simp only [List.mem_cons, List.mem_singleton, List.not_mem_nil, or_false] at hid
      rcases hid with rfl | rfl
      · rw [hA] at hobj
        cases hobj
        exact ⟨_, rfl, by norm_num, by norm_num⟩
      · rw [hB] at hobj
        cases hobj
        exact ⟨_, rfl, by norm_num, by norm_num⟩)
  obtain ⟨a, ha1, ha2⟩ := h4 1 (by rw [hids]; decide) shapeA _ hA rfl
  obtain ⟨b, hb1, hb2⟩ := h4 2 (by rw [hids]; decide) shapeB _ hB rfl
  norm_num at h1 h2 ha2 hb2
  exact ⟨app', h1, h2, ⟨a, ha1, ha2⟩, ⟨b, hb1, hb2⟩⟩

/-! ## Provisional ids -/

theorem _updateLayerOrder_nextLocalId (om : ObjectManager) :
    om._updateLayerOrder.nextLocalId = om.nextLocalId := rfl

theorem storeAction_nextLocalId (om : ObjectManager) (a : StoreAction) :
    (a.run om).nextLocalId = om.nextLocalId := by
  cases a with
  | clear => rfl
  | call c =>
    cases c with
    | add objData => rfl
    | delete objectId => rfl
    | update objectId updates =>
      show (om.updateObject objectId updates).nextLocalId = om.nextLocalId
      unfold updateObject
      split
      · split_ifs <;> rfl
      · rfl

theorem foldl_idAction (actions : List IdAction) (s : List Int × ObjectManager) :
    (actions.foldl IdAction.run s).1 =
        s.1 ++ (List.range (generateCalls actions)).map
          (fun i : Nat => s.2.nextLocalId - (i : Int)) ∧
      (actions.foldl IdAction.run s).2.nextLocalId =
        s.2.nextLocalId - (generateCalls actions : Int) := by
  induction actions generalizing s with
  | nil => simp [generateCalls]
  | cons a rest ih =>
    cases a with
    | generate =>
      obtain ⟨h1, h2⟩ := ih (s.1 ++ [s.2.generateLocalId.1], s.2.generateLocalId.2)
      rw [List.foldl_cons]
      rw [show IdAction.run s IdAction.generate =
        (s.1 ++ [s.2.generateLocalId.1], s.2.generateLocalId.2) from rfl, h1, h2]
      refine ⟨?_, ?_⟩
      · simp only [generateCalls, generateLocalId, List.range_succ_eq_map, List.map_cons,
          List.map_map, List.append_assoc, List.singleton_append, Nat.cast_zero, sub_zero]
        congr 2
        apply List.map_congr_left
        intro i _
        simp only [Function.comp, Nat.cast_succ]
        ring
      · simp only [generateCalls, generateLocalId, Nat.cast_succ]
        ring
    | store a =>
      obtain ⟨h1, h2⟩ := ih (s.1, a.run s.2)
      rw [List.foldl_cons]
      rw [show IdAction.run s (IdAction.store a) = (s.1, a.run s.2) from rfl, h1, h2]
      simp only [storeAction_nextLocalId, generateCalls, and_self]

theorem generatedIds_eq (actions : List IdAction) :
    generatedIds actions =
      (List.range (generateCalls actions)).map (fun i : Nat => -((i : Int) + 1)) := by
  have h := (foldl_idAction actions ([], ObjectManager.new)).1
  unfold generatedIds
  rw [h, List.nil_append]
  apply List.map_congr_left
  intro i _
  show (-1 : Int) - i = -((i : Int) + 1)
  ring

/-- C21.  On a fresh object manager, whatever calls of `addObject`, `updateObject`,
`deleteObject` and `clear` are interleaved, the calls of `generateLocalId` return
`-1, -2, ..., -n` in this order, where `n` is the number of these calls: the `k`-th call
returns `-k`.  Hence every returned id is negative, and each is less than every id returned
before it. -/
theorem generateLocalId_kth (actions : List IdAction) :
    generatedIds actions =
        (List.range (generateCalls actions)).map (fun i : Nat => -((i : Int) + 1)) ∧
      (∀ id ∈ generatedIds actions, id < 0) ∧
      List.Pairwise (fun earlier later => later < earlier) (generatedIds actions) := by
  refine ⟨generatedIds_eq actions, ?_, ?_⟩
  · rw [generatedIds_eq]
    intro id hid
    obtain ⟨i, -, rfl⟩ := List.mem_map.1 hid
    have : (0 : Int) ≤ i := Int.ofNat_nonneg i
    linarith
  · rw [generatedIds_eq, List.pairwise_map]
    refine List.Pairwise.imp ?_ (List.pairwise_lt_range _)
    intro a b hab
    have : (a : Int) < b := Int.ofNat_lt.2 hab
    linarith

/-! ## Replay and catch-up on sample ledgers -/

/-- C22 fails for a participant who joins again after leaving: the loop over the join events
tests membership in the set of all participants with a leave event, whatever the order of
the events.  Participant `9` joins in block `1`, leaves in block `2` and joins again in block
`3`; the roster that full replay up to block `3` builds is empty, while the roster that the
catch-up loop builds over the same blocks holds `9`. -/
theorem replayRoster_rejoin :
    (queryFilter UserJoinedEvent.blockNumber rejoinLedger.userJoined 0 3).map
        (fun e => (e.blockNumber, e.user)) = [(1, 9), (3, 9)] ∧
    (queryFilter UserLeftEvent.blockNumber rejoinLedger.userLeft 0 3).map
        (fun e => (e.blockNumber, e.user)) = [(2, 9)] ∧
    replayRoster rejoinLedger (some 7) 3 [] = [] ∧
    mapHas (replayRoster rejoinLedger (some 7) 3 []) 9 = false ∧
    mapHas (catchUpRoster rejoinLedger (some 7) 0 3 []) 9 = true := by
  decide

/-- C23 fails whenever the range holds a content update: `loadInitialState` has no loop over
`ContentUpdated` events.  Note `3` is created with the content `"draft"` in block `1` and
updated to `"final"` in block `2`; after full replay up to block `2` from the empty store its
content is `"draft"`, while `processEvents` over the same blocks leaves `"final"`. -/
theorem loadInitialState_ignores_content :
    (queryFilter ContentUpdatedEvent.blockNumber editedLedger.contentUpdated 0 2).map
        (fun e => (e.objectId, e.newContent)) = [(3, "final")] ∧
    ((loadInitialState editedLedger 2 ObjectManager.new).getObject 3).map (fun o => o.content) =
      some (some "draft") ∧
    ((processEvents editedLedger (some 7) 0 2 freshApp).objectManager.getObject 3).map
        (fun o => o.content) = some (some "final") := by
  decide

/-- C30 fails: the `CanvasCleared` block of `processEvents` runs after the creation loops,
whatever the blocks of the events.  Participant `9` clears the canvas in block `5` and creates
rectangle `2` in block `6`; `processEvents` over the blocks `5` to `6` ends with an empty
store, while full replay up to block `6` holds the rectangle. -/
theorem processEvents_clear_then_create :
    (processEvents clearThenCreateLedger (some 7) 5 6 freshApp).objectManager.objects = [] ∧
    (processEvents clearThenCreateLedger (some 7) 5 6 freshApp).objectManager.getObject 2 =
      none ∧
    ((loadInitialState clearThenCreateLedger 6 ObjectManager.new).getObject 2).map
        (fun o => o.bounds) =
      some (some { x := 20, y := 20, width := 10, height := 10 }) := by
  decide

/-! ## Remote clear and remote delete -/

theorem catchUpDelete_adds_tombstone (me : Option Address) (om : ObjectManager)
    (e : ObjectDeletedEvent) (h : some e.user ≠ me) :
    setHas (catchUpDelete me om e).deletedObjects e.objectId = true := by
  unfold catchUpDelete
  rw [if_neg h]
  exact setHas_setAdd_self _ _

theorem foldl_catchUpDelete_tombstone (me : Option Address) (l : List ObjectDeletedEvent)
    (om : ObjectManager) (id : Int)
    (h : setHas om.deletedObjects id = true ∨
      ∃ e ∈ l, some e.user ≠ me ∧ (e.objectId : Int) = id) :
    setHas (l.foldl (catchUpDelete me) om).deletedObjects id = true := by
  induction l generalizing om with
  | nil =>
    rcases h with h | ⟨e, he, _⟩
    · exact h
    · exact absurd he (List.not_mem_nil e)
  | cons a l ih =>
    apply ih
    rcases h with h | ⟨e, he, hu, hid⟩
    · exact Or.inl (catchUpDelete_keeps_tombstone me om a id h)
    · rcases List.mem_cons.1 he with rfl | he'
      · left
        rw [← hid]
        exact catchUpDelete_adds_tombstone me om e hu
      · exact Or.inr ⟨e, he', hu, hid⟩

theorem catchUpLoops_remote_delete (L : Ledger) (me : Option Address) (fromBlock toBlock : Nat)
    (om : ObjectManager) (e : ObjectDeletedEvent)
    (he : e ∈ queryFilter ObjectDeletedEvent.blockNumber L.objectDeleted fromBlock toBlock)
    (hu : some e.user ≠ me) :
    setHas (catchUpLoops L me fromBlock toBlock om).deletedObjects e.objectId = true := by
  unfold catchUpLoops
  simp only
  refine foldl_invariant (fun o => setHas o.deletedObjects e.objectId = true) _
    (fun o e' ho => by dsimp only at ho ⊢; rw [catchUpContent_deletedObjects]; exact ho) _ _ ?_
  exact foldl_catchUpDelete_tombstone me _ _ _ (Or.inr ⟨e, he, hu, rfl⟩)

/-- C24 (amended).  When the last clear event of the catch-up range originates from a remote
participant, the object map, the layer order and the tombstone set are empty after
`processEvents`, and so is the selection, whatever the state before and whatever other events
the range holds.  When the range has no clear event, or its last clear event originates from
the local participant, a remote delete event for the id `d` in the range leaves `d` in the
tombstone set. -/
theorem processEvents_remote_clear (L : Ledger) (me : Option Address) (fromBlock toBlock : Nat)
    (app : App) :
    (∀ lastClear,
      (queryFilter CanvasClearedEvent.blockNumber L.canvasCleared fromBlock toBlock).getLast? =
        some lastClear → some lastClear.user ≠ me →
      (processEvents L me fromBlock toBlock app).objectManager.objects = [] ∧
      (processEvents L me fromBlock toBlock app).objectManager.layerOrder = [] ∧
      (processEvents L me fromBlock toBlock app).objectManager.deletedObjects = [] ∧
      (processEvents L me fromBlock toBlock app).selectionSystem.selectedIds = [] ∧
      ∀ id, (processEvents L me fromBlock toBlock app).objectManager.getObject id = none) ∧
    ((∀ lastClear,
      (queryFilter CanvasClearedEvent.blockNumber L.canvasCleared fromBlock toBlock).getLast? =
        some lastClear → some lastClear.user = me) →
      ∀ e ∈ queryFilter ObjectDeletedEvent.blockNumber L.objectDeleted fromBlock toBlock,
        some e.user ≠ me →
        setHas (processEvents L me fromBlock toBlock app).objectManager.deletedObjects
          e.objectId = true) := by
  constructor
  · intro lastClear hlast hremote
    unfold processEvents
    rw [hlast]
    simp only [if_pos hremote]
    exact ⟨rfl, rfl, rfl, rfl, fun id => rfl⟩
  · intro hlocal e he hu
    have h7 := catchUpLoops_remote_delete L me fromBlock toBlock app.objectManager e he hu
    unfold processEvents
    cases hlast : (queryFilter CanvasClearedEvent.blockNumber L.canvasCleared fromBlock
        toBlock).getLast? with
    | none => exact h7
    | some lastClear =>
      simp only [if_neg (not_not.2 (hlocal lastClear hlast))]
      exact h7

/-- The remote clear of `clearThenCreateLedger` empties the store that holds the rectangle
`1`; the remote delete of `strokeLedger`, a ledger without clear events, leaves `5` in the
tombstone set. -/
theorem processEvents_remote_clear_witness :
    (processEvents clearThenCreateLedger (some 7) 5 6 shapeApp).objectManager.objects = [] ∧
    setHas (processEvents strokeLedger (some 7) 1 1 freshApp).objectManager.deletedObjects 5 =
      true :=
  ⟨((processEvents_remote_clear clearThenCreateLedger (some 7) 5 6 shapeApp).1 ⟨5, 9⟩
      (by decide) (by decide)).1,
    (processEvents_remote_clear strokeLedger (some 7) 1 1 freshApp).2
      (fun lastClear h => by
        have hnone : (queryFilter CanvasClearedEvent.blockNumber strokeLedger.canvasCleared 1
            1).getLast? = none := by decide
        rw [hnone] at h
        cases h) ⟨1, 9, 5⟩ (by decide) (by decide)⟩

/-- C24 as stated fails when a local clear follows the remote clear in the range: the test
looks at the last clear event only.  The store holds the rectangle `1`; after `processEvents`
over a range with a remote clear in block `1` and a local clear in block `2` the rectangle is
still in the store. -/
theorem processEvents_two_clears_counterexample :
    (∃ e ∈ queryFilter CanvasClearedEvent.blockNumber twoClearsLedger.canvasCleared 1 2,
      some e.user ≠ some 7) ∧
    shapeApp.objectManager.getObject 1 = some shapeA ∧
    (processEvents twoClearsLedger (some 7) 1 2 shapeApp).objectManager.getObject 1 =
      some shapeA := by
  refine ⟨⟨⟨1, 9⟩, by decide, by decide⟩, by decide, by decide⟩

/-! ## Failed attribute lookups in full replay -/

theorem queryFilter_filter {ε : Type} (blockNumber : ε → Nat) (p : ε → Bool) (events : List ε)
    (fromBlock toBlock : Nat) :
    queryFilter blockNumber (events.filter p) fromBlock toBlock =
      (queryFilter blockNumber events fromBlock toBlock).filter p := by
  unfold queryFilter
  rw [List.filter_filter, List.filter_filter]
  apply List.filter_congr
  intro e _
  exact Bool.and_comm _ _

theorem foldl_filter_of_skip {σ ε : Type} (f : σ → ε → σ) (p : ε → Bool)
    (h : ∀ s e, p e = false → f s e = s) (l : List ε) (s : σ) :
    (l.filter p).foldl f s = l.foldl f s := by
  induction l generalizing s with
  | nil => rfl
  | cons a l ih =>
    by_cases ha : p a = true
    · rw [List.filter_cons_of_pos ha, List.foldl_cons, List.foldl_cons, ih]
    · have ha' : p a = false := by simpa using ha
      rw [List.filter_cons_of_neg ha, List.foldl_cons, h s a ha', ih]

theorem replayCreate_of_lookup_none (L : Ledger) (d : JsSet) (om : ObjectManager) (id : Nat)
    (build : ObjectInfo → DrawObj) (h : L.getObjectInfo id = none) :
    replayCreate L d om id build = om := by
  unfold replayCreate
  rw [h]
  split_ifs <;> rfl

theorem loadInitialState_withoutCreation (L : Ledger) (currentBlock : Nat) (om : ObjectManager)
    (k : Nat) (h : L.getObjectInfo k = none) :
    loadInitialState (withoutCreation L k) currentBlock om = loadInitialState L currentBlock om := by
  have hskip : ∀ (ε : Type) (objectId : ε → Nat) (build : ε → ObjectInfo → DrawObj)
      (l : List ε) (s : ObjectManager),
      (l.filter (fun e => decide (objectId e ≠ k))).foldl
          (fun om e => replayCreate L (replayDeletedIds L currentBlock) om (objectId e) (build e))
          s =
        l.foldl
          (fun om e => replayCreate L (replayDeletedIds L currentBlock) om (objectId e) (build e))
          s := by
    intro ε objectId build l s
    apply foldl_filter_of_skip
    intro s e he
    have hk : objectId e = k := by simpa using he
    show replayCreate L _ s (objectId e) (build e) = s
    rw [hk]
    exact replayCreate_of_lookup_none L _ s k _ h
  have h1 := hskip StrokePointsEvent StrokePointsEvent.objectId strokeObject
  have h2 := hskip ShapeGeometryEvent ShapeGeometryEvent.objectId shapeObject
  have h3 := hskip StickyNoteDataEvent StickyNoteDataEvent.objectId stickyObject
  have h4 := hskip TextDataEvent TextDataEvent.objectId textObject
  unfold loadInitialState replayCreations
  show replayMoves _ (List.foldl _ (List.foldl _ (List.foldl _ (List.foldl _ om
    (queryFilter StrokePointsEvent.blockNumber (L.strokePoints.filter _) _ _))
    (queryFilter ShapeGeometryEvent.blockNumber (L.shapeGeometry.filter _) _ _))
    (queryFilter StickyNoteDataEvent.blockNumber (L.stickyNoteData.filter _) _ _))
    (queryFilter TextDataEvent.blockNumber (L.textData.filter _) _ _)) = _
  rw [queryFilter_filter, queryFilter_filter, queryFilter_filter, queryFilter_filter]
  exact congrArg _ (by
    show List.foldl _ (List.foldl _ (List.foldl _ (List.foldl _ om _) _) _) _ = _
    erw [h1, h2, h3, h4]
    rfl)

/-- C25.  In full replay an attribute lookup that throws for the id `k` is caught and the
creation events of `k` are skipped: the object manager that `loadInitialState` returns, from
any state, is the one it returns for the same ledger without the creation events of `k`. -/
theorem failed_lookup_skipped (L : Ledger) (currentBlock : Nat) (om : ObjectManager) (k : Nat)
    (h : L.getObjectInfo k = none) :
    loadInitialState L currentBlock om = loadInitialState (withoutCreation L k) currentBlock om :=
  (loadInitialState_withoutCreation L currentBlock om k h).symm

/-- The lookup of stroke `5` throws; rectangle `2` is inserted and moved to `(30, 30)`. -/
theorem failed_lookup_skipped_witness :
    failedLookupLedger.getObjectInfo 5 = none ∧
    loadInitialState failedLookupLedger 2 ObjectManager.new =
      loadInitialState (withoutCreation failedLookupLedger 5) 2 ObjectManager.new ∧
    ((loadInitialState failedLookupLedger 2 ObjectManager.new).getObject 2).map
        (fun o => o.bounds) =
      some (some { x := 30, y := 30, width := 10, height := 10 }) :=
  ⟨rfl, failed_lookup_skipped failedLookupLedger 2 ObjectManager.new 5 rfl, by decide⟩

/-! ## Remap during a move -/

/-- C27 fails: `updateLocalIdToRealId` rewrites the key of the object map and the selection
set, but not the keys of the snapshots `originalObjectBounds` and `originalObjectPoints` that
`startTransform` took.  The selected provisional stroke `-1` has the bounds
`(10, 20, 30, 1)`; after `startTransform('move', (0, 0))`, `updateTransform((5, 0))` and the
remap to `42`, the call `updateTransform((10, 0))` finds no snapshot for `42`, takes the
bounds `(15, 20, 30, 1)` of that moment as the original and stores `(25, 20, 30, 1)`.
Without the remap the same call stores `(20, 20, 30, 1)`, the bounds at transform start
translated by `(10, 0)`. -/
theorem remap_during_move :
    ((updateTransform (startTransform sampleApp TransformMode.move ⟨0, 0⟩) ⟨5, 0⟩).bind
      (fun a => updateTransform (updateLocalIdToRealId a (-1) 42) ⟨10, 0⟩)).map
        (fun a => (a.selectionSystem.selectedIds,
          (a.objectManager.getObject 42).bind (fun o => o.bounds),
          (a.objectManager.getObject 42).bind (fun o => o.points))) =
      some ([42], some { x := 25, y := 20, width := 30, height := 1 },
        some [(25, 20), (55, 20)]) ∧
    ((updateTransform (startTransform sampleApp TransformMode.move ⟨0, 0⟩) ⟨5, 0⟩).bind
      (fun a => updateTransform a ⟨10, 0⟩)).map
        (fun a => (a.selectionSystem.selectedIds,
          (a.objectManager.getObject (-1)).bind (fun o => o.bounds),
          (a.objectManager.getObject (-1)).bind (fun o => o.points))) =
      some ([-1], some { x := 20, y := 20, width := 30, height := 1 },
        some [(20, 20), (50, 20)]) := by
  constructor
  · norm_num [updateTransform, startTransform, startStep, moveStep, moveUpdates, updateObject,
      DrawObj.assign, snapshotPoints, updateLocalIdToRealId, _updateLayerOrder,
      _updateSelectionBounds, boxStep, mapGet, mapSet, mapDelete, mapHas, mapKeys, setHas,
      setAdd, setDelete, getObject, sampleApp, sampleStroke, ObjectManager.new,
      SelectionSystem.new, addObject, layerKey]
  · norm_num [updateTransform, startTransform, startStep, moveStep, moveUpdates, updateObject,
      DrawObj.assign, snapshotPoints, _updateLayerOrder,
      _updateSelectionBounds, boxStep, mapGet, mapSet, mapDelete, mapHas, mapKeys, setHas,
      setAdd, setDelete, getObject, sampleApp, sampleStroke, ObjectManager.new,
      SelectionSystem.new, addObject, layerKey]

/-! ## Resize with zero drag -/

theorem axisScale_zero (far near : Bool) (extent : ℚ) (h : 0 < extent) :
    axisScale far near extent 0 = some 1 := by
  rw [axisScale_of_ne _ _ _ _ (ne_of_gt h)]
  have h1 : (extent - 0) / extent = 1 := by rw [sub_zero]; exact div_self (ne_of_gt h)
  have h2 : (extent + 0) / extent = 1 := by rw [add_zero]; exact div_self (ne_of_gt h)
  rw [h1, h2]
  have h3 : max (1 / 10 : ℚ) 1 = 1 := max_eq_right (by norm_num)
  rw [h3]
  cases near <;> cases far <;> rfl

theorem axisOffset_zero (near : Bool) : axisOffset near 0 = 0 := by
  cases near <;> rfl

theorem resizeBounds_one (ob b : Bounds) (hw : 0 < ob.width) (hh : 0 < ob.height)
    (hbw : 10 ≤ b.width) (hbh : 10 ≤ b.height) : resizeBounds ob b 1 1 0 0 = b := by
  unfold resizeBounds
  simp only [gt_iff_lt, hw, hh, if_true, mul_one, add_zero, max_eq_right hbw, max_eq_right hbh,
    div_mul_cancel₀ _ (ne_of_gt hw), div_mul_cancel₀ _ (ne_of_gt hh), add_sub_cancel]

theorem resizePoint_self (b : Bounds) (hbw : 0 < b.width) (hbh : 0 < b.height) (p : ℚ × ℚ) :
    resizePoint b b p = p := by
  unfold resizePoint
  simp only [gt_iff_lt, hbw, hbh, if_true, div_mul_cancel₀ _ (ne_of_gt hbw),
    div_mul_cancel₀ _ (ne_of_gt hbh), add_sub_cancel]

theorem resizedObj_one (obj : DrawObj) (ob b : Bounds) (hb : obj.bounds = some b)
    (hw : 0 < ob.width) (hh : 0 < ob.height) (hbw : 10 ≤ b.width) (hbh : 10 ≤ b.height) :
    resizedObj obj ob b (strokePoints obj) 1 1 0 0 = obj := by
  rw [resizedObj_strokePoints, resizeBounds_one ob b hw hh hbw hbh]
  have hmap : (fun pts : Points => pts.map (resizePoint b b)) = id := by
    funext pts
    have : resizePoint b b = id := by
      funext p
      exact resizePoint_self b (lt_of_lt_of_le (by norm_num) hbw)
        (lt_of_lt_of_le (by norm_num) hbh) p
    rw [this, List.map_id]
    rfl
  rw [hmap, Option.map_id, ← hb]
  simp

theorem resize_zero_drag_result (app : App) (h : Handle) (p0 : Point) (ob : Bounds) (id : Int)
    (obj : DrawObj) (b : Bounds) (hsb : app.selectionSystem.selectionBounds = some ob)
    (hw : 0 < ob.width) (hh : 0 < ob.height) (hsel : id ∈ app.selectionSystem.selectedIds)
    (hobj : app.objectManager.getObject id = some obj) (hb : obj.bounds = some b)
    (hbw : 10 ≤ b.width) (hbh : 10 ≤ b.height) :
    ∃ app', updateTransform (startTransform app (TransformMode.resize h) p0) p0 = some app' ∧
      app'.objectManager.getObject id = some obj := by
  have hx : axisScale (includesE h) (includesW h) ob.width (p0.x - p0.x) = some 1 := by
    rw [sub_self]
    exact axisScale_zero _ _ _ hw
  have hy : axisScale (includesS h) (includesN h) ob.height (p0.y - p0.y) = some 1 := by
    rw [sub_self]
    exact axisScale_zero _ _ _ hh
  refine ⟨_, updateTransform_startTransform_resize app h p0 p0 ob 1 1 hsb hx hy, ?_⟩
  have hv := resizeLoop_view_of_some app h p0 ob 1 1 (p0.x - p0.x) (p0.y - p0.y) id obj b hsel
    hobj hb
  rw [sub_self, sub_self, axisOffset_zero, axisOffset_zero,
    resizedObj_one obj ob b hb hw hh hbw hbh] at hv
  have := getObject_of_view id _ _ _ _ ((transformView_updateSelectionBounds id _).trans hv)
  simpa only [sub_self] using this

theorem smallShapeApp_eq :
    smallShapeApp =
      { objectManager := ObjectManager.new.addObject smallShape
        selectionSystem :=
          { SelectionSystem.new with
            selectedIds := [10]
            selectionBounds := some { x := 0, y := 0, width := 5, height := 5 } } } := by
  norm_num [smallShapeApp, selectObject, _updateSelectionBounds, boxStep, setAdd, setHas,
    ObjectManager.new, addObject, smallShape, mapSet, mapHas, mapGet, getObject,
    SelectionSystem.new]

theorem wideShapeApp_eq :
    wideShapeApp =
      { objectManager := ObjectManager.new.addObject wideShape
        selectionSystem :=
          { SelectionSystem.new with
            selectedIds := [11]
            selectionBounds := some { x := 0, y := 0, width := 100, height := 100 } } } := by
  norm_num [wideShapeApp, selectObject, _updateSelectionBounds, boxStep, setAdd, setHas,
    ObjectManager.new, addObject, wideShape, mapSet, mapHas, mapGet, getObject,
    SelectionSystem.new]

/-- C28 (amended).  For a selection box of positive width and height and every handle `H`,
`startTransform('resize-H', p0)` followed by `updateTransform(p0)` returns a state in which
every selected object whose bounds are at least `10` wide and `10` high is unchanged: its
bounds, its stroke points and all other fields equal their values at transform start. -/
theorem resize_zero_drag (app : App) (h : Handle) (p0 : Point) (ob : Bounds) (id : Int)
    (obj : DrawObj) (b : Bounds) (hsb : app.selectionSystem.selectionBounds = some ob)
    (hw : 0 < ob.width) (hh : 0 < ob.height) (hsel : id ∈ app.selectionSystem.selectedIds)
    (hobj : app.objectManager.getObject id = some obj) (hb : obj.bounds = some b)
    (hbw : 10 ≤ b.width) (hbh : 10 ≤ b.height) :
    ∃ app', updateTransform (startTransform app (TransformMode.resize h) p0) p0 = some app' ∧
      app'.objectManager.getObject id = some obj :=
  resize_zero_drag_result app h p0 ob id obj b hsb hw hh hsel hobj hb hbw hbh

/-- The selected diagonal stroke, `10` wide and `20` high, is resized with the `nw` handle
and a drag of zero length. -/
theorem resize_zero_drag_witness :
    ∃ app',
      updateTransform (startTransform diagonalApp (TransformMode.resize Handle.nw) ⟨0, 0⟩)
        ⟨0, 0⟩ = some app' ∧
      app'.objectManager.getObject 6 = some diagonalStroke :=
  resize_zero_drag diagonalApp Handle.nw ⟨0, 0⟩ { x := 0, y := 0, width := 10, height := 20 } 6
    diagonalStroke { x := 0, y := 0, width := 10, height := 20 } (by rw [diagonalApp_eq])
    (by norm_num) (by norm_num) (by rw [diagonalApp_eq]; decide)
    (by rw [diagonalApp_eq]; decide) rfl (by norm_num) (by norm_num)

/-- C28 as stated fails for an object narrower or lower than `10`: the stored dimensions are
`Math.max(10, original.width * scaleX)` and `Math.max(10, original.height * scaleY)`.  The
selected rectangle `(0, 0, 5, 5)` is the whole selection, so the selection box is
`(0, 0, 5, 5)`; a resize with the `se` handle and a drag of zero length stores the bounds
`(0, 0, 10, 10)`. -/
theorem resize_zero_drag_counterexample :
    smallShapeApp.selectionSystem.selectionBounds =
      some { x := 0, y := 0, width := 5, height := 5 } ∧
    smallShapeApp.objectManager.getObject 10 = some smallShape ∧
    smallShape.bounds = some { x := 0, y := 0, width := 5, height := 5 } ∧
    (updateTransform (startTransform smallShapeApp (TransformMode.resize Handle.se) ⟨5, 5⟩)
        ⟨5, 5⟩).map (fun a => (a.objectManager.getObject 10).bind (fun o => o.bounds)) =
      some (some { x := 0, y := 0, width := 10, height := 10 }) := by
  refine ⟨by rw [smallShapeApp_eq], by rw [smallShapeApp_eq]; decide, rfl, ?_⟩
  rw [smallShapeApp_eq]
  norm_num [updateTransform, _handleResize, axisScale, axisOffset, jsDivide, maxTenth,
    includesE, includesW, includesS, includesN, resizeStep, resizeUpdates, resizeBounds,
    resizePoint, startTransform, startStep, updateObject, DrawObj.assign, snapshotPoints,
    _updateLayerOrder, _updateSelectionBounds, boxStep, mapGet, mapSet, mapHas, mapKeys,
    setHas, setAdd, getObject, smallShape, ObjectManager.new, SelectionSystem.new, addObject,
    layerKey]

/-! ## Resize with the `w` handle past the opposite edge -/

/-- C29 fails where the `0.1` floor of the scale factor applies: the scale factor is clamped,
the offset `offsetX = dx` is not.  The selected rectangle `(0, 0, 100, 100)` is the whole
selection and the snapshot of the selection box has the right edge `0 + 100 = 100`.  A resize
with the `w` handle dragged by `dx = 100`, onto the opposite edge, has the scale factor
`Math.max(0.1, 0) = 0.1` and stores the bounds `(100, 0, 10, 100)`; the recomputed selection
box is `(100, 0, 10, 100)`, whose right edge is `110`. -/
theorem resize_w_past_edge :
    wideShapeApp.selectionSystem.selectionBounds =
      some { x := 0, y := 0, width := 100, height := 100 } ∧
    wideShapeApp.objectManager.getObject 11 = some wideShape ∧
    (startTransform wideShapeApp (TransformMode.resize Handle.w)
        ⟨0, 50⟩).selectionSystem.originalBounds =
      some { x := 0, y := 0, width := 100, height := 100 } ∧
    (updateTransform (startTransform wideShapeApp (TransformMode.resize Handle.w) ⟨0, 50⟩)
        ⟨100, 50⟩).map
      (fun a => (a.selectionSystem.selectionBounds,
        (a.objectManager.getObject 11).bind (fun o => o.bounds))) =
      some (some { x := 100, y := 0, width := 10, height := 100 },
        some { x := 100, y := 0, width := 10, height := 100 }) ∧
    (updateTransform (startTransform wideShapeApp (TransformMode.resize Handle.w) ⟨0, 50⟩)
        ⟨100, 50⟩).map
      (fun a => a.selectionSystem.selectionBounds.map (fun sb => sb.x + sb.width)) =
      some (some 110) := by
  refine ⟨by rw [wideShapeApp_eq], by rw [wideShapeApp_eq]; decide, ?_, ?_, ?_⟩
  · rw [wideShapeApp_eq]
    rfl
  · rw [wideShapeApp_eq]
    norm_num [updateTransform, _handleResize, axisScale, axisOffset, jsDivide, maxTenth,
      includesE, includesW, includesS, includesN, resizeStep, resizeUpdates, resizeBounds,
      resizePoint, startTransform, startStep, updateObject, DrawObj.assign, snapshotPoints,
      _updateLayerOrder, _updateSelectionBounds, boxStep, mapGet, mapSet, mapHas, mapKeys,
      setHas, setAdd, getObject, wideShape, ObjectManager.new, SelectionSystem.new, addObject,
      layerKey]
  · rw [wideShapeApp_eq]
    norm_num [updateTransform, _handleResize, axisScale, axisOffset, jsDivide, maxTenth,
      includesE, includesW, includesS, includesN, resizeStep, resizeUpdates, resizeBounds,
      resizePoint, startTransform, startStep, updateObject, DrawObj.assign, snapshotPoints,
      _updateLayerOrder, _updateSelectionBounds, boxStep, mapGet, mapSet, mapHas, mapKeys,
      setHas, setAdd, getObject, wideShape, ObjectManager.new, SelectionSystem.new, addObject,
      layerKey]

/-! ## Catch-up against replay -/

theorem mapGet_filter_key {β : Type} (p : Int → Bool) (m : JsMap β) (k : Int) :
    mapGet (m.filter (fun e => p e.1)) k = if p k = true then mapGet m k else none := by
  induction m with
  | nil => simp [mapGet]
  | cons e m ih =>
    by_cases hp : p e.1 = true
    · rw [List.filter_cons_of_pos (by simpa using hp)]
      by_cases he : e.1 = k
      · simp only [mapGet, he, if_true]
        rw [← he, hp]
        rfl
      · simp only [mapGet, he, if_false]
        exact ih
    · rw [List.filter_cons_of_neg (by simpa using hp), ih]
      by_cases he : e.1 = k
      · rw [← he]
        simp [hp]
      · simp only [mapGet, he, if_false]

theorem filter_mapSet_of_keep {β : Type} (p : Int → Bool) (m : JsMap β) (k : Int) (v : β)
    (hp : p k = true) :
    (mapSet m k v).filter (fun e => p e.1) = mapSet (m.filter (fun e => p e.1)) k v := by
  have hhas : mapHas (m.filter (fun e => p e.1)) k = mapHas m k := by
    unfold mapHas
    rw [mapGet_filter_key, if_pos hp]
  unfold mapSet
  rw [hhas]
  by_cases h : mapHas m k = true
  · rw [if_pos h, if_pos h, List.filter_map]
    congr 1
    apply List.filter_congr
    intro e _
    by_cases he : e.1 = k <;> simp [he]
  · rw [if_neg h, if_neg h, List.filter_append]
    simp [hp]

theorem filter_mapSet_of_drop {β : Type} (p : Int → Bool) (m : JsMap β) (k : Int) (v : β)
    (hp : p k = false) :
    (mapSet m k v).filter (fun e => p e.1) = m.filter (fun e => p e.1) := by
  unfold mapSet
  by_cases h : mapHas m k = true
  · rw [if_pos h]
    induction m with
    | nil => rfl
    | cons e m ih =>
      by_cases he : e.1 = k
      · have hpe : p e.1 = false := by rw [he]; exact hp
        have ih' : List.filter (fun e => p e.1)
            (List.map (fun e => if e.1 = k then (k, v) else e) m) =
            List.filter (fun e => p e.1) m := by
          clear ih h
          induction m with
          | nil => rfl
          | cons a m ih2 =>
            by_cases ha : a.1 = k
            · have hpa : p a.1 = false := by rw [ha]; exact hp
              simp [ha, hp, hpa, ih2]
            · by_cases hpa : p a.1 = true
              · simp [ha, hpa, ih2]
              · simp [ha, hpa, ih2]
        simp [he, hp, hpe, ih']
      · have hm : mapHas m k = true := by
          simpa [mapHas, mapGet, he] using h
        by_cases hpe : p e.1 = true
        · simp [he, hpe, ih hm]
        · simp [he, hpe, ih hm]
  · rw [if_neg h, List.filter_append]
    simp [hp]

theorem mapKeys_filter_key {β : Type} (p : Int → Bool) (m : JsMap β) :
    mapKeys (m.filter (fun e => p e.1)) = (mapKeys m).filter p := by
  unfold mapKeys
  rw [List.filter_map]
  rfl

theorem getObject_of_no_tombstones (om : ObjectManager) (id : Int) (h : om.deletedObjects = []) :
    om.getObject id = mapGet om.objects id := by
  unfold getObject
  rw [h]
  rfl

theorem layerOrderCurrent_applyMove (om : ObjectManager) (id : Nat) (x y : Int)
    (h : LayerOrderCurrent om) : LayerOrderCurrent (applyMove om id x y) := by
  rcases applyMove_cases om id x y with h1 | ⟨obj, b, hg, hb, h1⟩
  · rw [h1]
    exact h
  · rw [h1]
    unfold LayerOrderCurrent
    have hm := ((getObject_eq_some om id obj).1 hg).2
    have hhas : mapHas om.objects id = true := by simp [mapHas, hm]
    rw [_updateLayerOrder_congr om
      { om with objects := mapSet om.objects id (moveObjectTo obj b x y) }
      (by simp [mapKeys_mapSet, hhas]) rfl
      (layerKey_congr _ _ (fun k => by
        by_cases hk : k = (id : Int)
        · subst hk
          simp only [mapGet_mapSet_self, hm]
          rfl
        · simp only [mapGet_mapSet_of_ne _ _ _ _ hk]))]
    exact h

theorem catchUpRel_create (L : Ledger) (me : Option Address) (d : JsSet)
    (pe rp : ObjectManager) (id : Nat) (build : ObjectInfo → DrawObj)
    (hbuild : ∀ info, (build info).id = (id : Int))
    (hremote : ∀ info, L.getObjectInfo id = some info → some info.creator ≠ me)
    (hdel : ∀ info, L.getObjectInfo id = some info → info.isDeleted = true →
      setHas d id = true)
    (h : CatchUpRel d pe rp) :
    CatchUpRel d (catchUpCreate L me pe id build) (replayCreate L d rp id build) := by
  obtain ⟨h1, h2, h3, h4, h5⟩ := h
  by_cases hD : setHas d id = true
  · have hrp : replayCreate L d rp id build = rp := by
      unfold replayCreate
      rw [if_pos hD]
    rw [hrp]
    rcases catchUpCreate_cases L me pe id build with hc | ⟨info, _, _, _, hc⟩
    · rw [hc]
      exact ⟨h1, h2, h3, h4, h5⟩
    · rw [hc]
      refine ⟨h1, h2, ?_, layerOrderCurrent_updateLayerOrder _, h5⟩
      show rp.objects = (mapSet pe.objects (build info).id (build info)).filter _
      rw [hbuild, filter_mapSet_of_drop (fun k => !setHas d k) _ _ _ (by simp [hD])]
      exact h3
  · have hD' : setHas d id = false := by simpa using hD
    have hhas : mapHas rp.objects id = mapHas pe.objects id := by
      unfold mapHas
      rw [h3, mapGet_filter_key (fun k => !setHas d k), if_pos (by simp [hD'])]
    unfold catchUpCreate replayCreate
    rw [if_neg hD, hhas]
    by_cases hm : mapHas pe.objects id = true
    · simp only [hm, Bool.not_true, if_true, Bool.false_eq_true, if_false]
      exact ⟨h1, h2, h3, h4, h5⟩
    · have hm' : mapHas pe.objects id = false := by simpa using hm
      simp only [hm', Bool.not_false, if_true, Bool.false_eq_true, if_false]
      cases hi : L.getObjectInfo id with
      | none => exact ⟨h1, h2, h3, h4, h5⟩
      | some info =>
        have hnd : info.isDeleted = false := by
          by_contra hcon
          exact hD (hdel info hi (by simpa using hcon))
        simp only [hnd, Bool.false_eq_true, if_false, if_pos (hremote info hi)]
        refine ⟨h1, h2, ?_, layerOrderCurrent_updateLayerOrder _,
          layerOrderCurrent_updateLayerOrder _⟩
        show mapSet rp.objects (build info).id (build info) =
          (mapSet pe.objects (build info).id (build info)).filter _
        rw [hbuild, filter_mapSet_of_keep (fun k => !setHas d k) _ _ _ (by simp [hD']), h3]

theorem catchUpRel_move (d : JsSet) (pe rp : ObjectManager) (id : Nat) (x y : Int)
    (h : CatchUpRel d pe rp) : CatchUpRel d (applyMove pe id x y) (applyMove rp id x y) := by
  obtain ⟨h1, h2, h3, h4, h5⟩ := h
  have hgp := getObject_of_no_tombstones pe id h1
  have hgr := getObject_of_no_tombstones rp id h2
  rw [h3, mapGet_filter_key (fun k => !setHas d k)] at hgr
  by_cases hD : setHas d id = true
  · have hrp : applyMove rp id x y = rp := by
      apply applyMove_of_not
      rintro ⟨obj, b, hg, -⟩
      rw [hgr] at hg
      simp [hD] at hg
    rw [hrp]
    rcases applyMove_cases pe id x y with hc | ⟨obj, b, _, _, hc⟩
    · rw [hc]
      exact ⟨h1, h2, h3, h4, h5⟩
    · refine ⟨by rw [applyMove_deletedObjects]; exact h1, h2, ?_,
        layerOrderCurrent_applyMove pe id x y h4, h5⟩
      rw [hc]
      show rp.objects = (mapSet pe.objects id (moveObjectTo obj b x y)).filter _
      rw [filter_mapSet_of_drop (fun k => !setHas d k) _ _ _ (by simp [hD])]
      exact h3
  · have hD' : setHas d id = false := by simpa using hD
    rw [if_pos (by simp [hD']), ← hgp] at hgr
    refine ⟨by rw [applyMove_deletedObjects]; exact h1,
      by rw [applyMove_deletedObjects]; exact h2, ?_,
      layerOrderCurrent_applyMove pe id x y h4, layerOrderCurrent_applyMove rp id x y h5⟩
    cases hg : pe.getObject id with
    | none =>
      have hc : applyMove pe id x y = pe :=
        applyMove_of_not pe id x y (by rintro ⟨obj, b, hg2, -⟩; rw [hg] at hg2; cases hg2)
      have hc2 : applyMove rp id x y = rp :=
        applyMove_of_not rp id x y (by
          rintro ⟨obj, b, hg2, -⟩
          rw [hgr, hg] at hg2
          cases hg2)
      rw [hc, hc2]
      exact h3
    | some obj =>
      cases hb : obj.bounds with
      | none =>
        have hc : applyMove pe id x y = pe :=
          applyMove_of_not pe id x y (by
            rintro ⟨obj2, b, hg2, hb2⟩
            rw [hg] at hg2
            cases hg2
            rw [hb] at hb2
            cases hb2)
        have hc2 : applyMove rp id x y = rp :=
          applyMove_of_not rp id x y (by
            rintro ⟨obj2, b, hg2, hb2⟩
            rw [hgr, hg] at hg2
            cases hg2
            rw [hb] at hb2
            cases hb2)
        rw [hc, hc2]
        exact h3
      | some b =>
        rw [applyMove_eq pe id x y obj b hg hb, applyMove_eq rp id x y obj b (hgr.trans hg) hb]
        show mapSet rp.objects id _ = (mapSet pe.objects id _).filter _
        rw [filter_mapSet_of_keep (fun k => !setHas d k) _ _ _ (by simp [hD']), h3]

theorem foldl_rel {σ τ ε : Type} (R : σ → τ → Prop) (f : σ → ε → σ) (g : τ → ε → τ)
    (l : List ε) (h : ∀ e ∈ l, ∀ a b, R a b → R (f a e) (g b e)) (a : σ) (b : τ) (hab : R a b) :
    R (l.foldl f a) (l.foldl g b) := by
  induction l generalizing a b with
  | nil => exact hab
  | cons e l ih =>
    exact ih (fun e' he' => h e' (List.mem_cons_of_mem _ he')) _ _
      (h e (List.mem_cons_self _ _) a b hab)

theorem orderedInsert_congr (r r' : Int → Int → Prop) [DecidableRel r] [DecidableRel r']
    (a : Int) (l : List Int) (h : ∀ b ∈ l, r a b ↔ r' a b) :
    List.orderedInsert r a l = List.orderedInsert r' a l := by
  induction l with
  | nil => rfl
  | cons b l ih =>
    have hb := h b (List.mem_cons_self _ _)
    by_cases hr : r a b
    · rw [List.orderedInsert, List.orderedInsert, if_pos hr, if_pos (hb.1 hr)]
    · rw [List.orderedInsert, List.orderedInsert, if_neg hr, if_neg (fun h' => hr (hb.2 h')),
        ih (fun c hc => h c (List.mem_cons_of_mem _ hc))]

theorem insertionSort_congr (r r' : Int → Int → Prop) [DecidableRel r] [DecidableRel r']
    (l : List Int) (h : ∀ a ∈ l, ∀ b ∈ l, r a b ↔ r' a b) :
    List.insertionSort r l = List.insertionSort r' l := by
  induction l with
  | nil => rfl
  | cons a l ih =>
    have ih' := ih (fun x hx y hy => h x (List.mem_cons_of_mem _ hx) y (List.mem_cons_of_mem _ hy))
    rw [List.insertionSort, List.insertionSort, ih']
    apply orderedInsert_congr
    intro b hb
    exact h a (List.mem_cons_self _ _) b
      (List.mem_cons_of_mem _ ((List.perm_insertionSort r' l).mem_iff.1 hb))

theorem foldl_catchUpDelete_remote (me : Option Address) (l : List ObjectDeletedEvent)
    (om : ObjectManager) (h : ∀ e ∈ l, some e.user ≠ me) (hc : LayerOrderCurrent om) :
    (l.foldl (catchUpDelete me) om).objects = om.objects ∧
      (l.foldl (catchUpDelete me) om).deletedObjects =
        l.foldl (fun s e => setAdd s e.objectId) om.deletedObjects ∧
      LayerOrderCurrent (l.foldl (catchUpDelete me) om) := by
  induction l generalizing om with
  | nil => exact ⟨rfl, rfl, hc⟩
  | cons e l ih =>
    have he : catchUpDelete me om e = om.deleteObject e.objectId := by
      unfold catchUpDelete
      rw [if_neg (h e (List.mem_cons_self _ _))]
    obtain ⟨h1, h2, h3⟩ := ih (om.deleteObject e.objectId)
      (fun e' he' => h e' (List.mem_cons_of_mem _ he')) (layerOrderCurrent_updateLayerOrder _)
    rw [List.foldl_cons, List.foldl_cons, he]
    exact ⟨h1, h2, h3⟩

theorem replayFromBlock_of_no_clear (L : Ledger) (toBlock : Nat)
    (h : queryFilter CanvasClearedEvent.blockNumber L.canvasCleared 0 toBlock = []) :
    replayFromBlock L toBlock = 0 := by
  unfold replayFromBlock
  rw [h]
  rfl

theorem catchUpLoops_eq (L : Ledger) (me : Option Address) (fromBlock toBlock : Nat)
    (om : ObjectManager) :
    catchUpLoops L me fromBlock toBlock om =
      (queryFilter ContentUpdatedEvent.blockNumber L.contentUpdated fromBlock toBlock).foldl
        catchUpContent
        ((queryFilter ObjectDeletedEvent.blockNumber L.objectDeleted fromBlock toBlock).foldl
          (catchUpDelete me)
          ((queryFilter ObjectMovedEvent.blockNumber L.objectMoved fromBlock toBlock).foldl
            (catchUpMove me)
            ((queryFilter TextDataEvent.blockNumber L.textData fromBlock toBlock).foldl
              (fun om e => catchUpCreate L me om e.objectId (textObject e))
              ((queryFilter StickyNoteDataEvent.blockNumber L.stickyNoteData fromBlock
                toBlock).foldl
                (fun om e => catchUpCreate L me om e.objectId (stickyObject e))
                ((queryFilter ShapeGeometryEvent.blockNumber L.shapeGeometry fromBlock
                  toBlock).foldl
                  (fun om e => catchUpCreate L me om e.objectId (shapeObject e))
                  ((queryFilter StrokePointsEvent.blockNumber L.strokePoints fromBlock
                    toBlock).foldl
                    (fun om e => catchUpCreate L me om e.objectId (strokeObject e)) om)))))) :=
  rfl

theorem loadInitialState_eq (L : Ledger) (toBlock : Nat) (om : ObjectManager) :
    loadInitialState L toBlock om =
      (queryFilter ObjectMovedEvent.blockNumber L.objectMoved (replayFromBlock L toBlock)
        toBlock).foldl (fun om e => applyMove om e.objectId e.newX e.newY)
        ((queryFilter TextDataEvent.blockNumber L.textData (replayFromBlock L toBlock)
          toBlock).foldl
          (fun om e => replayCreate L (replayDeletedIds L toBlock) om e.objectId (textObject e))
          ((queryFilter StickyNoteDataEvent.blockNumber L.stickyNoteData
            (replayFromBlock L toBlock) toBlock).foldl
            (fun om e =>
              replayCreate L (replayDeletedIds L toBlock) om e.objectId (stickyObject e))
            ((queryFilter ShapeGeometryEvent.blockNumber L.shapeGeometry
              (replayFromBlock L toBlock) toBlock).foldl
              (fun om e =>
                replayCreate L (replayDeletedIds L toBlock) om e.objectId (shapeObject e))
              ((queryFilter StrokePointsEvent.blockNumber L.strokePoints
                (replayFromBlock L toBlock) toBlock).foldl
                (fun om e =>
                  replayCreate L (replayDeletedIds L toBlock) om e.objectId (strokeObject e))
                om)))) :=
  rfl

theorem catchUpRel_new (d : JsSet) : CatchUpRel d ObjectManager.new ObjectManager.new :=
  ⟨rfl, rfl, rfl, rfl, rfl⟩

theorem getObjectsInLayerOrder_of_rel (d : JsSet) (pe rp : ObjectManager)
    (hpd : pe.deletedObjects = d) (hrd : rp.deletedObjects = [])
    (hobj : rp.objects = pe.objects.filter (fun e => !setHas d e.1))
    (hpc : LayerOrderCurrent pe) (hrc : LayerOrderCurrent rp) :
    pe.getObjectsInLayerOrder = rp.getObjectsInLayerOrder ∧
      ∀ id, pe.getObject id = rp.getObject id := by
  have hget : ∀ id, setHas d id = false → mapGet rp.objects id = mapGet pe.objects id := by
    intro id hid
    rw [hobj, mapGet_filter_key (fun k => !setHas d k), if_pos (by simp [hid])]
  constructor
  · unfold getObjectsInLayerOrder
    rw [visibleIds_eq_layerOrder pe hpc, visibleIds_eq_layerOrder rp hrc, hpc, hrc]
    have hkeys : (mapKeys rp.objects).filter (fun id => !setHas rp.deletedObjects id) =
        (mapKeys pe.objects).filter (fun id => !setHas pe.deletedObjects id) := by
      rw [hrd, hpd, hobj, mapKeys_filter_key (fun k => !setHas d k)]
      apply List.filter_eq_self.2
      intro a _
      rfl
    have hmem : ∀ a ∈ (mapKeys pe.objects).filter (fun id => !setHas pe.deletedObjects id),
        setHas d a = false := by
      intro a ha
      have := (List.mem_filter.1 ha).2
      rw [hpd] at this
      simpa using this
    have hkey : ∀ a ∈ (mapKeys pe.objects).filter (fun id => !setHas pe.deletedObjects id),
        rp.layerKey a = pe.layerKey a := by
      intro a ha
      unfold layerKey
      rw [hget a (hmem a ha)]
    show List.map _ (List.insertionSort _ _) = List.map _ (List.insertionSort _ _)
    rw [hkeys, insertionSort_congr (fun a b => rp.layerKey a ≤ rp.layerKey b)
      (fun a b => pe.layerKey a ≤ pe.layerKey b) _
      (fun a ha b hb => by show rp.layerKey a ≤ rp.layerKey b ↔ _; rw [hkey a ha, hkey b hb])]
    apply List.map_congr_left
    intro a ha
    have ha' := (List.perm_insertionSort _ _).mem_iff.1 ha
    exact (hget a (hmem a ha')).symm
  · intro id
    unfold getObject
    rw [hpd, hrd]
    by_cases hid : setHas d id = true
    · rw [if_pos hid, hobj, mapGet_filter_key (fun k => !setHas d k)]
      simp [hid]
    · have hid' : setHas d id = false := by simpa using hid
      rw [if_neg hid, hget id hid']
      rfl

theorem catchUp_matches_replay (L : Ledger) (me : Option Address) (toBlock : Nat)
    (hremote : RemoteOnlyRange L me 0 toBlock)
    (hclear : queryFilter CanvasClearedEvent.blockNumber L.canvasCleared 0 toBlock = [])
    (hcontent : queryFilter ContentUpdatedEvent.blockNumber L.contentUpdated 0 toBlock = [])
    (hlookup : DeletedOnlyInRange L 0 toBlock) :
    (catchUpLoops L me 0 toBlock ObjectManager.new).getObjectsInLayerOrder =
        (loadInitialState L toBlock ObjectManager.new).getObjectsInLayerOrder ∧
      ∀ id, (catchUpLoops L me 0 toBlock ObjectManager.new).getObject id =
        (loadInitialState L toBlock ObjectManager.new).getObject id := by
  obtain ⟨hr1, hr2, hr3, hr4, hr5, hr6⟩ := hremote
  have hfrom := replayFromBlock_of_no_clear L toBlock hclear
  have hD : ∀ id info, L.getObjectInfo id = some info → info.isDeleted = true →
      setHas (replayDeletedIds L toBlock) id = true := by
    intro id info hi hdel
    obtain ⟨e, he, hid⟩ := hlookup id info hi hdel
    unfold replayDeletedIds
    rw [hfrom]
    exact setHas_foldl_setAdd (fun e : ObjectDeletedEvent => (e.objectId : Int)) _ _ _
      (Or.inr ⟨e, he, by show (e.objectId : Int) = id; rw [hid]⟩)
  rw [catchUpLoops_eq, loadInitialState_eq, hcontent, hfrom, List.foldl_nil]
  have hrel : CatchUpRel (replayDeletedIds L toBlock)
      ((queryFilter ObjectMovedEvent.blockNumber L.objectMoved 0 toBlock).foldl
        (catchUpMove me)
        ((queryFilter TextDataEvent.blockNumber L.textData 0 toBlock).foldl
          (fun om e => catchUpCreate L me om e.objectId (textObject e))
          ((queryFilter StickyNoteDataEvent.blockNumber L.stickyNoteData 0 toBlock).foldl
            (fun om e => catchUpCreate L me om e.objectId (stickyObject e))
            ((queryFilter ShapeGeometryEvent.blockNumber L.shapeGeometry 0 toBlock).foldl
              (fun om e => catchUpCreate L me om e.objectId (shapeObject e))
              ((queryFilter StrokePointsEvent.blockNumber L.strokePoints 0 toBlock).foldl
                (fun om e => catchUpCreate L me om e.objectId (strokeObject e))
                ObjectManager.new)))))
      ((queryFilter ObjectMovedEvent.blockNumber L.objectMoved 0 toBlock).foldl
        (fun om e => applyMove om e.objectId e.newX e.newY)
        ((queryFilter TextDataEvent.blockNumber L.textData 0 toBlock).foldl
          (fun om e => replayCreate L (replayDeletedIds L toBlock) om e.objectId (textObject e))
          ((queryFilter StickyNoteDataEvent.blockNumber L.stickyNoteData 0 toBlock).foldl
            (fun om e =>
              replayCreate L (replayDeletedIds L toBlock) om e.objectId (stickyObject e))
            ((queryFilter ShapeGeometryEvent.blockNumber L.shapeGeometry 0 toBlock).foldl
              (fun om e =>
                replayCreate L (replayDeletedIds L toBlock) om e.objectId (shapeObject e))
              ((queryFilter StrokePointsEvent.blockNumber L.strokePoints 0 toBlock).foldl
                (fun om e =>
                  replayCreate L (replayDeletedIds L toBlock) om e.objectId (strokeObject e))
                ObjectManager.new))))) := by
    apply foldl_rel (CatchUpRel (replayDeletedIds L toBlock))
    · intro e he a b hab
      rw [catchUpMove_of_remote me a e (hr5 e he)]
      exact catchUpRel_move _ a b _ _ _ hab
    apply foldl_rel (CatchUpRel (replayDeletedIds L toBlock))
    · intro e he a b hab
      exact catchUpRel_create L me _ a b e.objectId (textObject e) (fun _ => rfl) (hr4 e he)
        (hD e.objectId) hab
    apply foldl_rel (CatchUpRel (replayDeletedIds L toBlock))
    · intro e he a b hab
      exact catchUpRel_create L me _ a b e.objectId (stickyObject e) (fun _ => rfl) (hr3 e he)
        (hD e.objectId) hab
    apply foldl_rel (CatchUpRel (replayDeletedIds L toBlock))
    · intro e he a b hab
      exact catchUpRel_create L me _ a b e.objectId (shapeObject e) (fun _ => rfl) (hr2 e he)
        (hD e.objectId) hab
    apply foldl_rel (CatchUpRel (replayDeletedIds L toBlock))
    · intro e he a b hab
      exact catchUpRel_create L me _ a b e.objectId (strokeObject e) (fun _ => rfl) (hr1 e he)
        (hD e.objectId) hab
    exact catchUpRel_new _
  obtain ⟨h1, h2, h3, h4, h5⟩ := hrel
  obtain ⟨d1, d2, d3⟩ := foldl_catchUpDelete_remote me
    (queryFilter ObjectDeletedEvent.blockNumber L.objectDeleted 0 toBlock) _ hr6 h4
  refine getObjectsInLayerOrder_of_rel (replayDeletedIds L toBlock) _ _ ?_ h2 ?_ d3 h5
  · rw [d2, h1]
    unfold replayDeletedIds
    rw [hfrom]
  · rw [d1]
    exact h3

/-- C26.  For a ledger whose blocks `0` to `toBlock` hold no clear and no content-update
event and only creation, move and delete events of remote participants, and whose attribute
lookup reports an object as deleted only when these blocks hold a delete event for it,
`processEvents` over the blocks `0` to `toBlock` on the empty store and `loadInitialState` up
to `toBlock` on the empty store end with the same list `getObjectsInLayerOrder` (the same
objects with all their fields, in the same order), and `getObject` returns the same for
every id. -/
theorem processEvents_matches_replay (L : Ledger) (me : Option Address) (toBlock : Nat)
    (sel : SelectionSystem) (hremote : RemoteOnlyRange L me 0 toBlock)
    (hclear : queryFilter CanvasClearedEvent.blockNumber L.canvasCleared 0 toBlock = [])
    (hcontent : queryFilter ContentUpdatedEvent.blockNumber L.contentUpdated 0 toBlock = [])
    (hlookup : DeletedOnlyInRange L 0 toBlock) :
    (processEvents L me 0 toBlock
        { objectManager := ObjectManager.new, selectionSystem := sel }).objectManager.getObjectsInLayerOrder =
        (loadInitialState L toBlock ObjectManager.new).getObjectsInLayerOrder ∧
      ∀ id,
        (processEvents L me 0 toBlock
          { objectManager := ObjectManager.new, selectionSystem := sel }).objectManager.getObject
            id =
          (loadInitialState L toBlock ObjectManager.new).getObject id := by
  have hpe : (processEvents L me 0 toBlock
      { objectManager := ObjectManager.new, selectionSystem := sel }).objectManager =
      catchUpLoops L me 0 toBlock ObjectManager.new := by
    unfold processEvents
    rw [hclear]
    rfl
  rw [hpe]
  exact catchUp_matches_replay L me toBlock hremote hclear hcontent hlookup

/-- The remote ledger: both paths end with the rectangle `2` at `(30, 30)` as the only
visible object. -/
theorem processEvents_matches_replay_witness :
    (processEvents remoteLedger (some 7) 0 2
        { objectManager := ObjectManager.new,
          selectionSystem := SelectionSystem.new }).objectManager.getObjectsInLayerOrder =
      (loadInitialState remoteLedger 2 ObjectManager.new).getObjectsInLayerOrder ∧
    (loadInitialState remoteLedger 2 ObjectManager.new).getObjectsInLayerOrder.map
        (fun o => o.bind (fun obj => obj.bounds)) =
      [some { x := 30, y := 30, width := 10, height := 10 }] :=
  ⟨(processEvents_matches_replay remoteLedger (some 7) 2 SelectionSystem.new
      ⟨by
        intro e he info hi
        have : e.objectId = 5 := by
          simp [queryFilter, remoteLedger] at he
          rw [he]
        rw [this] at hi
        simp [remoteLedger] at hi
        rw [← hi]
        decide,
      by
        intro e he info hi
        have : e.objectId = 2 := by
          simp [queryFilter, remoteLedger] at he
          rw [he]
        rw [this] at hi
        simp [remoteLedger] at hi
        rw [← hi]
        decide,
      by
        intro e he
        simp [queryFilter, remoteLedger] at he,
      by
        intro e he
        simp [queryFilter, remoteLedger] at he,
      by decide, by decide⟩
      (by decide) (by decide)
      (by
        intro id info hi hd
        by_cases h2 : id = 2
        · subst h2
          simp [remoteLedger] at hi
          rw [← hi] at hd
          simp at hd
        · by_cases h5 : id = 5
          · subst h5
            exact ⟨⟨2, 9, 5⟩, by decide, rfl⟩
          · simp [remoteLedger, h2, h5] at hi)).1,
    by decide⟩

end Board
